import Mathlib
set_option maxRecDepth 100000

/-
Verification development for the mcp-db-schema-tools repository.

The repository converts between a database-agnostic JSON schema
representation and SQL DDL (SQLite, PostgreSQL, MySQL), validates the JSON
representation, merges schema documents, materializes schemas against a
live database and introspects live databases back into JSON.

The embedding below models JSON documents as the inductive type JVal and
models the Python code of src/mcp_db_schema_tools/schema_validator.py and
src/mcp_db_schema_tools/schema_converter.py as Lean functions over JVal.
Python operations that can raise are modelled in the Except String monad:
every place the Python code would raise an exception, the Lean function
returns Except.error with the exception kind.  Python dicts are modelled
as insertion-ordered association lists (Python dicts preserve insertion
order and cannot hold duplicate keys), Python string formatting is
modelled with explicit string concatenation, and JSON numbers are
modelled as integers (no claim involves floating point values).
-/

/-- A JSON value as produced by json.loads: null, booleans, integers,
strings, arrays and objects.  Objects keep insertion order. -/
inductive JVal where
  | jnull : JVal
  | jbool : Bool → JVal
  | jint : Int → JVal
  | jstr : String → JVal
  | jarr : List JVal → JVal
  | jobj : List (String × JVal) → JVal
deriving Repr

mutual

/-- Python equality (the == operator) on JSON values: True == 1 and
False == 0 hold because bool is an int subtype; lists compare pointwise;
dicts compare by key set, insertion order is irrelevant. -/
def pyEq : JVal → JVal → Bool
  | .jnull, .jnull => true
  | .jnull, _ => false
  | .jbool a, .jbool b => a == b
  | .jbool a, .jint n => (if a then (1 : Int) else 0) == n
  | .jbool _, _ => false
  | .jint n, .jint m => n == m
  | .jint n, .jbool b => n == (if b then (1 : Int) else 0)
  | .jint _, _ => false
  | .jstr s, .jstr t => s == t
  | .jstr _, _ => false
  | .jarr xs, .jarr ys => pyEqL xs ys
  | .jarr _, _ => false
  | .jobj xs, .jobj ys => xs.length == ys.length && pyEqEntries xs (.jobj ys)
  | .jobj _, _ => false

/-- Pointwise Python equality of two lists. -/
def pyEqL : List JVal → List JVal → Bool
  | [], [] => true
  | x :: xs, y :: ys => pyEq x y && pyEqL xs ys
  | _, _ => false

/-- Every entry of the first object is present with a Python-equal value
in the second value (which must be an object). -/
def pyEqEntries : List (String × JVal) → JVal → Bool
  | [], _ => true
  | (k, v) :: rest, other =>
      (match other with
       | .jobj ys =>
         (match ys.find? (fun p => p.1 == k) with
          | some p2 => pyEq v p2.2
          | none => false)
       | _ => false) && pyEqEntries rest other

end

/-- Python truthiness: None, False, 0, empty string, empty list and empty
dict are falsy, everything else is truthy. -/
def pyTruthy : JVal → Bool
  | .jnull => false
  | .jbool b => b
  | .jint n => n != 0
  | .jstr s => s != ""
  | .jarr xs => !xs.isEmpty
  | .jobj kvs => !kvs.isEmpty

mutual

/-- Python str() of a value as used inside f-strings. -/
def pyStr : JVal → String
  | .jnull => "None"
  | .jbool b => if b then "True" else "False"
  | .jint n => toString n
  | .jstr s => s
  | .jarr xs => "[" ++ pyReprList xs ++ "]"
  | .jobj kvs => "\x7b" ++ pyReprEntries kvs ++ "\x7d"

/-- Python repr() of a value: like str() but strings are quoted. -/
def pyRepr : JVal → String
  | .jstr s => "'" ++ s ++ "'"
  | .jnull => "None"
  | .jbool b => if b then "True" else "False"
  | .jint n => toString n
  | .jarr xs => "[" ++ pyReprList xs ++ "]"
  | .jobj kvs => "\x7b" ++ pyReprEntries kvs ++ "\x7d"

/-- Comma-separated reprs of list elements. -/
def pyReprList : List JVal → String
  | [] => ""
  | [x] => pyRepr x
  | x :: xs => pyRepr x ++ ", " ++ pyReprList xs

/-- Comma-separated reprs of dict entries. -/
def pyReprEntries : List (String × JVal) → String
  | [] => ""
  | [(k, v)] => "'" ++ k ++ "': " ++ pyRepr v
  | (k, v) :: kvs => "'" ++ k ++ "': " ++ pyRepr v ++ ", " ++ pyReprEntries kvs

end

/-- Whether the list p is a prefix of the list l (over characters). -/
def listPrefixOf : List Char → List Char → Bool
  | [], _ => true
  | _ :: _, [] => false
  | p :: ps, c :: cs => p == c && listPrefixOf ps cs

/-- Whether the list p occurs contiguously inside the list l. -/
def listInfixOf (p : List Char) : List Char → Bool
  | [] => listPrefixOf p []
  | c :: cs => listPrefixOf p (c :: cs) || listInfixOf p cs

/-- Python substring containment: pat in s. -/
def sContains (s pat : String) : Bool :=
  listInfixOf pat.toList s.toList

/-- Python s.startswith(pat). -/
def sStartsWith (s pat : String) : Bool :=
  listPrefixOf pat.toList s.toList

/-- Python s.endswith(pat). -/
def sEndsWith (s pat : String) : Bool :=
  listPrefixOf pat.toList.reverse s.toList.reverse

/-- Python s.lower() (ASCII case folding, which is all the code relies on). -/
def strLower (s : String) : String :=
  String.mk (s.toList.map Char.toLower)

/-- Python s.upper() (ASCII case folding). -/
def strUpper (s : String) : String :=
  String.mk (s.toList.map Char.toUpper)

/-- Python s.strip() restricted to ASCII whitespace. -/
def strStrip (s : String) : String :=
  String.mk ((s.toList.dropWhile Char.isWhitespace).reverse.dropWhile Char.isWhitespace |>.reverse)

/-- Python s.split(sep)[0] for a single-character separator: the part of s
before the first occurrence of that character. -/
def strBefore (s : String) (c : Char) : String :=
  String.mk (s.toList.takeWhile (fun x => x != c))

/-- Splits a character list on a separator character, Python style:
splitting the empty list yields one empty part. -/
def splitCharAux (sep : Char) : List Char → List Char → List (List Char)
  | [], acc => [acc.reverse]
  | x :: xs, acc =>
      if x == sep then acc.reverse :: splitCharAux sep xs []
      else splitCharAux sep xs (x :: acc)

/-- Python s.split(sep) for a single-character separator. -/
def strSplit (s : String) (sep : Char) : List String :=
  (splitCharAux sep s.toList []).map String.mk

/-- Python s.isdigit() for ASCII digits. -/
def strIsDigit (s : String) : Bool :=
  s != "" && s.toList.all Char.isDigit

/-- Python sep.join(xs). -/
def joinSep (sep : String) : List String → String
  | [] => ""
  | [x] => x
  | x :: xs => x ++ sep ++ joinSep sep xs

/-- First value stored under a key in an association-list object. -/
def objLookup (kvs : List (String × JVal)) (k : String) : Option JVal :=
  (kvs.find? (fun p => p.1 == k)).map (fun p => p.2)

/-- Stores a value under a key, Python dict style: an existing key keeps
its position and gets the new value, a new key is appended at the end. -/
def objStore (kvs : List (String × JVal)) (k : String) (v : JVal) : List (String × JVal) :=
  match kvs with
  | [] => [(k, v)]
  | (k0, v0) :: rest =>
      if k0 == k then (k0, v) :: rest else (k0, v0) :: objStore rest k v

/-- Requires a dict, as Python attribute access .items()/.keys()/.values()
/.get/.copy does; anything else raises AttributeError. -/
def asObj : JVal → Except String (List (String × JVal))
  | .jobj kvs => .ok kvs
  | _ => .error "AttributeError"

/-- Requires a string, as Python string-method access (.split, .lower,
.startswith, .upper, ...) does; anything else raises AttributeError. -/
def asStr : JVal → Except String String
  | .jstr s => .ok s
  | _ => .error "AttributeError"

/-- Python d.get(k, default) — d must be a dict. -/
def pyGet (v : JVal) (k : String) (d : JVal) : Except String JVal := do
  let kvs ← asObj v
  pure ((objLookup kvs k).getD d)

/-- Python d[k] for a string key: dict lookup (KeyError when absent);
subscription of a list or string with a string key raises TypeError, and
of any non-container raises TypeError. -/
def pyGetItemS (v : JVal) (k : String) : Except String JVal :=
  match v with
  | .jobj kvs =>
      match objLookup kvs k with
      | some x => .ok x
      | none => .error ("KeyError: " ++ k)
  | _ => .error "TypeError"

/-- Python c[key] for an arbitrary key value: dicts require a hashable key
(lists/dicts raise TypeError) and only hold string keys here, so
non-string hashable keys give KeyError; lists and strings index with
ints/bools (IndexError out of range), anything else raises TypeError. -/
def pyGetItemV (v : JVal) (key : JVal) : Except String JVal :=
  match v with
  | .jobj kvs =>
      match key with
      | .jarr _ => .error "TypeError"
      | .jobj _ => .error "TypeError"
      | .jstr k =>
          match objLookup kvs k with
          | some x => .ok x
          | none => .error ("KeyError: " ++ k)
      | _ => .error "KeyError"
  | .jarr xs =>
      match key with
      | .jint n =>
          if h : 0 ≤ n ∧ n.toNat < xs.length then .ok (xs.get ⟨n.toNat, h.2⟩)
          else .error "IndexError"
      | .jbool b =>
          let n := if b then 1 else 0
          if h : n < xs.length then .ok (xs.get ⟨n, h⟩) else .error "IndexError"
      | _ => .error "TypeError"
  | .jstr s =>
      match key with
      | .jint n =>
          if 0 ≤ n ∧ n.toNat < s.length then
            .ok (.jstr (String.mk [s.toList.getD n.toNat ' ']))
          else .error "IndexError"
      | _ => .error "TypeError"
  | _ => .error "TypeError"

/-- Python membership test k in v for a string literal k: dicts test keys,
lists test elements with ==, strings test substring containment;
non-iterables raise TypeError. -/
def pyContainsS (k : String) (v : JVal) : Except String Bool :=
  match v with
  | .jobj kvs => .ok (kvs.any (fun p => p.1 == k))
  | .jarr xs => .ok (xs.any (fun x => pyEq x (.jstr k)))
  | .jstr s => .ok (sContains s k)
  | _ => .error "TypeError"

/-- Python membership test x in v for an arbitrary value x: dict
membership hashes x (lists/dicts raise TypeError) and compares against the
(string) keys; list membership uses ==; string membership requires a
string x; non-iterables raise TypeError. -/
def pyContainsV (x : JVal) (v : JVal) : Except String Bool :=
  match v with
  | .jobj kvs =>
      match x with
      | .jarr _ => .error "TypeError"
      | .jobj _ => .error "TypeError"
      | .jstr k => .ok (kvs.any (fun p => p.1 == k))
      | _ => .ok false
  | .jarr xs => .ok (xs.any (fun y => pyEq y x))
  | .jstr s =>
      match x with
      | .jstr k => .ok (sContains s k)
      | _ => .error "TypeError"
  | _ => .error "TypeError"

/-- Python iteration over a value: lists yield elements, dicts yield keys,
strings yield one-character strings; non-iterables raise TypeError. -/
def pyIter : JVal → Except String (List JVal)
  | .jarr xs => .ok xs
  | .jobj kvs => .ok (kvs.map (fun p => JVal.jstr p.1))
  | .jstr s => .ok (s.toList.map (fun c => JVal.jstr (String.mk [c])))
  | _ => .error "TypeError"

/-- Python len(): strings, lists and dicts have a length, anything else
raises TypeError. -/
def pyLen : JVal → Except String Nat
  | .jstr s => .ok s.length
  | .jarr xs => .ok xs.length
  | .jobj kvs => .ok kvs.length
  | _ => .error "TypeError"

/-- Whether a value may enter a Python set (lists and dicts are
unhashable). -/
def pyHashable : JVal → Bool
  | .jarr _ => false
  | .jobj _ => false
  | _ => true

/-- Membership in a Python set modelled as a list without duplicates. -/
def pySetMem (xs : List JVal) (x : JVal) : Bool :=
  xs.any (fun y => pyEq y x)

/-- Python set.add, keeping insertion order and ignoring duplicates. -/
def pySetAdd (xs : List JVal) (x : JVal) : List JVal :=
  if pySetMem xs x then xs else xs ++ [x]

/-- Python membership of a value in a set of string constants (used for
the ON DELETE / ON UPDATE action sets): unhashable values raise
TypeError. -/
def pyInStrSet (x : JVal) (ss : List String) : Except String Bool :=
  match x with
  | .jarr _ => .error "TypeError"
  | .jobj _ => .error "TypeError"
  | .jstr s => .ok (ss.any (fun t => t == s))
  | _ => .ok false

/-
Embedding of src/mcp_db_schema_tools/schema_validator.py (class
SchemaValidator).  The class holds no state beyond the constant
valid_types set, so its methods become plain functions.  Error and
warning message strings are factored into msg-prefixed definitions,
built with explicit concatenation mirroring the Python f-strings.
-/

/-- The SchemaValidator.valid_types set. -/
def valid_types : List String :=
  ["INTEGER", "VARCHAR", "TEXT", "DATETIME", "DATE",
   "BOOLEAN", "JSON", "ENUM", "REAL", "BLOB"]

/-- The valid_actions set of _validate_foreign_key. -/
def valid_actions : List String :=
  ["CASCADE", "SET NULL", "RESTRICT", "NO ACTION"]

def msgMissingDatabase : String := "Missing 'database' section - using defaults"

def msgMissingTables : String := "Missing 'tables' section - schema must contain tables"

def msgTableMissingColumns (t : String) : String :=
  "Table '" ++ t ++ "': Missing 'columns' definition"

def msgTableNoColumns (t : String) : String :=
  "Table '" ++ t ++ "': No columns defined"

def msgNoPrimaryKey (t : String) : String :=
  "Table '" ++ t ++ "': No primary key defined"

def msgMultiplePrimaryKeys (t : String) : String :=
  "Table '" ++ t ++ "': Multiple primary keys defined"

def msgMissingType (t c : String) : String :=
  "Table '" ++ t ++ "', column '" ++ c ++ "': Missing 'type' field"

def msgInvalidType (t c ty : String) : String :=
  "Table '" ++ t ++ "', column '" ++ c ++ "': Invalid type '" ++ ty ++ "'"

def msgEnumRequiresValues (t c : String) : String :=
  "Table '" ++ t ++ "', column '" ++ c ++ "': ENUM type requires 'values' field"

def msgEnumNonEmpty (t c : String) : String :=
  "Table '" ++ t ++ "', column '" ++ c ++ "': ENUM values must be non-empty list"

def msgPkNullable (t c : String) : String :=
  "Table '" ++ t ++ "', column '" ++ c ++ "': Primary key cannot be nullable"

def msgFkMissingTable (t c : String) : String :=
  "Table '" ++ t ++ "', column '" ++ c ++ "': Foreign key missing 'table' field"

def msgFkMissingColumn (t c : String) : String :=
  "Table '" ++ t ++ "', column '" ++ c ++ "': Foreign key missing 'column' field"

def msgFkTableNotExist (t c rt : String) : String :=
  "Table '" ++ t ++ "', column '" ++ c ++ "': Referenced table '" ++ rt ++ "' does not exist"

def msgFkColumnNotExist (t c rt rc : String) : String :=
  "Table '" ++ t ++ "', column '" ++ c ++ "': Referenced column '" ++ rt ++ "." ++ rc ++ "' does not exist"

def msgFkInvalidOnDelete (t c a : String) : String :=
  "Table '" ++ t ++ "', column '" ++ c ++ "': Invalid ON DELETE action '" ++ a ++ "'"

def msgFkInvalidOnUpdate (t c a : String) : String :=
  "Table '" ++ t ++ "', column '" ++ c ++ "': Invalid ON UPDATE action '" ++ a ++ "'"

def msgIndexMissingName (t : String) : String :=
  "Table '" ++ t ++ "': Index missing 'name' field"

def msgIndexMissingColumns (t n : String) : String :=
  "Table '" ++ t ++ "': Index '" ++ n ++ "' missing 'columns' field"

def msgIndexDuplicate (t n : String) : String :=
  "Table '" ++ t ++ "': Duplicate index name '" ++ n ++ "'"

def msgIndexColNotExist (t n c : String) : String :=
  "Table '" ++ t ++ "', index '" ++ n ++ "': Column '" ++ c ++ "' does not exist"

def msgRelMissing : String := "Relationship missing 'from' or 'to' field"

def msgRelInvalidFormat (f t : String) : String :=
  "Invalid relationship format: '" ++ f ++ "' -> '" ++ t ++ "'"

def msgRelTable (t : String) : String :=
  "Relationship references non-existent table '" ++ t ++ "'"

def msgRelColumn (t c : String) : String :=
  "Relationship references non-existent column '" ++ t ++ "." ++ c ++ "'"

def msgSeedTable (t : String) : String :=
  "Seed data references non-existent table '" ++ t ++ "'"

def msgSeedDict (t : String) (i : Nat) : String :=
  "Seed data for '" ++ t ++ "', record " ++ toString i ++ ": Must be a dictionary"

def msgSeedCol (t : String) (i : Nat) (c : String) : String :=
  "Seed data for '" ++ t ++ "', record " ++ toString i ++ ": Column '" ++ c ++ "' does not exist"

def msgSeedMissing (t : String) (i : Nat) (c : String) : String :=
  "Seed data for '" ++ t ++ "', record " ++ toString i ++ ": Missing required column '" ++ c ++ "'"

def msgCircular (t : String) : String :=
  "Circular dependency detected involving table '" ++ t ++ "'"

/-- SchemaValidator._validate_foreign_key. -/
def validate_foreign_key (tableName colName : String) (fkInfo : JVal) (allTables : JVal) :
    Except String (List String) := do
  let hasTable ← pyContainsS "table" fkInfo
  if !hasTable then
    return [msgFkMissingTable tableName colName]
  let hasColumn ← pyContainsS "column" fkInfo
  if !hasColumn then
    return [msgFkMissingColumn tableName colName]
  let refTable ← pyGetItemS fkInfo "table"
  let refColumn ← pyGetItemS fkInfo "column"
  let memT ← pyContainsV refTable allTables
  if !memT then
    return [msgFkTableNotExist tableName colName (pyStr refTable)]
  let refTarget ← pyGetItemV allTables refTable
  let refTableColumns ← pyGet refTarget "columns" (.jobj [])
  let memC ← pyContainsV refColumn refTableColumns
  let errors := if !memC then
      [msgFkColumnNotExist tableName colName (pyStr refTable) (pyStr refColumn)]
    else []
  let hasOD ← pyContainsS "on_delete" fkInfo
  let errors ← if hasOD then do
      let act ← pyGetItemS fkInfo "on_delete"
      let mem ← pyInStrSet act valid_actions
      pure (if !mem then errors ++ [msgFkInvalidOnDelete tableName colName (pyStr act)] else errors)
    else pure errors
  let hasOU ← pyContainsS "on_update" fkInfo
  let errors ← if hasOU then do
      let act ← pyGetItemS fkInfo "on_update"
      let mem ← pyInStrSet act valid_actions
      pure (if !mem then errors ++ [msgFkInvalidOnUpdate tableName colName (pyStr act)] else errors)
    else pure errors
  return errors

/-- Python isinstance(x, (int, str)): bools count as ints. -/
def isIntOrStr : JVal → Bool
  | .jint _ => true
  | .jbool _ => true
  | .jstr _ => true
  | _ => false

/-- The constant list [True, False, "true", "false", 0, 1] from
_validate_default_value. -/
def booleanDefaultLiterals : List JVal :=
  [.jbool true, .jbool false, .jstr "true", .jstr "false", .jint 0, .jint 1]

/-- SchemaValidator._validate_default_value (returns warnings only). -/
def validate_default_value (tableName colName : String) (colInfo : JVal) :
    Except String (List String) := do
  let colType ← pyGetItemS colInfo "type"
  let defaultVal ← pyGetItemS colInfo "default"
  if pyEq colType (.jstr "INTEGER") && !isIntOrStr defaultVal then
    pure ["Table '" ++ tableName ++ "', column '" ++ colName ++
      "': Default value may not be compatible with INTEGER type"]
  else if pyEq colType (.jstr "BOOLEAN") &&
      !(booleanDefaultLiterals.any (fun e => pyEq e defaultVal)) then
    pure ["Table '" ++ tableName ++ "', column '" ++ colName ++
      "': Default value may not be compatible with BOOLEAN type"]
  else if pyEq colType (.jstr "ENUM") then do
    let enumValues ← pyGet colInfo "values" (.jarr [])
    let mem ← pyContainsV defaultVal enumValues
    if !mem then
      pure ["Table '" ++ tableName ++ "', column '" ++ colName ++ "': Default value '" ++
        pyStr defaultVal ++ "' not in ENUM values"]
    else pure []
  else pure []

/-- The ENUM-values block of SchemaValidator._validate_column: appends the
"ENUM type requires values" / "must not be empty" errors. -/
def enum_check (tableName colName : String) (colInfo : JVal) (errors : List String) :
    Except String (List String) := do
  let hasValues ← pyContainsS "values" colInfo
  if !hasValues then
    pure (errors ++ [msgEnumRequiresValues tableName colName])
  else do
    let vals ← pyGetItemS colInfo "values"
    match vals with
    | .jarr xs =>
        if xs.length == 0 then pure (errors ++ [msgEnumNonEmpty tableName colName])
        else pure errors
    | _ => pure (errors ++ [msgEnumNonEmpty tableName colName])

/-- The foreign_key block of SchemaValidator._validate_column: validates
col_info["foreign_key"] and appends its errors. -/
def fk_check (tableName colName : String) (colInfo allTables : JVal) (errors : List String) :
    Except String (List String) := do
  let fk ← pyGetItemS colInfo "foreign_key"
  let fkErrors ← validate_foreign_key tableName colName fk allTables
  pure (errors ++ fkErrors)

/-- SchemaValidator._validate_column. -/
def validate_column (tableName colName : String) (colInfo : JVal) (allTables : JVal) :
    Except String (List String × List String) := do
  let hasType ← pyContainsS "type" colInfo
  if !hasType then
    return ([msgMissingType tableName colName], [])
  let colTypeV ← pyGetItemS colInfo "type"
  let colType ← asStr colTypeV
  let baseType := strBefore colType '('
  let errors := if !(valid_types.any (fun t => t == baseType)) then
      [msgInvalidType tableName colName colType]
    else []
  let errors ← (if colType == "ENUM" then enum_check tableName colName colInfo errors
    else pure errors)
  let hasFK ← pyContainsS "foreign_key" colInfo
  let errors ← (if hasFK then fk_check tableName colName colInfo allTables errors
    else pure errors)
  let pk ← pyGet colInfo "primary_key" .jnull
  let nul ← pyGet colInfo "nullable" .jnull
  let errors := if pyTruthy pk && pyEq nul (.jbool true) then
      errors ++ [msgPkNullable tableName colName]
    else errors
  let hasDefault ← pyContainsS "default" colInfo
  let warnings ← (if hasDefault then validate_default_value tableName colName colInfo
    else pure [])
  return (errors, warnings)

/-- The inner column loop of _validate_indexes. -/
def index_columns_loop (tableName idxName : String) (cols : List JVal) (columns : JVal)
    (acc : List String) : Except String (List String) :=
  match cols with
  | [] => pure acc
  | c :: rest => do
      let mem ← pyContainsV c columns
      let acc := if !mem then acc ++ [msgIndexColNotExist tableName idxName (pyStr c)] else acc
      index_columns_loop tableName idxName rest columns acc

/-- The index loop of SchemaValidator._validate_indexes, carrying the
index_names set. -/
def validate_indexes_loop (tableName : String) (idxs : List JVal) (columns : JVal)
    (indexNames : List JVal) (acc : List String) : Except String (List String) :=
  match idxs with
  | [] => pure acc
  | index :: rest => do
      let hasName ← pyContainsS "name" index
      if !hasName then
        validate_indexes_loop tableName rest columns indexNames
          (acc ++ [msgIndexMissingName tableName])
      else do
        let hasCols ← pyContainsS "columns" index
        if !hasCols then do
          let nameV ← pyGetItemS index "name"
          validate_indexes_loop tableName rest columns indexNames
            (acc ++ [msgIndexMissingColumns tableName (pyStr nameV)])
        else do
          let indexName ← pyGetItemS index "name"
          if !pyHashable indexName then
            throw "TypeError"
          else do
            let acc := if pySetMem indexNames indexName then
                acc ++ [msgIndexDuplicate tableName (pyStr indexName)]
              else acc
            let indexNames := pySetAdd indexNames indexName
            let colsV ← pyGetItemS index "columns"
            let colList ← pyIter colsV
            let acc ← index_columns_loop tableName (pyStr indexName) colList columns acc
            validate_indexes_loop tableName rest columns indexNames acc

/-- SchemaValidator._validate_indexes. -/
def validate_indexes (tableName : String) (indexes : JVal) (columns : JVal) :
    Except String (List String) := do
  let items ← pyIter indexes
  validate_indexes_loop tableName items columns [] []

/-- The column loop of _validate_table, counting primary keys. -/
def validate_columns_loop (tableName : String) (cols : List (String × JVal)) (allTables : JVal)
    (errs warns : List String) (pkc : Nat) :
    Except String (List String × List String × Nat) :=
  match cols with
  | [] => pure (errs, warns, pkc)
  | (colName, colInfo) :: rest => do
      let (ce, cw) ← validate_column tableName colName colInfo allTables
      let pk ← pyGet colInfo "primary_key" .jnull
      let pkc := if pyTruthy pk then pkc + 1 else pkc
      validate_columns_loop tableName rest allTables (errs ++ ce) (warns ++ cw) pkc

/-- SchemaValidator._validate_table. -/
def validate_table (tableName : String) (tableInfo : JVal) (allTables : JVal) :
    Except String (List String × List String) := do
  let hasCols ← pyContainsS "columns" tableInfo
  if !hasCols then
    return ([msgTableMissingColumns tableName], [])
  let columns ← pyGetItemS tableInfo "columns"
  if !pyTruthy columns then
    return ([msgTableNoColumns tableName], [])
  let colItems ← asObj columns
  let (errs, warns, pkc) ← validate_columns_loop tableName colItems allTables [] [] 0
  let warns := if pkc == 0 then warns ++ [msgNoPrimaryKey tableName] else warns
  let errs := if pkc > 1 then errs ++ [msgMultiplePrimaryKeys tableName] else errs
  let hasIdx ← pyContainsS "indexes" tableInfo
  let errs ← if hasIdx then do
      let idxs ← pyGetItemS tableInfo "indexes"
      let idxErrs ← validate_indexes tableName idxs columns
      pure (errs ++ idxErrs)
    else pure errs
  return (errs, warns)

/-- The relationship loop of SchemaValidator._validate_relationships. -/
def validate_relationships_loop (rels : List JVal) (tables : JVal) (acc : List String) :
    Except String (List String) :=
  match rels with
  | [] => pure acc
  | rel :: rest => do
      let hasFrom ← pyContainsS "from" rel
      let hasTo ← if hasFrom then pyContainsS "to" rel else pure false
      if !hasFrom || !hasTo then
        validate_relationships_loop rest tables (acc ++ [msgRelMissing])
      else do
        let fromV ← pyGetItemS rel "from"
        let fromS ← asStr fromV
        let toV ← pyGetItemS rel "to"
        let toS ← asStr toV
        let fromParts := strSplit fromS '.'
        let toParts := strSplit toS '.'
        if fromParts.length != 2 || toParts.length != 2 then do
          let fv ← pyGet rel "from" .jnull
          let tv ← pyGet rel "to" .jnull
          validate_relationships_loop rest tables
            (acc ++ [msgRelInvalidFormat (pyStr fv) (pyStr tv)])
        else do
          let fromTable := fromParts.getD 0 ""
          let fromCol := fromParts.getD 1 ""
          let toTable := toParts.getD 0 ""
          let toCol := toParts.getD 1 ""
          let memF ← pyContainsS fromTable tables
          let acc := if !memF then acc ++ [msgRelTable fromTable] else acc
          let memT ← pyContainsS toTable tables
          let acc := if !memT then acc ++ [msgRelTable toTable] else acc
          let acc ← if memF then do
              let tv ← pyGetItemS tables fromTable
              let cols ← pyGet tv "columns" (.jobj [])
              let memC ← pyContainsS fromCol cols
              pure (if !memC then acc ++ [msgRelColumn fromTable fromCol] else acc)
            else pure acc
          let acc ← if memT then do
              let tv ← pyGetItemS tables toTable
              let cols ← pyGet tv "columns" (.jobj [])
              let memC ← pyContainsS toCol cols
              pure (if !memC then acc ++ [msgRelColumn toTable toCol] else acc)
            else pure acc
          validate_relationships_loop rest tables acc

/-- SchemaValidator._validate_relationships (warnings list is always
empty in the source). -/
def validate_relationships (relationships : JVal) (tables : JVal) :
    Except String (List String × List String) := do
  let rels ← pyIter relationships
  let errs ← validate_relationships_loop rels tables []
  return (errs, [])

/-- The per-record column loops of _validate_seed_data: first every key of
the record must be an existing column, then every non-nullable,
default-free, non-auto-increment column must be present in the record. -/
def seed_record_checks (tableName : String) (i : Nat) (record : JVal)
    (tableColumns : JVal) (acc : List String) : Except String (List String) := do
  let recEntries ← asObj record
  let acc ← seed_invalid_cols tableName i recEntries tableColumns acc
  let colEntries ← asObj tableColumns
  seed_missing_cols tableName i colEntries record acc
where
  seed_invalid_cols (t : String) (i : Nat) (ks : List (String × JVal)) (tcols : JVal)
      (acc : List String) : Except String (List String) :=
    match ks with
    | [] => pure acc
    | (k, _) :: rest => do
        let mem ← pyContainsS k tcols
        let acc := if !mem then acc ++ [msgSeedCol t i k] else acc
        seed_invalid_cols t i rest tcols acc
  seed_missing_cols (t : String) (i : Nat) (cols : List (String × JVal)) (record : JVal)
      (acc : List String) : Except String (List String) :=
    match cols with
    | [] => pure acc
    | (colName, colInfo) :: rest => do
        let nul ← pyGet colInfo "nullable" .jnull
        let hasDef ← pyContainsS "default" colInfo
        let ai ← pyGet colInfo "auto_increment" .jnull
        let inRec ← pyContainsS colName record
        let acc := if pyEq nul (.jbool false) && !hasDef && !pyTruthy ai && !inRec then
            acc ++ [msgSeedMissing t i colName]
          else acc
        seed_missing_cols t i rest record acc

/-- The record loop of _validate_seed_data (enumerate over records). -/
def seed_records_loop (tableName : String) (i : Nat) (records : List JVal)
    (tableColumns : JVal) (acc : List String) : Except String (List String) :=
  match records with
  | [] => pure acc
  | record :: rest =>
      match record with
      | .jobj _ => do
          let acc ← seed_record_checks tableName i record tableColumns acc
          seed_records_loop tableName (i + 1) rest tableColumns acc
      | _ => seed_records_loop tableName (i + 1) rest tableColumns
          (acc ++ [msgSeedDict tableName i])

/-- The table loop of SchemaValidator._validate_seed_data. -/
def validate_seed_data_loop (entries : List (String × JVal)) (tables : JVal)
    (acc : List String) : Except String (List String) :=
  match entries with
  | [] => pure acc
  | (tableName, records) :: rest => do
      let mem ← pyContainsS tableName tables
      if !mem then
        validate_seed_data_loop rest tables (acc ++ [msgSeedTable tableName])
      else do
        let tv ← pyGetItemS tables tableName
        let tableColumns ← pyGet tv "columns" (.jobj [])
        let recs ← pyIter records
        let acc ← seed_records_loop tableName 0 recs tableColumns acc
        validate_seed_data_loop rest tables acc

/-- SchemaValidator._validate_seed_data. -/
def validate_seed_data (seedData : JVal) (tables : JVal) : Except String (List String) := do
  let entries ← asObj seedData
  validate_seed_data_loop entries tables []

/-- Lookup in the dependencies dict of _validate_cross_references: the
keys are table names (strings) and the lookup node may be any value, so
Python compares the node against the keys with ==. -/
def depsGet (deps : List (String × List JVal)) (node : JVal) : List JVal :=
  match deps.find? (fun p => pyEq node (.jstr p.1)) with
  | some p => p.2
  | none => []

/-- Store into the dependencies dict (insertion-ordered, replace on
existing key like a Python dict). -/
def depsStore (deps : List (String × List JVal)) (k : String) (v : List JVal) :
    List (String × List JVal) :=
  match deps with
  | [] => [(k, v)]
  | (k0, v0) :: rest =>
      if k0 == k then (k0, v) :: rest else (k0, v0) :: depsStore rest k v

/-- Python set.remove on a pyEq-deduplicated list. -/
def pySetRemove (xs : List JVal) (x : JVal) : List JVal :=
  xs.filter (fun y => !pyEq y x)

/-- The column loop building one table's dependency set in
_validate_cross_references: every column with a foreign_key contributes
its foreign_key["table"] unless it names the table itself. -/
def build_deps_cols (tableName : String) (cols : List (String × JVal)) (acc : List JVal) :
    Except String (List JVal) :=
  match cols with
  | [] => pure acc
  | (_, colInfo) :: rest => do
      let hasFK ← pyContainsS "foreign_key" colInfo
      if hasFK then do
        let fk ← pyGetItemS colInfo "foreign_key"
        let refTable ← pyGetItemS fk "table"
        if !pyEq refTable (.jstr tableName) then
          if !pyHashable refTable then throw "TypeError"
          else build_deps_cols tableName rest (pySetAdd acc refTable)
        else build_deps_cols tableName rest acc
      else build_deps_cols tableName rest acc

/-- The table loop building the dependencies dict of
_validate_cross_references. -/
def build_deps (entries : List (String × JVal)) (deps : List (String × List JVal)) :
    Except String (List (String × List JVal)) :=
  match entries with
  | [] => pure deps
  | (tableName, tableInfo) :: rest => do
      let colsV ← pyGet tableInfo "columns" (.jobj [])
      let cols ← asObj colsV
      let s ← build_deps_cols tableName cols []
      build_deps rest (depsStore deps tableName s)

/-- A pending call of the recursive has_cycle walk: either entering a node
or walking the remainder of a node's neighbor set. -/
inductive CycleCall where
  | node : JVal → CycleCall
  | neigh : List JVal → CycleCall

/-- The recursive has_cycle function of _validate_cross_references, with
its mutable visited and rec_stack sets threaded through and a fuel
argument standing in for the call stack (Python recursion has no fuel;
cycleFuel below always suffices, see cycle_go_fuel_le and
cycle_go_enough_fuel).  Entering a node adds it to both sets, walks its
neighbor set in order (descending into unvisited neighbors, reporting a
cycle when a neighbor is on the recursion stack), and on a cycle-free
return removes the node from the recursion stack. -/
def cycle_go (deps : List (String × List JVal)) :
    Nat → CycleCall → List JVal → List JVal → Except String (Bool × List JVal × List JVal)
  | 0, _, _, _ => .error "RecursionError"
  | _ + 1, .neigh [], visited, recStack => .ok (false, visited, recStack)
  | fuel + 1, .neigh (n :: rest), visited, recStack =>
      if !pySetMem visited n then
        match cycle_go deps fuel (.node n) visited recStack with
        | .error e => .error e
        | .ok (true, v, rs) => .ok (true, v, rs)
        | .ok (false, v, rs) => cycle_go deps fuel (.neigh rest) v rs
      else if pySetMem recStack n then .ok (true, visited, recStack)
      else cycle_go deps fuel (.neigh rest) visited recStack
  | fuel + 1, .node n, visited, recStack =>
      let visited1 := pySetAdd visited n
      let recStack1 := pySetAdd recStack n
      match cycle_go deps fuel (.neigh (depsGet deps n)) visited1 recStack1 with
      | .error e => .error e
      | .ok (true, v, rs) => .ok (true, v, rs)
      | .ok (false, v, rs) => .ok (false, v, pySetRemove rs n)

/-- Fuel that always suffices for cycle_go: one unit per dependency entry,
per neighbor and per nesting level, squared for slack. -/
def cycleFuel (deps : List (String × List JVal)) : Nat :=
  let n := 2 + deps.length + (deps.map (fun p => p.2.length)).sum
  (n + 2) * (n + 2)

/-- The outer table loop of _validate_cross_references, running has_cycle
from every not-yet-visited table and recording one error per cycle found. -/
def cycle_outer (deps : List (String × List JVal)) (fuel : Nat) (keys : List String)
    (visited recStack : List JVal) (acc : List String) : Except String (List String) :=
  match keys with
  | [] => pure acc
  | k :: rest =>
      if !pySetMem visited (.jstr k) then
        match cycle_go deps fuel (.node (.jstr k)) visited recStack with
        | .error e => .error e
        | .ok (b, v, rs) =>
            cycle_outer deps fuel rest v rs (if b then acc ++ [msgCircular k] else acc)
      else cycle_outer deps fuel rest visited recStack acc

/-- SchemaValidator._validate_cross_references. -/
def validate_cross_references (tables : JVal) : Except String (List String) := do
  let entries ← asObj tables
  let deps ← build_deps entries []
  cycle_outer deps (cycleFuel deps) (entries.map (fun p => p.1)) [] [] []

/-- The validation result dict built by _create_result. -/
structure VResult where
  is_valid : Bool
  errors : List String
  warnings : List String
  table_count : Nat
  relationship_count : Nat
  index_count : Nat
  total_columns : Nat
deriving Repr, DecidableEq

/-- The generator-sum in _create_result: the total length of a given
section (with default) over all table values. -/
def sum_section_lengths (entries : List (String × JVal)) (key : String) (d : JVal) :
    Except String Nat :=
  match entries with
  | [] => pure 0
  | (_, t) :: rest => do
      let v ← pyGet t key d
      let n ← pyLen v
      let m ← sum_section_lengths rest key d
      pure (n + m)

/-- The four count computations of _create_result, in evaluation order:
table_count, relationship_count, index_count and total_columns, all read
from the input document. -/
def result_counts (schema : JVal) : Except String (Nat × Nat × Nat × Nat) := do
  let tables ← pyGet schema "tables" (.jobj [])
  let tableCount ← pyLen tables
  let rels ← pyGet schema "relationships" (.jarr [])
  let relCount ← pyLen rels
  let tablesEntries ← asObj tables
  let idxCount ← sum_section_lengths tablesEntries "indexes" (.jarr [])
  let colCount ← sum_section_lengths tablesEntries "columns" (.jobj [])
  pure (tableCount, relCount, idxCount, colCount)

/-- SchemaValidator._create_result: the result envelope always carries
the four counts computed from the input document. -/
def create_result (isValid : Bool) (errors warnings : List String) (schema : JVal) :
    Except String VResult := do
  let (tableCount, relCount, idxCount, colCount) ← result_counts schema
  pure ⟨isValid, errors, warnings, tableCount, relCount, idxCount, colCount⟩

/-- The table loop of validate_schema. -/
def validate_tables_loop (entries : List (String × JVal)) (allTables : JVal)
    (errs warns : List String) : Except String (List String × List String) :=
  match entries with
  | [] => pure (errs, warns)
  | (tableName, tableInfo) :: rest => do
      let (te, tw) ← validate_table tableName tableInfo allTables
      validate_tables_loop rest allTables (errs ++ te) (warns ++ tw)

/-- SchemaValidator.validate_schema: validates the whole document,
accumulating errors and warnings, short-circuiting only on a missing
'tables' key, and always finishing through _create_result. -/
def validate_schema (schema : JVal) : Except String VResult := do
  let hasDb ← pyContainsS "database" schema
  let warnings := if !hasDb then [msgMissingDatabase] else []
  let hasTables ← pyContainsS "tables" schema
  if !hasTables then
    create_result false [msgMissingTables] warnings schema
  else do
    let tables ← pyGetItemS schema "tables"
    let entries ← asObj tables
    let (errs, warns) ← validate_tables_loop entries tables [] warnings
    let hasRels ← pyContainsS "relationships" schema
    let (errs, warns) ← if hasRels then do
        let rels ← pyGetItemS schema "relationships"
        let (re, rw) ← validate_relationships rels tables
        pure (errs ++ re, warns ++ rw)
      else pure (errs, warns)
    let hasSeed ← pyContainsS "seed_data" schema
    let errs ← if hasSeed then do
        let sd ← pyGetItemS schema "seed_data"
        let se ← validate_seed_data sd tables
        pure (errs ++ se)
      else pure errs
    let ce ← validate_cross_references tables
    let errs := errs ++ ce
    create_result (errs.length == 0) errs warns schema

/-
Embedding of src/mcp_db_schema_tools/schema_converter.py (class
SchemaConverter).  The db_type_mappings constant and the pure
JSON-to-DDL path (json_to_sql and its helpers) are translated directly;
merge_schemas is modelled over already-loaded (file path, document)
pairs because reading the files is I/O (glob expansion and silent
skipping of missing files happen before the merge loop and are not part
of any claim).
-/

/-- SchemaConverter.db_type_mappings for one engine; none for an
unsupported engine name. -/
def db_type_mappings (dbType : String) : Option (List (String × String)) :=
  if dbType == "sqlite" then some
    [("INTEGER", "INTEGER"), ("VARCHAR", "VARCHAR"), ("TEXT", "TEXT"),
     ("DATETIME", "DATETIME"), ("DATE", "DATE"), ("BOOLEAN", "BOOLEAN"),
     ("JSON", "TEXT"), ("ENUM", "TEXT")]
  else if dbType == "postgresql" then some
    [("INTEGER", "INTEGER"), ("VARCHAR", "VARCHAR"), ("TEXT", "TEXT"),
     ("DATETIME", "TIMESTAMP"), ("DATE", "DATE"), ("BOOLEAN", "BOOLEAN"),
     ("JSON", "JSONB"), ("ENUM", "TEXT")]
  else if dbType == "mysql" then some
    [("INTEGER", "INT"), ("VARCHAR", "VARCHAR"), ("TEXT", "TEXT"),
     ("DATETIME", "DATETIME"), ("DATE", "DATE"), ("BOOLEAN", "TINYINT(1)"),
     ("JSON", "JSON"), ("ENUM", "ENUM")]
  else none

/-- self.type_mapping.get(col_type, "TEXT") for the current engine. -/
def type_mapping_get (dbType : String) (colType : String) : String :=
  match db_type_mappings dbType with
  | some m => ((m.find? (fun p => p.1 == colType)).map (fun p => p.2)).getD "TEXT"
  | none => "TEXT"

/-- Python ", ".join over an iterable that must contain strings (join
raises TypeError on non-string elements). -/
def pyJoinStrs (sep : String) : List JVal → Except String String
  | [] => pure ""
  | [x] => do
      let s ← match x with | .jstr s => pure s | _ => throw "TypeError"
      pure s
  | x :: xs => do
      let s ← match x with | .jstr s => pure s | _ => throw "TypeError"
      let rest ← pyJoinStrs sep xs
      pure (s ++ sep ++ rest)

/-- The values_str builder of _generate_column_sql: ", ".join of 'v' for
each enum value (rendered through str). -/
def enum_values_str : List JVal → String
  | [] => ""
  | [v] => "'" ++ pyStr v ++ "'"
  | v :: vs => "'" ++ pyStr v ++ "', " ++ enum_values_str vs

/-- The default-value clause of _generate_column_sql: the sentinel
CURRENT_TIMESTAMP is emitted unquoted, booleans as 1/0, strings
single-quoted, everything else via str(). -/
def render_default (defaultVal : JVal) : String :=
  if pyEq defaultVal (.jstr "CURRENT_TIMESTAMP") then "DEFAULT " ++ pyStr defaultVal
  else match defaultVal with
    | .jbool b => "DEFAULT " ++ (if b then "1" else "0")
    | .jstr s => "DEFAULT '" ++ s ++ "'"
    | v => "DEFAULT " ++ pyStr v

/-- SchemaConverter._generate_column_sql: assembles the column line as
name, type, primary-key/auto-increment parts, NOT NULL, UNIQUE, DEFAULT
and the engine-specific ENUM rendering (MySQL replaces the type slot,
the others append a CHECK constraint). -/
def generate_column_sql (colName : String) (colInfo : JVal) (dbType : String) :
    Except String String := do
  let colTypeV ← pyGetItemS colInfo "type"
  let colType ← asStr colTypeV
  let typePart := if sStartsWith colType "VARCHAR" || sStartsWith colType "CHAR" then colType
    else type_mapping_get dbType colType
  let pk ← pyGet colInfo "primary_key" .jnull
  let ai ← pyGet colInfo "auto_increment" .jnull
  let (typePart, pkParts) :=
    if pyTruthy pk then
      if dbType == "postgresql" && pyTruthy ai then
        (if sContains (strUpper typePart) "INTEGER" then "SERIAL" else typePart,
         ["PRIMARY KEY"])
      else if dbType == "mysql" && pyTruthy ai then
        (typePart, ["PRIMARY KEY", "AUTO_INCREMENT"])
      else
        (typePart, if pyTruthy ai then ["PRIMARY KEY", "AUTOINCREMENT"] else ["PRIMARY KEY"])
    else (typePart, [])
  let nul ← pyGet colInfo "nullable" .jnull
  let nnParts := if pyEq nul (.jbool false) then ["NOT NULL"] else []
  let uq ← pyGet colInfo "unique" .jnull
  let uqParts := if pyTruthy uq then ["UNIQUE"] else []
  let hasDefault ← pyContainsS "default" colInfo
  let defParts ← if hasDefault then do
      let dv ← pyGetItemS colInfo "default"
      pure [render_default dv]
    else pure ([] : List String)
  let colTypeV2 ← pyGetItemS colInfo "type"
  let hasValues ← pyContainsS "values" colInfo
  let (typePart, checkParts) ← if pyEq colTypeV2 (.jstr "ENUM") && hasValues then do
      let valsV ← pyGetItemS colInfo "values"
      let vals ← pyIter valsV
      let valuesStr := enum_values_str vals
      if dbType == "mysql" then
        pure ("ENUM(" ++ valuesStr ++ ")", ([] : List String))
      else
        pure (typePart, ["CHECK (" ++ colName ++ " IN (" ++ valuesStr ++ "))"])
    else pure (typePart, [])
  pure (joinSep " " ([colName, typePart] ++ pkParts ++ nnParts ++ uqParts ++ defParts ++ checkParts))

/-- The per-column foreign-key clause collected by _generate_table_sql. -/
def fk_clause (colName : String) (fk : JVal) : Except String String := do
  let ft ← pyGetItemS fk "table"
  let fc ← pyGetItemS fk "column"
  let line := "    FOREIGN KEY (" ++ colName ++ ") REFERENCES " ++ pyStr ft ++ "(" ++ pyStr fc ++ ")"
  let hasOD ← pyContainsS "on_delete" fk
  let line ← if hasOD then do
      let od ← pyGetItemS fk "on_delete"
      pure (line ++ " ON DELETE " ++ pyStr od)
    else pure line
  let hasOU ← pyContainsS "on_update" fk
  let line ← if hasOU then do
      let ou ← pyGetItemS fk "on_update"
      pure (line ++ " ON UPDATE " ++ pyStr ou)
    else pure line
  pure line

/-- The column loop of _generate_table_sql, collecting indented column
lines and foreign-key clauses. -/
def table_columns_loop (cols : List (String × JVal)) (dbType : String)
    (colLines fkLines : List String) : Except String (List String × List String) :=
  match cols with
  | [] => pure (colLines, fkLines)
  | (colName, colInfo) :: rest => do
      let line ← generate_column_sql colName colInfo dbType
      let colLines := colLines ++ ["    " ++ line]
      let hasFK ← pyContainsS "foreign_key" colInfo
      let fkLines ← if hasFK then do
          let fk ← pyGetItemS colInfo "foreign_key"
          let l ← fk_clause colName fk
          pure (fkLines ++ [l])
        else pure fkLines
      table_columns_loop rest dbType colLines fkLines

/-- SchemaConverter._generate_table_sql. -/
def generate_table_sql (tableName : String) (tableInfo : JVal) (dbType : String) :
    Except String String := do
  let desc ← pyGet tableInfo "description" (.jstr tableName)
  let header := "-- " ++ pyStr desc
  let createLine := "CREATE TABLE IF NOT EXISTS " ++ tableName ++ " ("
  let columnsV ← pyGetItemS tableInfo "columns"
  let cols ← asObj columnsV
  let (colLines, fkLines) ← table_columns_loop cols dbType [] []
  let body := joinSep ",\n" (colLines ++ fkLines)
  let closing := if dbType == "mysql" then
      ") ENGINE=InnoDB DEFAULT CHARSET=utf8mb4 COLLATE=utf8mb4_unicode_ci;"
    else ");"
  pure (joinSep "\n" [header, createLine, body, closing])

/-- SchemaConverter._generate_index_sql. -/
def generate_index_sql (tableName : String) (indexInfo : JVal) : Except String String := do
  let uq ← pyGet indexInfo "unique" .jnull
  let unique := if pyTruthy uq then "UNIQUE " else ""
  let colsV ← pyGetItemS indexInfo "columns"
  let cols ← pyIter colsV
  let columns ← pyJoinStrs ", " cols
  let nameV ← pyGetItemS indexInfo "name"
  pure ("CREATE " ++ unique ++ "INDEX IF NOT EXISTS " ++ pyStr nameV ++ " ON " ++ tableName ++
    " (" ++ columns ++ ");")

/-- The value rendering of _generate_insert_sql: strings single-quoted,
None as NULL, everything else via str(). -/
def render_insert_value (v : JVal) : String :=
  match v with
  | .jstr s => "'" ++ s ++ "'"
  | .jnull => "NULL"
  | _ => pyStr v

/-- SchemaConverter._generate_insert_sql. -/
def generate_insert_sql (tableName : String) (record : JVal) : Except String String := do
  let entries ← asObj record
  let columns := joinSep ", " (entries.map (fun p => p.1))
  let valuesStr := joinSep ", " (entries.map (fun p => render_insert_value p.2))
  pure ("INSERT OR IGNORE INTO " ++ tableName ++ " (" ++ columns ++ ") VALUES (" ++
    valuesStr ++ ");")

/-- Python record.copy(): dicts and lists have a copy method, scalars do
not (AttributeError). -/
def pyCopy : JVal → Except String JVal
  | .jobj kvs => .ok (.jobj kvs)
  | .jarr xs => .ok (.jarr xs)
  | _ => .error "AttributeError"

/-- Python v[k] = x for a string key: dicts store (keeping position of an
existing key), lists raise TypeError. -/
def pySetItemS (v : JVal) (k : String) (x : JVal) : Except String JVal :=
  match v with
  | .jobj kvs => .ok (.jobj (objStore kvs k x))
  | _ => .error "TypeError"

/-- The primary-key search loop of _process_seed_data: the first column
whose primary_key value is truthy. -/
def find_primary_key_column (cols : List (String × JVal)) : Except String (Option String) :=
  match cols with
  | [] => pure none
  | (k, ci) :: rest => do
      let pk ← pyGet ci "primary_key" .jnull
      if pyTruthy pk then pure (some k) else find_primary_key_column rest

/-- The per-record body of the record loop of _process_seed_data: when the
table has a truthy-named primary-key column of type INTEGER that the
record omits, the copy gets that key set to the 1-based record
position. -/
def process_one_record : Option String → JVal → Nat → JVal → Except String JVal
  | some p, tableColumns, i, newRecord =>
      if p != "" then do
        let inRec ← pyContainsS p newRecord
        if !inRec then do
          let colDef ← pyGetItemS tableColumns p
          let ty ← pyGet colDef "type" .jnull
          if pyEq ty (.jstr "INTEGER") then
            pySetItemS newRecord p (.jint (Int.ofNat (i + 1)))
          else pure newRecord
        else pure newRecord
      else pure newRecord
  | none, _, _, newRecord => pure newRecord

/-- The record loop of _process_seed_data: every record is copied and
handed to process_one_record. -/
def process_records (pkCol : Option String) (tableColumns : JVal) (i : Nat)
    (records : List JVal) (acc : List JVal) : Except String (List JVal) :=
  match records with
  | [] => pure acc
  | record :: rest => do
      let newRecord ← pyCopy record
      let newRecord ← process_one_record pkCol tableColumns i newRecord
      process_records pkCol tableColumns (i + 1) rest (acc ++ [newRecord])

/-- The table loop of _process_seed_data. -/
def process_seed_loop (entries : List (String × JVal)) (tables : JVal)
    (acc : List (String × JVal)) : Except String (List (String × JVal)) :=
  match entries with
  | [] => pure acc
  | (tableName, records) :: rest => do
      let mem ← pyContainsS tableName tables
      if !mem then
        process_seed_loop rest tables (objStore acc tableName records)
      else do
        let tv ← pyGetItemS tables tableName
        let tableColumns ← pyGet tv "columns" (.jobj [])
        let colEntries ← asObj tableColumns
        let pkCol ← find_primary_key_column colEntries
        let recs ← pyIter records
        let processed ← process_records pkCol tableColumns 0 recs []
        process_seed_loop rest tables (objStore acc tableName (.jarr processed))

/-- SchemaConverter._process_seed_data. -/
def process_seed_data (seedData : JVal) (tables : JVal) :
    Except String (List (String × JVal)) := do
  let entries ← asObj seedData
  process_seed_loop entries tables []

/-- The index loop of json_to_sql: for every table with an indexes
section, one CREATE INDEX statement per index. -/
def json_to_sql_indexes (entries : List (String × JVal)) (acc : List String) :
    Except String (List String) :=
  match entries with
  | [] => pure acc
  | (tableName, tableInfo) :: rest => do
      let hasIdx ← pyContainsS "indexes" tableInfo
      if hasIdx then do
        let idxV ← pyGetItemS tableInfo "indexes"
        let idxs ← pyIter idxV
        let acc ← index_stmts tableName idxs acc
        json_to_sql_indexes rest acc
      else json_to_sql_indexes rest acc
where
  index_stmts (tableName : String) (idxs : List JVal) (acc : List String) :
      Except String (List String) :=
    match idxs with
    | [] => pure acc
    | idx :: rest => do
        let s ← generate_index_sql tableName idx
        index_stmts tableName rest (acc ++ [s])

/-- The table loop of json_to_sql: a blank line and a CREATE TABLE block
per table. -/
def json_to_sql_tables (entries : List (String × JVal)) (dbType : String)
    (acc : List String) : Except String (List String) :=
  match entries with
  | [] => pure acc
  | (tableName, tableInfo) :: rest => do
      let s ← generate_table_sql tableName tableInfo dbType
      json_to_sql_tables rest dbType (acc ++ ["", s])

/-- The seed-data loop of json_to_sql: one INSERT statement per processed
record. -/
def json_to_sql_inserts (processed : List (String × JVal)) (acc : List String) :
    Except String (List String) :=
  match processed with
  | [] => pure acc
  | (tableName, records) :: rest => do
      let recs ← pyIter records
      let acc ← insert_stmts tableName recs acc
      json_to_sql_inserts rest acc
where
  insert_stmts (tableName : String) (recs : List JVal) (acc : List String) :
      Except String (List String) :=
    match recs with
    | [] => pure acc
    | r :: rest => do
        let s ← generate_insert_sql tableName r
        insert_stmts tableName rest (acc ++ [s])

/-- SchemaConverter.json_to_sql: header comments, CREATE TABLE blocks,
CREATE INDEX statements and seed INSERT statements joined by newlines;
an unsupported engine raises ValueError before any output. -/
def json_to_sql (schema : JVal) (dbType : String) : Except String String := do
  if (db_type_mappings dbType).isNone then
    throw ("ValueError: Unsupported database type: " ++ dbType)
  let dbInfo ← pyGet schema "database" (.jobj [])
  let descV ← pyGet dbInfo "description" (.jstr "Database Schema")
  let nameV ← pyGet dbInfo "name" (.jstr "unknown")
  let verV ← pyGet dbInfo "version" (.jstr "1.0.0")
  let header := ["-- " ++ pyStr descV, "-- Generated from JSON schema",
    "-- Database: " ++ pyStr nameV, "-- Version: " ++ pyStr verV, ""]
  let tablesV ← pyGet schema "tables" (.jobj [])
  let tEntries ← asObj tablesV
  let stmts ← json_to_sql_tables tEntries dbType (header ++ ["-- ===== TABLES ====="])
  let stmts ← json_to_sql_indexes tEntries (stmts ++ ["\n-- ===== INDEXES ====="])
  let hasSeed ← pyContainsS "seed_data" schema
  let stmts ← if hasSeed then do
      let seedV ← pyGetItemS schema "seed_data"
      let tablesV2 ← pyGet schema "tables" (.jobj [])
      let processed ← process_seed_data seedV tablesV2
      json_to_sql_inserts processed (stmts ++ ["\n-- ===== SEED DATA ====="])
    else pure stmts
  pure (joinSep "\n" stmts)

/-- The table-merging step of merge_schemas for one source file: first
writer wins, except that a source whose (lowercased) path contains
"admin" overrides an existing table of the same name. -/
def merge_tables_step (tables : List (String × JVal)) (filePath : String)
    (entries : List (String × JVal)) : List (String × JVal) :=
  match entries with
  | [] => tables
  | (tn, td) :: rest =>
      if tables.any (fun p => p.1 == tn) then
        if sContains (strLower filePath) "admin" then
          merge_tables_step (objStore tables tn td) filePath rest
        else merge_tables_step tables filePath rest
      else merge_tables_step (tables ++ [(tn, td)]) filePath rest

/-- The relationship-merging step of merge_schemas: append each
relationship not already present (Python == equality). -/
def merge_rels_step (rels : List JVal) (newRels : List JVal) : List JVal :=
  match newRels with
  | [] => rels
  | r :: rest =>
      if rels.any (fun e => pyEq e r) then merge_rels_step rels rest
      else merge_rels_step (rels ++ [r]) rest

/-- The seed-data-merging step of merge_schemas: per table, records from
every source are concatenated in source order. -/
def merge_seed_step (seeds : List (String × List JVal)) (entries : List (String × JVal)) :
    Except String (List (String × List JVal)) :=
  match entries with
  | [] => pure seeds
  | (tn, data) :: rest => do
      let items ← pyIter data
      let existing := match seeds.find? (fun p => p.1 == tn) with
        | some p => p.2
        | none => []
      let seeds := storeSeed seeds tn (existing ++ items)
      merge_seed_step seeds rest
where
  storeSeed (seeds : List (String × List JVal)) (k : String) (v : List JVal) :
      List (String × List JVal) :=
    match seeds with
    | [] => [(k, v)]
    | (k0, v0) :: rest =>
        if k0 == k then (k0, v) :: rest else (k0, v0) :: storeSeed rest k v

/-- The per-source loop of merge_schemas. -/
def merge_sources_loop (sources : List (String × JVal)) (tables : List (String × JVal))
    (rels : List JVal) (seeds : List (String × List JVal)) :
    Except String (List (String × JVal) × List JVal × List (String × List JVal)) :=
  match sources with
  | [] => pure (tables, rels, seeds)
  | (filePath, schema) :: rest => do
      let tablesV ← pyGet schema "tables" (.jobj [])
      let tEntries ← asObj tablesV
      let tables := merge_tables_step tables filePath tEntries
      let relsV ← pyGet schema "relationships" (.jarr [])
      let newRels ← pyIter relsV
      let rels := merge_rels_step rels newRels
      let seedV ← pyGet schema "seed_data" (.jobj [])
      let sEntries ← asObj seedV
      let seeds ← merge_seed_step seeds sEntries
      merge_sources_loop rest tables rels seeds

/-- The synthetic database block of merge_schemas' unified schema. -/
def merged_database_block : JVal :=
  .jobj [("name", .jstr "merged_schema"), ("type", .jstr "sqlite"),
    ("version", .jstr "1.0.0"), ("description", .jstr "Merged from multiple schema files")]

/-- SchemaConverter.merge_schemas over already-loaded (file path, parsed
document) pairs: glob expansion and skipping of non-existent files are
file-system I/O performed before this loop and are abstracted away. -/
def merge_schemas (sources : List (String × JVal)) : Except String JVal := do
  let (tables, rels, seeds) ← merge_sources_loop sources [] [] []
  pure (.jobj [("database", merged_database_block),
    ("tables", .jobj tables),
    ("relationships", .jarr rels),
    ("seed_data", .jobj (seeds.map (fun p => (p.1, JVal.jarr p.2))))])

/-
Embedding of the SQLite introspection path (sql_to_json for db_type
"sqlite": _extract_sqlite_schema, _extract_sqlite_table_schema,
_parse_sql_type, _extract_enum_values, _extract_sqlite_table_indexes,
_extract_sqlite_relationships).  The live SQLite engine itself
(sqlite3.connect, PRAGMA table_info / index_list / foreign_key_list,
sqlite_master) is an external library, not code of this repository; its
catalog state after materializing a schema is modelled from the spec
below (materialize_sqlite).  The extraction functions are translated
from the source and read that catalog.
-/

/-- One PRAGMA table_info row: column name, declared type, NOT NULL flag,
default literal text and primary-key membership. -/
structure CatCol where
  name : String
  declType : String
  notnull : Bool
  dflt : Option String
  pk : Bool
deriving Repr, DecidableEq

/-- One PRAGMA index_list / index_info entry. -/
structure CatIndex where
  name : String
  unique : Bool
  columns : List String
deriving Repr, DecidableEq

/-- One PRAGMA foreign_key_list row. -/
structure CatFK where
  table : String
  fromCol : String
  toCol : String
  onDelete : String
  onUpdate : String
deriving Repr, DecidableEq

/-- One user table in the SQLite catalog: name, column rows, the stored
CREATE statement text, indexes and foreign keys. -/
structure CatTable where
  name : String
  cols : List CatCol
  createSql : String
  indexes : List CatIndex
  fks : List CatFK
deriving Repr, DecidableEq

/-- The statement text the materializer executes for one table: the
generated CREATE TABLE block with every line stripped and comment/blank
lines dropped (as _create_sqlite_database assembles statements), which
is the text SQLite stores in sqlite_master. -/
def executed_statement (tableSql : String) : String :=
  joinSep "\n" (((strSplit tableSql '\n').map strStrip).filter
    (fun l => l != "" && !sStartsWith l "--"))

/-- The declared type SQLite records for a column generated by
_generate_column_sql for the sqlite engine: VARCHAR(n)/CHAR(n) verbatim,
otherwise the sqlite type mapping with TEXT fallback. -/
def sqlite_decl_type (colType : String) : String :=
  if sStartsWith colType "VARCHAR" || sStartsWith colType "CHAR" then colType
  else type_mapping_get "sqlite" colType

/-- The default literal text after DEFAULT in the generated DDL, which is
what PRAGMA table_info reports as dflt_value. -/
def render_default_literal (defaultVal : JVal) : String :=
  if pyEq defaultVal (.jstr "CURRENT_TIMESTAMP") then pyStr defaultVal
  else match defaultVal with
    | .jbool b => if b then "1" else "0"
    | .jstr s => "'" ++ s ++ "'"
    | v => pyStr v

/-- Modelled from the spec: the PRAGMA table_info row the SQLite engine
reports for one column after executing the DDL that json_to_sql
generates from the column definition — name, the declared type exactly
as written in the DDL, NOT NULL iff the DDL carried NOT NULL (nullable
explicitly false), the DEFAULT literal text when present, and
primary-key membership iff the DDL carried PRIMARY KEY. -/
def materialize_column (colName : String) (colInfo : JVal) : Except String CatCol := do
  let colTypeV ← pyGetItemS colInfo "type"
  let colType ← asStr colTypeV
  let pk ← pyGet colInfo "primary_key" .jnull
  let nul ← pyGet colInfo "nullable" .jnull
  let hasDefault ← pyContainsS "default" colInfo
  let dflt ← if hasDefault then do
      let dv ← pyGetItemS colInfo "default"
      pure (some (render_default_literal dv))
    else pure none
  pure ⟨colName, sqlite_decl_type colType, pyEq nul (.jbool false), dflt, pyTruthy pk⟩

/-- Modelled from the spec: the index catalog entries created for one
table's indexes section (PRAGMA index_list / index_info; SQLite's
internal sqlite_autoindex entries for UNIQUE columns are system indexes
the introspector skips and are not modelled). -/
def materialize_indexes (tableInfo : JVal) : Except String (List CatIndex) := do
  let hasIdx ← pyContainsS "indexes" tableInfo
  if hasIdx then do
    let idxV ← pyGetItemS tableInfo "indexes"
    let idxs ← pyIter idxV
    materialize_index_list idxs []
  else pure []
where
  materialize_index_list (idxs : List JVal) (acc : List CatIndex) :
      Except String (List CatIndex) :=
    match idxs with
    | [] => pure acc
    | idx :: rest => do
        let nameV ← pyGetItemS idx "name"
        let uq ← pyGet idx "unique" .jnull
        let colsV ← pyGetItemS idx "columns"
        let cols ← pyIter colsV
        let colNames ← cols.mapM asStr
        materialize_index_list rest (acc ++ [⟨pyStr nameV, pyTruthy uq, colNames⟩])

/-- Modelled from the spec: the PRAGMA foreign_key_list rows for one
table — one row per column carrying a foreign_key, with ON DELETE and
ON UPDATE defaulting to NO ACTION when the DDL did not specify them. -/
def materialize_fks (cols : List (String × JVal)) (acc : List CatFK) :
    Except String (List CatFK) :=
  match cols with
  | [] => pure acc
  | (colName, colInfo) :: rest => do
      let hasFK ← pyContainsS "foreign_key" colInfo
      if hasFK then do
        let fk ← pyGetItemS colInfo "foreign_key"
        let ft ← pyGetItemS fk "table"
        let fc ← pyGetItemS fk "column"
        let hasOD ← pyContainsS "on_delete" fk
        let od ← if hasOD then do
            let v ← pyGetItemS fk "on_delete"
            pure (pyStr v)
          else pure "NO ACTION"
        let hasOU ← pyContainsS "on_update" fk
        let ou ← if hasOU then do
            let v ← pyGetItemS fk "on_update"
            pure (pyStr v)
          else pure "NO ACTION"
        materialize_fks rest (acc ++ [⟨pyStr ft, colName, pyStr fc, od, ou⟩])
      else materialize_fks rest acc

/-- Modelled from the spec: the catalog state of one table after
create_database_with_schema executes the generated DDL against a fresh
SQLite database. -/
def materialize_table (tableName : String) (tableInfo : JVal) : Except String CatTable := do
  let columnsV ← pyGetItemS tableInfo "columns"
  let cols ← asObj columnsV
  let catCols ← materialize_cols cols []
  let tableSql ← generate_table_sql tableName tableInfo "sqlite"
  let idxs ← materialize_indexes tableInfo
  let fks ← materialize_fks cols []
  pure ⟨tableName, catCols, executed_statement tableSql, idxs, fks⟩
where
  materialize_cols (cols : List (String × JVal)) (acc : List CatCol) :
      Except String (List CatCol) :=
    match cols with
    | [] => pure acc
    | (colName, colInfo) :: rest => do
        let c ← materialize_column colName colInfo
        materialize_cols rest (acc ++ [c])

/-- Modelled from the spec: the whole catalog after materializing a
schema document against a fresh SQLite database, one entry per table in
document order (the engine is modelled as executing the generated DDL
successfully, which it does for well-formed documents). -/
def materialize_sqlite (schema : JVal) : Except String (List CatTable) := do
  let tablesV ← pyGet schema "tables" (.jobj [])
  let tEntries ← asObj tablesV
  materialize_tables tEntries []
where
  materialize_tables (entries : List (String × JVal)) (acc : List CatTable) :
      Except String (List CatTable) :=
    match entries with
    | [] => pure acc
    | (tableName, tableInfo) :: rest => do
        let t ← materialize_table tableName tableInfo
        materialize_tables rest (acc ++ [t])

/-- Byte-order comparison on strings (UTF-8 byte order coincides with
codepoint order), as SQLite's ORDER BY name with BINARY collation. -/
def listLeChars : List Char → List Char → Bool
  | [], _ => true
  | _ :: _, [] => false
  | a :: as, b :: bs =>
      if a.val < b.val then true
      else if b.val < a.val then false
      else listLeChars as bs

/-- String byte-order less-or-equal. -/
def strLeB (a b : String) : Bool :=
  listLeChars a.toList b.toList

/-- Insertion into a name-sorted table list. -/
def insertSortedTable (x : CatTable) : List CatTable → List CatTable
  | [] => [x]
  | y :: ys => if strLeB x.name y.name then x :: y :: ys else y :: insertSortedTable x ys

/-- The ORDER BY name sort of the table enumeration query in
_extract_sqlite_schema. -/
def sortTablesByName (l : List CatTable) : List CatTable :=
  match l with
  | [] => []
  | x :: xs => insertSortedTable x (sortTablesByName xs)

/-- Nat from a run of ASCII digit characters (Python int() on a digit
string). -/
def digitsToNat (l : List Char) : Nat :=
  l.foldl (fun a c => a * 10 + (c.toNat - 48)) 0

/-- SchemaConverter._parse_sql_type: uppercase and strip the declared
type, recover VARCHAR(n) (re.match anchors the pattern with its digit
group at the start), otherwise map the seven known spellings and fall
back to TEXT. -/
def parse_sql_type (sqlType : String) : List (String × JVal) :=
  let s := strStrip (strUpper sqlType)
  match varchar_match s.toList with
  | some digits =>
      [("type", .jstr ("VARCHAR(" ++ String.mk digits ++ ")")),
       ("max_length", .jint (Int.ofNat (digitsToNat digits)))]
  | none =>
      if ["INTEGER", "TEXT", "REAL", "BLOB", "DATETIME", "DATE", "BOOLEAN"].any
          (fun t => t == s) then
        [("type", .jstr s)]
      else [("type", .jstr "TEXT")]
where
  varchar_match (l : List Char) : Option (List Char) :=
    if listPrefixOf "VARCHAR(".toList l then
      let rest := l.drop 8
      let digits := rest.takeWhile Char.isDigit
      if digits.isEmpty then none
      else match rest.drop digits.length with
        | ')' :: _ => some digits
        | _ => none
    else none

/-- Leading-whitespace skip, the regex \s* step. -/
def dropWs (l : List Char) : List Char :=
  l.dropWhile Char.isWhitespace

/-- Case-insensitive literal prefix match (re.IGNORECASE). -/
def listCIPrefixOf : List Char → List Char → Bool
  | [], _ => true
  | _ :: _, [] => false
  | p :: ps, c :: cs => p.toLower == c.toLower && listCIPrefixOf ps cs

/-- One attempt to match the _extract_enum_values pattern
CHECK\s*\(\s*col\s+IN\s*\(\s*([^)]+)\s*\)\s*\) at the start of the text
(case-insensitively; the column name is interpolated literally, faithful
for names without regex metacharacters).  Returns the captured group. -/
def matchEnumAt (colName : List Char) (l : List Char) : Option (List Char) :=
  if listCIPrefixOf "check".toList l then
    match dropWs (l.drop 5) with
    | '(' :: l1 =>
        let l2 := dropWs l1
        if listCIPrefixOf colName l2 then
          match l2.drop colName.length with
          | c :: _ =>
              if c.isWhitespace then
                let l3 := dropWs (l2.drop colName.length)
                if listCIPrefixOf "in".toList l3 then
                  match dropWs (l3.drop 2) with
                  | '(' :: l4 =>
                      let l5 := dropWs l4
                      let cap := l5.takeWhile (fun x => x != ')')
                      if cap.isEmpty then none
                      else match l5.drop cap.length with
                        | ')' :: l6 =>
                            match dropWs l6 with
                            | ')' :: _ => some cap
                            | _ => none
                        | _ => none
                  | _ => none
                else none
              else none
          | [] => none
        else none
    | _ => none
  else none

/-- re.search: leftmost occurrence of the pattern. -/
def searchEnum (colName : List Char) : List Char → Option (List Char)
  | [] => none
  | l@(_ :: rest) =>
      match matchEnumAt colName l with
      | some cap => some cap
      | none => searchEnum colName rest

/-- The scan behind findQuoted: outside a quote (state none) a quote
opens a capture; inside a capture (state some acc, reversed) a quote
either restarts the capture (empty so far, matching how the regex engine
retries from the next quote) or emits the captured run; an unclosed
capture at the end of input is discarded. -/
def findQuotedAux : List Char → Option (List Char) → List String
  | [], _ => []
  | c :: rest, none =>
      if c == '\'' then findQuotedAux rest (some []) else findQuotedAux rest none
  | c :: rest, some acc =>
      if c == '\'' then
        if acc.isEmpty then findQuotedAux rest (some [])
        else String.mk acc.reverse :: findQuotedAux rest none
      else findQuotedAux rest (some (c :: acc))

/-- re.findall of single-quoted nonempty runs (the quoted-group pattern
of _extract_enum_values) over the captured text. -/
def findQuoted (l : List Char) : List String :=
  findQuotedAux l none

/-- SchemaConverter._extract_enum_values: search the stored CREATE
statement for the CHECK ... IN (...) pattern for this column and collect
the quoted values. -/
def extract_enum_values (sql : String) (columnName : String) : Option (List String) :=
  match searchEnum columnName.toList sql.toList with
  | some cap => some (findQuoted cap)
  | none => none

/-- Python d[1:-1]: drop the first and last character. -/
def strSliceInner (s : String) : String :=
  String.mk (s.toList.drop 1).dropLast

/-- The default-value recovery of _extract_sqlite_table_schema: quoted
literals are unquoted, CURRENT_TIMESTAMP (any case) is canonicalized,
digit runs become ints, everything else stays string text. -/
def recover_default (d : String) : JVal :=
  if sStartsWith d "'" && sEndsWith d "'" then .jstr (strSliceInner d)
  else if strUpper d == "CURRENT_TIMESTAMP" then .jstr "CURRENT_TIMESTAMP"
  else if strIsDigit d then .jint (Int.ofNat (digitsToNat d.toList))
  else .jstr d

/-- The column-definition dict _extract_sqlite_table_schema builds for
one PRAGMA table_info row: the parsed type info, nullable as not
notnull, primary_key, the recovered default, and the ENUM override when
the CREATE statement carries a matching CHECK constraint. -/
def extract_column_def (createSql : String) (col : CatCol) : List (String × JVal) :=
  let columnDef := parse_sql_type col.declType ++
    [("nullable", .jbool (!col.notnull)), ("primary_key", .jbool col.pk)]
  let columnDef := match col.dflt with
    | some d => objStore columnDef "default" (recover_default d)
    | none => columnDef
  match extract_enum_values createSql col.name with
  | some (v :: vs) =>
      objStore (objStore columnDef "type" (.jstr "ENUM")) "values"
        (.jarr ((v :: vs).map JVal.jstr))
  | _ => columnDef

/-- SchemaConverter._extract_sqlite_table_schema over the catalog of one
table. -/
def extract_sqlite_table_schema (t : CatTable) : JVal :=
  let cols := t.cols.foldl
    (fun acc col => objStore acc col.name (.jobj (extract_column_def t.createSql col))) []
  let userIndexes := t.indexes.filter (fun i => !sStartsWith i.name "sqlite_")
  let base := [("description", JVal.jstr (t.name ++ " table")), ("columns", JVal.jobj cols)]
  if userIndexes.isEmpty then .jobj base
  else .jobj (base ++ [("indexes", JVal.jarr (userIndexes.map (fun i =>
    JVal.jobj [("name", .jstr i.name), ("unique", .jbool i.unique),
      ("columns", .jarr (i.columns.map JVal.jstr))])))])

/-- SchemaConverter._extract_sqlite_relationships: one many-to-one
relationship per foreign-key row, per table. -/
def extract_sqlite_relationships (tables : List CatTable) : List JVal :=
  tables.flatMap (fun t => t.fks.map (fun fk =>
    JVal.jobj [("name", .jstr (t.name ++ "_to_" ++ fk.table)),
      ("from", .jstr (t.name ++ "." ++ fk.fromCol)),
      ("to", .jstr (fk.table ++ "." ++ fk.toCol)),
      ("type", .jstr "many-to-one"),
      ("on_delete", .jstr fk.onDelete),
      ("on_update", .jstr fk.onUpdate)]))

/-- Path(db_path).stem: the final path component without its last
suffix. -/
def pathStem (p : String) : String :=
  let name := (strSplit p '/').getLastD ""
  let chars := name.toList
  match (chars.drop 1).reverse.findIdx? (fun c => c == '.') with
  | some i =>
      if i + 1 < chars.length then String.mk (chars.take (chars.length - 1 - i)) else name
  | none => name

/-- SchemaConverter._extract_sqlite_schema over the modelled catalog:
user tables (sqlite_% excluded) sorted by name, each extracted, plus the
relationship list; the database block carries the path stem and the
extraction timestamp (datetime.now passed in as a parameter). -/
def extract_sqlite_schema (cat : List CatTable) (dbPath now : String) : JVal :=
  let userTables := cat.filter (fun t => !sStartsWith t.name "sqlite_")
  let sorted := sortTablesByName userTables
  .jobj [("database", .jobj [("name", .jstr (pathStem dbPath)), ("type", .jstr "sqlite"),
      ("version", .jstr "1.0.0"),
      ("description", .jstr ("Schema extracted from " ++ dbPath)),
      ("extracted_at", .jstr now)]),
    ("tables", .jobj (sorted.map (fun t => (t.name, extract_sqlite_table_schema t)))),
    ("relationships", .jarr (extract_sqlite_relationships sorted))]

/-- The SQLite round trip of the claim: create_database_with_schema on a
fresh database (modelled through materialize_sqlite) followed by
sql_to_json for the sqlite engine. -/
def roundtrip_sqlite (schema : JVal) (dbPath now : String) : Except String JVal := do
  let cat ← materialize_sqlite schema
  pure (extract_sqlite_schema cat dbPath now)

mutual

/-- Document equality up to key ordering (the comparison the round-trip
claim states): scalars and arrays compare structurally, objects compare
as key-value sets ignoring insertion order. -/
def jeqUpToKeyOrder : JVal → JVal → Bool
  | .jnull, .jnull => true
  | .jbool a, .jbool b => a == b
  | .jint a, .jint b => a == b
  | .jstr a, .jstr b => a == b
  | .jarr xs, .jarr ys => jeqArrL xs ys
  | .jobj xs, .jobj ys => xs.length == ys.length && jeqEntriesIn xs (.jobj ys)
  | _, _ => false

/-- Pointwise array comparison for jeqUpToKeyOrder. -/
def jeqArrL : List JVal → List JVal → Bool
  | [], [] => true
  | x :: xs, y :: ys => jeqUpToKeyOrder x y && jeqArrL xs ys
  | _, _ => false

/-- Every entry of the first object appears (up to key ordering) in the
second object. -/
def jeqEntriesIn : List (String × JVal) → JVal → Bool
  | [], _ => true
  | (k, v) :: rest, other =>
      (match other with
       | .jobj ys =>
         (match ys.find? (fun p => p.1 == k) with
          | some p2 => jeqUpToKeyOrder v p2.2
          | none => false)
       | _ => false) && jeqEntriesIn rest other

end

/-
Predicates and concrete documents used by the claim theorems.
-/

/-- Case-insensitive contiguous occurrence of p inside l. -/
def listCIInfixOf (p : List Char) : List Char → Bool
  | [] => listCIPrefixOf p []
  | c :: cs => listCIPrefixOf p (c :: cs) || listCIInfixOf p cs

/-- The string has no occurrence of "check" in any letter case (so the
ENUM CHECK-recovery pattern of the introspector cannot fire on text
built from it). -/
def noCheck (s : String) : Bool :=
  !(listCIInfixOf "check".toList s.toList)

/-- The keys of an association-list object are pairwise distinct (always
true for objects produced by Python's json.load). -/
def nodupKeysB : List (String × JVal) → Bool
  | [] => true
  | (k, _) :: rest => !(rest.any (fun p => p.1 == k)) && nodupKeysB rest

/-- A type spelling of the exact shape VARCHAR(n) with a nonempty digit
run n. -/
def varcharForm (ty : String) : Bool :=
  let l := ty.toList
  listPrefixOf "VARCHAR(".toList l &&
  (let rest := l.drop 8
   let digits := rest.takeWhile Char.isDigit
   !digits.isEmpty && rest.drop digits.length == [')'])

/-- The round-trip claim's restricted type universe: INTEGER, TEXT,
VARCHAR(n), BOOLEAN, DATE and DATETIME. -/
def c1TypeOk (ty : String) : Bool :=
  ty == "INTEGER" || ty == "TEXT" || ty == "BOOLEAN" || ty == "DATE" ||
    ty == "DATETIME" || varcharForm ty

/-- Default values whose DDL rendering provably carries no CHECK text:
booleans, integers, and strings free of "check". -/
def c1DefaultOk (v : JVal) : Bool :=
  match v with
  | .jbool _ => true
  | .jint _ => true
  | .jstr s => noCheck s
  | _ => false

/-- A foreign-key object whose fields are "check"-free strings. -/
def c1FKOk (v : JVal) : Bool :=
  match v with
  | .jobj kvs =>
      (match objLookup kvs "table" with | some (.jstr s) => noCheck s | _ => false) &&
      (match objLookup kvs "column" with | some (.jstr s) => noCheck s | _ => false) &&
      (match objLookup kvs "on_delete" with
       | none => true | some (.jstr s) => noCheck s | _ => false) &&
      (match objLookup kvs "on_update" with
       | none => true | some (.jstr s) => noCheck s | _ => false)
  | _ => false

/-- An index definition the materializer's catalog model accepts: a name
and a list of string column names. -/
def c1IndexOk (v : JVal) : Bool :=
  match v with
  | .jobj kvs =>
      (match objLookup kvs "name" with | some _ => true | none => false) &&
      (match objLookup kvs "columns" with
       | some (.jarr xs) => xs.all (fun x => match x with | .jstr _ => true | _ => false)
       | _ => false)
  | _ => false

/-- A column definition inside the round-trip claim's universe: a
"check"-free name, a restricted type, and well-shaped optional default
and foreign key. -/
def c1ColumnOk (cn : String) (v : JVal) : Bool :=
  noCheck cn &&
  (match v with
   | .jobj kvs =>
      (match objLookup kvs "type" with | some (.jstr ty) => c1TypeOk ty | _ => false) &&
      (match objLookup kvs "default" with | none => true | some d => c1DefaultOk d) &&
      (match objLookup kvs "foreign_key" with | none => true | some fk => c1FKOk fk)
   | _ => false)

/-- A table definition inside the round-trip claim's universe. -/
def c1TableOk (tn : String) (v : JVal) : Bool :=
  noCheck tn && !sStartsWith tn "sqlite_" &&
  (match v with
   | .jobj kvs =>
      (match objLookup kvs "description" with
       | none => true | some (.jstr s) => noCheck s | _ => false) &&
      (match objLookup kvs "columns" with
       | some (.jobj ckvs) => nodupKeysB ckvs && ckvs.all (fun p => c1ColumnOk p.1 p.2)
       | _ => false) &&
      (match objLookup kvs "indexes" with
       | none => true
       | some (.jarr xs) => xs.all c1IndexOk
       | _ => false)
   | _ => false)

/-- A schema document inside the round-trip claim's universe: a tables
mapping (distinct names, none reserved by SQLite) of well-shaped tables
whose columns use only the representable types. -/
def c1SchemaOk (s : JVal) : Bool :=
  match s with
  | .jobj kvs =>
      (match objLookup kvs "tables" with
       | some (.jobj tkvs) => nodupKeysB tkvs && tkvs.all (fun p => c1TableOk p.1 p.2)
       | _ => false)
  | _ => false

/-- A well-shaped foreign-key object for the validator-totality claim:
the target table name is a string, other fields are hashable when
present (exactly what keeps every validator operation from raising). -/
def wfFK (fk : JVal) : Bool :=
  match fk with
  | .jobj kvs =>
      (match objLookup kvs "table" with | some (.jstr _) => true | _ => false) &&
      (match objLookup kvs "column" with | none => true | some v => pyHashable v) &&
      (match objLookup kvs "on_delete" with | none => true | some v => pyHashable v) &&
      (match objLookup kvs "on_update" with | none => true | some v => pyHashable v)
  | _ => false

/-- A well-shaped column definition: a dict whose type field (when
present) is a string, whose values field (when present) is a list, and
whose foreign_key (when present) is well-shaped. -/
def wfColumn (v : JVal) : Bool :=
  match v with
  | .jobj kvs =>
      (match objLookup kvs "type" with | none => true | some (.jstr _) => true | _ => false) &&
      (match objLookup kvs "values" with | none => true | some (.jarr _) => true | _ => false) &&
      (match objLookup kvs "foreign_key" with | none => true | some fk => wfFK fk)
  | _ => false

/-- A well-shaped index definition: a dict with a hashable name (when
present) and a list of hashable column names (when present). -/
def wfIndex (v : JVal) : Bool :=
  match v with
  | .jobj kvs =>
      (match objLookup kvs "name" with | none => true | some nv => pyHashable nv) &&
      (match objLookup kvs "columns" with
       | none => true
       | some (.jarr xs) => xs.all pyHashable
       | _ => false)
  | _ => false

/-- A well-shaped relationship record: a dict whose from/to fields are
strings when present. -/
def wfRelationship (v : JVal) : Bool :=
  match v with
  | .jobj kvs =>
      (match objLookup kvs "from" with | none => true | some (.jstr _) => true | _ => false) &&
      (match objLookup kvs "to" with | none => true | some (.jstr _) => true | _ => false)
  | _ => false

/-- A well-shaped table definition: a dict whose columns section (when
present) is a dict of well-shaped columns and whose indexes section
(when present) is a list of well-shaped indexes. -/
def wfTable (v : JVal) : Bool :=
  match v with
  | .jobj kvs =>
      (match objLookup kvs "columns" with
       | none => true
       | some (.jobj ckvs) => ckvs.all (fun p => wfColumn p.2)
       | _ => false) &&
      (match objLookup kvs "indexes" with
       | none => true
       | some (.jarr xs) => xs.all wfIndex
       | _ => false)
  | _ => false

/-- A well-shaped schema document for the validator-totality claim: the
containers have the Python types the data model describes (tables and
seed_data dicts, relationships and index/record containers lists, name
fields strings). -/
def wfSchema (s : JVal) : Bool :=
  match s with
  | .jobj kvs =>
      (match objLookup kvs "tables" with
       | none => true
       | some (.jobj tkvs) => tkvs.all (fun p => wfTable p.2)
       | _ => false) &&
      (match objLookup kvs "relationships" with
       | none => true
       | some (.jarr xs) => xs.all wfRelationship
       | _ => false) &&
      (match objLookup kvs "seed_data" with
       | none => true
       | some (.jobj skvs) =>
           skvs.all (fun p => match p.2 with | .jarr _ => true | _ => false)
       | _ => false)
  | _ => false

/-- The end-to-end scenario schema of the DDL claim: a users table with
an auto-increment INTEGER primary key and a unique non-nullable
VARCHAR(255) email. -/
def doc_users_ddl : JVal :=
  .jobj [("tables", .jobj [("users", .jobj [("columns", .jobj
    [("id", .jobj [("type", .jstr "INTEGER"), ("primary_key", .jbool true),
       ("auto_increment", .jbool true)]),
     ("email", .jobj [("type", .jstr "VARCHAR(255)"), ("nullable", .jbool false),
       ("unique", .jbool true)])])])])]

/-- The DDL json_to_sql produces from doc_users_ddl for the sqlite
engine. -/
def ddl_users_sqlite : String :=
  "-- Database Schema\n-- Generated from JSON schema\n-- Database: unknown\n" ++
  "-- Version: 1.0.0\n\n-- ===== TABLES =====\n\n-- users\n" ++
  "CREATE TABLE IF NOT EXISTS users (\n    id INTEGER PRIMARY KEY AUTOINCREMENT,\n" ++
  "    email VARCHAR(255) NOT NULL UNIQUE\n);\n\n-- ===== INDEXES ====="

/-- The ENUM scenario schema: an auto-increment INTEGER primary key plus
a status ENUM('active','inactive') column with default 'active'. -/
def doc_users_status : JVal :=
  .jobj [("tables", .jobj [("users", .jobj [("columns", .jobj
    [("id", .jobj [("type", .jstr "INTEGER"), ("primary_key", .jbool true),
       ("auto_increment", .jbool true)]),
     ("status", .jobj [("type", .jstr "ENUM"),
       ("values", .jarr [.jstr "active", .jstr "inactive"]),
       ("default", .jstr "active")])])])])]

/-- json_to_sql output of doc_users_status for sqlite. -/
def ddl_status_sqlite : String :=
  "-- Database Schema\n-- Generated from JSON schema\n-- Database: unknown\n" ++
  "-- Version: 1.0.0\n\n-- ===== TABLES =====\n\n-- users\n" ++
  "CREATE TABLE IF NOT EXISTS users (\n    id INTEGER PRIMARY KEY AUTOINCREMENT,\n" ++
  "    status TEXT DEFAULT 'active' CHECK (status IN ('active', 'inactive'))\n);\n\n" ++
  "-- ===== INDEXES ====="

/-- json_to_sql output of doc_users_status for postgresql. -/
def ddl_status_postgresql : String :=
  "-- Database Schema\n-- Generated from JSON schema\n-- Database: unknown\n" ++
  "-- Version: 1.0.0\n\n-- ===== TABLES =====\n\n-- users\n" ++
  "CREATE TABLE IF NOT EXISTS users (\n    id SERIAL PRIMARY KEY,\n" ++
  "    status TEXT DEFAULT 'active' CHECK (status IN ('active', 'inactive'))\n);\n\n" ++
  "-- ===== INDEXES ====="

/-- json_to_sql output of doc_users_status for mysql. -/
def ddl_status_mysql : String :=
  "-- Database Schema\n-- Generated from JSON schema\n-- Database: unknown\n" ++
  "-- Version: 1.0.0\n\n-- ===== TABLES =====\n\n-- users\n" ++
  "CREATE TABLE IF NOT EXISTS users (\n    id INT PRIMARY KEY AUTO_INCREMENT,\n" ++
  "    status ENUM('active', 'inactive') DEFAULT 'active'\n" ++
  ") ENGINE=InnoDB DEFAULT CHARSET=utf8mb4 COLLATE=utf8mb4_unicode_ci;\n\n" ++
  "-- ===== INDEXES ====="

/-- Two tables referencing each other: A.x → B.y and B.y → A.x. -/
def doc_cycle_ab : JVal :=
  .jobj [("tables", .jobj
    [("A", .jobj [("columns", .jobj [("x", .jobj [("type", .jstr "INTEGER"),
        ("foreign_key", .jobj [("table", .jstr "B"), ("column", .jstr "y")])])])]),
     ("B", .jobj [("columns", .jobj [("y", .jobj [("type", .jstr "INTEGER"),
        ("foreign_key", .jobj [("table", .jstr "A"), ("column", .jstr "x")])])])])])]

/-- An acyclic chain A.x → B.y, B.y → C.z. -/
def doc_chain_abc : JVal :=
  .jobj [("tables", .jobj
    [("A", .jobj [("columns", .jobj [("x", .jobj [("type", .jstr "INTEGER"),
        ("foreign_key", .jobj [("table", .jstr "B"), ("column", .jstr "y")])])])]),
     ("B", .jobj [("columns", .jobj [("y", .jobj [("type", .jstr "INTEGER"),
        ("foreign_key", .jobj [("table", .jstr "C"), ("column", .jstr "z")])])])]),
     ("C", .jobj [("columns", .jobj [("z", .jobj [("type", .jstr "INTEGER")])])])])]

/-- A document whose only column has a foreign_key carrying a table
field that names a nonexistent table but no column field. -/
def doc_fk_no_column : JVal :=
  .jobj [("tables", .jobj [("orders", .jobj [("columns", .jobj
    [("uid", .jobj [("type", .jstr "INTEGER"),
       ("foreign_key", .jobj [("table", .jstr "ghost")])])])])])]

/-- A document with a complete foreign key (table and column fields)
whose target table users does not exist. -/
def doc_fk_ghost_full : JVal :=
  .jobj [("tables", .jobj [("orders", .jobj [("columns", .jobj
    [("uid", .jobj [("type", .jstr "INTEGER"),
       ("foreign_key", .jobj [("table", .jstr "users"), ("column", .jstr "id")])])])])])]

/-- A document without a tables key whose relationships section is a
number, so that len() raises inside _create_result. -/
def doc_no_tables_bad_rels : JVal :=
  .jobj [("relationships", .jint 5)]

/-- A document without a tables key and with one (empty) relationship
record. -/
def doc_no_tables_one_rel : JVal :=
  .jobj [("relationships", .jarr [.jobj []])]

/-- A document whose tables section is a list, on which tables.items()
raises AttributeError. -/
def doc_tables_list : JVal :=
  .jobj [("tables", .jarr [])]

/-- A well-shaped two-table document with an index, a relationship and
seed data. -/
def doc_wf_full : JVal :=
  .jobj [("database", .jobj [("name", .jstr "d")]),
    ("tables", .jobj
     [("users", .jobj
       [("columns", .jobj
         [("id", .jobj [("type", .jstr "INTEGER"), ("primary_key", .jbool true)]),
          ("name", .jobj [("type", .jstr "TEXT"), ("nullable", .jbool false)])]),
        ("indexes", .jarr [.jobj [("name", .jstr "ix_users_name"),
          ("columns", .jarr [.jstr "name"])]])]),
      ("posts", .jobj
       [("columns", .jobj
         [("id", .jobj [("type", .jstr "INTEGER"), ("primary_key", .jbool true)]),
          ("user_id", .jobj [("type", .jstr "INTEGER"),
            ("foreign_key", .jobj [("table", .jstr "users"), ("column", .jstr "id")])])])])]),
    ("relationships", .jarr [.jobj [("from", .jstr "posts.user_id"),
      ("to", .jstr "users.id")]]),
    ("seed_data", .jobj [("users", .jarr
      [.jobj [("id", .jint 1), ("name", .jstr "a")]])])]

/-- A primary-key column that omits the nullable field entirely. -/
def doc_pk_no_nullable : JVal :=
  .jobj [("type", .jstr "INTEGER"), ("primary_key", .jbool true)]

/-- A primary-key column with nullable explicitly true. -/
def doc_pk_nullable_true : JVal :=
  .jobj [("type", .jstr "INTEGER"), ("primary_key", .jbool true), ("nullable", .jbool true)]

/-- A base schema file defining a users table. -/
def doc_merge_base : JVal :=
  .jobj [("tables", .jobj [("users", .jobj [("columns", .jobj
    [("id", .jobj [("type", .jstr "INTEGER")])])])])]

/-- An admin schema file defining a different users table. -/
def doc_merge_admin : JVal :=
  .jobj [("tables", .jobj [("users", .jobj [("columns", .jobj
    [("id", .jobj [("type", .jstr "INTEGER")]),
     ("role", .jobj [("type", .jstr "TEXT")])])])])]

/-- The users table body of doc_merge_base. -/
def merge_base_users : JVal :=
  .jobj [("columns", .jobj [("id", .jobj [("type", .jstr "INTEGER")])])]

/-- The users table body of doc_merge_admin. -/
def merge_admin_users : JVal :=
  .jobj [("columns", .jobj [("id", .jobj [("type", .jstr "INTEGER")]),
    ("role", .jobj [("type", .jstr "TEXT")])])]

/-- The document merge_schemas produces for doc_merge_base and
doc_merge_admin in either order: the admin file's users table wins. -/
def doc_merged_users : JVal :=
  .jobj [("database", merged_database_block),
    ("tables", .jobj [("users", merge_admin_users)]),
    ("relationships", .jarr []),
    ("seed_data", .jobj [])]

/-- The users column section used by the seed-data examples. -/
def seed_users_cols : List (String × JVal) :=
  [("id", .jobj [("type", .jstr "INTEGER"), ("primary_key", .jbool true)]),
   ("name", .jobj [("type", .jstr "TEXT")])]

/-- Seed records that omit (positions 0 and 2) and carry (position 1) the
INTEGER primary key. -/
def seed_users_records : List JVal :=
  [.jobj [("name", .jstr "a")], .jobj [("id", .jint 7), ("name", .jstr "b")],
   .jobj [("name", .jstr "c")]]

/-- What _process_seed_data produces for seed_users_records: positions 0
and 2 gain id = 1 and id = 3 (appended at the end of the record, Python
dict insertion order), position 1 keeps its explicit id = 7. -/
def seed_users_processed : List JVal :=
  [.jobj [("name", .jstr "a"), ("id", .jint 1)],
   .jobj [("id", .jint 7), ("name", .jstr "b")],
   .jobj [("name", .jstr "c"), ("id", .jint 3)]]

/-- Seed data with records that omit and carry the INTEGER primary
key. -/
def doc_seed_records : JVal :=
  .jobj [("users", .jarr [.jobj [("name", .jstr "a")],
    .jobj [("id", .jint 7), ("name", .jstr "b")],
    .jobj [("name", .jstr "c")]])]

/-- The tables section doc_seed_records is processed against. -/
def doc_seed_tables : JVal :=
  .jobj [("users", .jobj [("columns", .jobj
    [("id", .jobj [("type", .jstr "INTEGER"), ("primary_key", .jbool true)]),
     ("name", .jobj [("type", .jstr "TEXT")])])])]

/-- A one-table one-column restricted-type document for the round-trip
counterexample. -/
def doc_roundtrip_min : JVal :=
  .jobj [("tables", .jobj [("users", .jobj [("columns", .jobj
    [("id", .jobj [("type", .jstr "INTEGER")])])])])]

/-- What extraction returns after materializing doc_roundtrip_min: the
database block, an explicit description, nullable and primary_key flags
and a relationships list all appear even though the input had none of
them. -/
def extracted_roundtrip_min : JVal :=
  .jobj [("database", .jobj [("name", .jstr "test_db"), ("type", .jstr "sqlite"),
      ("version", .jstr "1.0.0"),
      ("description", .jstr "Schema extracted from test_db.sqlite3"),
      ("extracted_at", .jstr "2026-02-03T00:00:00")]),
    ("tables", .jobj [("users", .jobj [("description", .jstr "users table"),
      ("columns", .jobj [("id", .jobj [("type", .jstr "INTEGER"),
        ("nullable", .jbool true), ("primary_key", .jbool false)])])])]),
    ("relationships", .jarr [])]

/-- A restricted-type document with a primary key, a VARCHAR column and
a BOOLEAN default, inside the round-trip claim's universe. -/
def doc_roundtrip_wit : JVal :=
  .jobj [("tables", .jobj [("accounts", .jobj [("columns", .jobj
    [("id", .jobj [("type", .jstr "INTEGER"), ("primary_key", .jbool true)]),
     ("email", .jobj [("type", .jstr "VARCHAR(255)"), ("nullable", .jbool false)]),
     ("active", .jobj [("type", .jstr "BOOLEAN"), ("default", .jbool true)])])])])]

/-- Total neighbor count of the dependency dict. -/
def cycS (deps : List (String × List JVal)) : Nat :=
  (deps.map (fun p => p.2.length)).sum

/-- Number of dependency keys no visited element Python-equals. -/
def cycK (deps : List (String × List JVal)) (v : List JVal) : Nat :=
  deps.countP (fun p => !(v.any (fun y => pyEq y (.jstr p.1))))

/-- Key access on an object value, none elsewhere: the navigation step
the round-trip comparison is stated with. -/
def jAt (v : JVal) (k : String) : Option JVal :=
  match v with
  | .jobj kvs => objLookup kvs k
  | _ => none

/-
Claim theorems.  Each claim from the specification gets one theorem; a
corrected claim additionally gets a counterexample refuting it as
stated, and theorems with hypotheses get a closed witness instantiating
them.
-/

/-- C3: validating the two-table cycle A→B→A yields exactly one
circular-dependency error, naming table A (one of the two tables), and
the acyclic chain A→B→C yields no error at all — the validator builds
the foreign-key dependency graph and runs depth-first cycle
detection. -/
theorem C3_cycle_detection :
    validate_schema doc_cycle_ab =
      .ok ⟨false, [msgCircular "A"],
        [msgMissingDatabase, msgNoPrimaryKey "A", msgNoPrimaryKey "B"], 2, 0, 0, 2⟩ ∧
    validate_schema doc_chain_abc =
      .ok ⟨true, [],
        [msgMissingDatabase, msgNoPrimaryKey "A", msgNoPrimaryKey "B",
         msgNoPrimaryKey "C"], 3, 0, 0, 3⟩ :=
  ⟨rfl, rfl⟩

/-- C4: converting the users schema for SQLite produces exactly the DDL
text ddl_users_sqlite, which contains the line CREATE TABLE IF NOT
EXISTS users ( immediately followed by the column line id INTEGER
PRIMARY KEY AUTOINCREMENT and then the column line email VARCHAR(255)
NOT NULL UNIQUE, each column line assembled in the order name, type,
PRIMARY KEY/AUTOINCREMENT, NOT NULL, UNIQUE. -/
theorem C4_users_ddl_sqlite :
    json_to_sql doc_users_ddl "sqlite" = .ok ddl_users_sqlite ∧
    sContains ddl_users_sqlite
      ("CREATE TABLE IF NOT EXISTS users (\n    id INTEGER PRIMARY KEY AUTOINCREMENT,\n" ++
       "    email VARCHAR(255) NOT NULL UNIQUE\n);") = true :=
  ⟨rfl, by decide⟩

/-- C5: the status ENUM column is rendered with both DEFAULT 'active'
and CHECK (status IN ('active', 'inactive')) on one column line for the
sqlite and postgresql engines, and as the native type
ENUM('active', 'inactive') with no CHECK clause anywhere in the output
for mysql. -/
theorem C5_enum_rendering :
    json_to_sql doc_users_status "sqlite" = .ok ddl_status_sqlite ∧
    json_to_sql doc_users_status "postgresql" = .ok ddl_status_postgresql ∧
    json_to_sql doc_users_status "mysql" = .ok ddl_status_mysql ∧
    sContains ddl_status_sqlite
      "status TEXT DEFAULT 'active' CHECK (status IN ('active', 'inactive'))" = true ∧
    sContains ddl_status_postgresql
      "status TEXT DEFAULT 'active' CHECK (status IN ('active', 'inactive'))" = true ∧
    sContains ddl_status_mysql "status ENUM('active', 'inactive') DEFAULT 'active'" = true ∧
    sContains ddl_status_mysql "CHECK" = false :=
  ⟨rfl, rfl, rfl, by decide, by decide, by decide, by decide⟩

/-- C2 is false as stated: doc_fk_no_column has a column whose
foreign_key carries a table field naming the nonexistent table ghost,
and validation indeed fails, but its only error is the missing-'column'
message, which does not mention ghost. -/
theorem C2_counterexample :
    validate_schema doc_fk_no_column =
      .ok ⟨false, [msgFkMissingColumn "orders" "uid"],
        [msgMissingDatabase, msgNoPrimaryKey "orders"], 1, 0, 0, 1⟩ ∧
    sContains (msgFkMissingColumn "orders" "uid") "ghost" = false :=
  ⟨rfl, by decide⟩

/-- C8 is false as stated: a document that lacks the tables key but
whose relationships section is a number makes validate_schema raise
TypeError (len of an int inside _create_result) instead of returning a
result envelope. -/
theorem C8_counterexample :
    validate_schema doc_no_tables_bad_rels = .error "TypeError" :=
  rfl

/-- C9 is false as stated: on the JSON-parseable document whose tables
section is a list, validate_schema raises AttributeError
(tables.items() on a list) instead of returning a result. -/
theorem C9_counterexample :
    validate_schema doc_tables_list = .error "AttributeError" :=
  rfl

/-- C1 is false as stated: materializing the restricted-type document
doc_roundtrip_min against a fresh SQLite database and extracting the
schema back yields extracted_roundtrip_min, which is not equal to the
input up to key ordering — extraction adds a database block, a
relationships list, a table description and explicit nullable and
primary_key flags. -/
theorem C1_counterexample :
    roundtrip_sqlite doc_roundtrip_min "test_db.sqlite3" "2026-02-03T00:00:00" =
      .ok extracted_roundtrip_min ∧
    jeqUpToKeyOrder extracted_roundtrip_min doc_roundtrip_min = false :=
  ⟨rfl, by decide⟩

/-
Helper lemmas shared by the claim proofs.
-/

/-- Inversion of a successful Except bind. -/
theorem except_bind_ok {α β : Type} {e : Except String α} {k : α → Except String β}
    {r : β} : (e >>= k) = .ok r ↔ ∃ a, e = .ok a ∧ k a = .ok r := by
  cases e <;> simp [Bind.bind, Except.bind]

/-- A successful _create_result call carries exactly the counts that
result_counts computes from the document, and the given flag, errors and
warnings. -/
theorem create_result_ok {b : Bool} {es ws : List String} {s : JVal} {r : VResult}
    (h : create_result b es ws s = .ok r) :
    result_counts s =
      .ok (r.table_count, r.relationship_count, r.index_count, r.total_columns) ∧
    r.is_valid = b ∧ r.errors = es ∧ r.warnings = ws := by
  unfold create_result at h
  rw [show (do
      let (tableCount, relCount, idxCount, colCount) ← result_counts s
      pure ⟨b, es, ws, tableCount, relCount, idxCount, colCount⟩ :
      Except String VResult) =
    (result_counts s >>= fun q =>
      pure ⟨b, es, ws, q.1, q.2.1, q.2.2.1, q.2.2.2⟩) from rfl] at h
  rw [except_bind_ok] at h
  obtain ⟨⟨q1, q2, q3, q4⟩, hc, h⟩ := h
  simp only [pure, Except.pure, Except.ok.injEq] at h
  subst h
  exact ⟨hc, rfl, rfl, rfl⟩

/-- Whenever validate_schema completes, the result's four counts are the
ones result_counts computes from the input document. -/
theorem validate_schema_counts {s : JVal} {r : VResult}
    (h : validate_schema s = .ok r) :
    result_counts s =
      .ok (r.table_count, r.relationship_count, r.index_count, r.total_columns) := by
  unfold validate_schema at h
  rw [except_bind_ok] at h
  obtain ⟨hasDb, -, h⟩ := h
  rw [except_bind_ok] at h
  obtain ⟨hasTables, -, h⟩ := h
  cases hasTables with
  | false =>
      rw [if_pos (by decide)] at h
      exact (create_result_ok h).1
  | true =>
      rw [if_neg (by decide)] at h
      rw [except_bind_ok] at h
      obtain ⟨tables, -, h⟩ := h
      rw [except_bind_ok] at h
      obtain ⟨entries, -, h⟩ := h
      rw [except_bind_ok] at h
      obtain ⟨⟨errs, warns⟩, -, h⟩ := h
      rw [except_bind_ok] at h
      obtain ⟨hasRels, -, h⟩ := h
      cases hasRels with
      | true =>
          rw [if_pos rfl] at h
          rw [except_bind_ok] at h
          obtain ⟨_, -, h⟩ := h
          rw [except_bind_ok] at h
          obtain ⟨_, -, h⟩ := h
          rw [except_bind_ok] at h
          obtain ⟨y, -, h⟩ := h
          rw [except_bind_ok] at h
          obtain ⟨hasSeed, -, h⟩ := h
          cases hasSeed with
          | true =>
              rw [if_pos rfl] at h
              rw [except_bind_ok] at h
              obtain ⟨_, -, h⟩ := h
              rw [except_bind_ok] at h
              obtain ⟨_, -, h⟩ := h
              rw [except_bind_ok] at h
              obtain ⟨_, -, h⟩ := h
              rw [except_bind_ok] at h
              obtain ⟨_, -, h⟩ := h
              exact (create_result_ok h).1
          | false =>
              rw [if_neg (by decide)] at h
              rw [except_bind_ok] at h
              obtain ⟨_, -, h⟩ := h
              rw [except_bind_ok] at h
              obtain ⟨_, -, h⟩ := h
              exact (create_result_ok h).1
      | false =>
          rw [if_neg (by decide)] at h
          rw [except_bind_ok] at h
          obtain ⟨y, -, h⟩ := h
          rw [except_bind_ok] at h
          obtain ⟨hasSeed, -, h⟩ := h
          cases hasSeed with
          | true =>
              rw [if_pos rfl] at h
              rw [except_bind_ok] at h
              obtain ⟨_, -, h⟩ := h
              rw [except_bind_ok] at h
              obtain ⟨_, -, h⟩ := h
              rw [except_bind_ok] at h
              obtain ⟨_, -, h⟩ := h
              rw [except_bind_ok] at h
              obtain ⟨_, -, h⟩ := h
              exact (create_result_ok h).1
          | false =>
              rw [if_neg (by decide)] at h
              rw [except_bind_ok] at h
              obtain ⟨_, -, h⟩ := h
              rw [except_bind_ok] at h
              obtain ⟨_, -, h⟩ := h
              exact (create_result_ok h).1

/-- An association list with no entry for a key fails the any-test the
embedding uses for Python dict membership. -/
theorem objLookup_none_any {kvs : List (String × JVal)} {k : String}
    (h : objLookup kvs k = none) : kvs.any (fun p => p.1 == k) = false := by
  induction kvs with
  | nil => rfl
  | cons p rest ih =>
      cases hpk : (p.1 == k) with
      | true => simp [objLookup, List.find?_cons, hpk] at h
      | false =>
          simp only [List.any_cons, hpk, Bool.false_or]
          apply ih
          simpa [objLookup, List.find?_cons, hpk] using h

/-- An association list with an entry for a key passes the membership
any-test. -/
theorem objLookup_some_any {kvs : List (String × JVal)} {k : String} {v : JVal}
    (h : objLookup kvs k = some v) : kvs.any (fun p => p.1 == k) = true := by
  induction kvs with
  | nil => simp [objLookup] at h
  | cons p rest ih =>
      cases hpk : (p.1 == k) with
      | true => simp [List.any_cons, hpk]
      | false =>
          simp only [List.any_cons, hpk, Bool.false_or]
          apply ih
          simpa [objLookup, List.find?_cons, hpk] using h

/-- Two strings with distinct last characters in their final literal
pieces are distinct. -/
theorem ne_of_last_append {a b u v : String} (hu : u.toList ≠ []) (hv : v.toList ≠ [])
    (h : u.toList.getLast? ≠ v.toList.getLast?) : a ++ u ≠ b ++ v := by
  intro he
  apply h
  have hdata : a.toList ++ u.toList = b.toList ++ v.toList := by
    have := congrArg String.toList he
    simpa [String.toList, String.data_append] using this
  calc u.toList.getLast? = (a.toList ++ u.toList).getLast? :=
        (List.getLast?_append_of_ne_nil _ hu).symm
    _ = (b.toList ++ v.toList).getLast? := by rw [hdata]
    _ = v.toList.getLast? := List.getLast?_append_of_ne_nil _ hv

/-- C8 (amended): whenever validate_schema completes it returns the full
envelope whose four counts are computed from the input document by
result_counts, and on an object document lacking the tables key it
short-circuits with is_valid false and exactly the missing-'tables'
error while still carrying those counts.  The amendment (forced by
C8_counterexample) is the completion condition: a document whose other
sections are so malformed that the count computation itself raises
(e.g. a numeric relationships section) yields an exception instead of
an envelope. -/
theorem C8_counts_envelope :
    (∀ (s : JVal) (r : VResult), validate_schema s = .ok r →
      result_counts s =
        .ok (r.table_count, r.relationship_count, r.index_count, r.total_columns)) ∧
    (∀ (kvs : List (String × JVal)) (r : VResult), objLookup kvs "tables" = none →
      validate_schema (.jobj kvs) = .ok r →
      r.is_valid = false ∧ r.errors = [msgMissingTables] ∧
      result_counts (.jobj kvs) =
        .ok (r.table_count, r.relationship_count, r.index_count, r.total_columns)) := by
  constructor
  · exact fun s r h => validate_schema_counts h
  · intro kvs r hlook h
    have hcounts := validate_schema_counts h
    unfold validate_schema at h
    rw [except_bind_ok] at h
    obtain ⟨hasDb, -, h⟩ := h
    rw [except_bind_ok] at h
    obtain ⟨hasTables, hT, h⟩ := h
    have hfalse : hasTables = false := by
      have hany := objLookup_none_any hlook
      simp only [pyContainsS, hany, Except.ok.injEq] at hT
      exact hT.symm
    subst hfalse
    rw [if_pos (by decide)] at h
    exact ⟨(create_result_ok h).2.1, (create_result_ok h).2.2.1, hcounts⟩

/-- Witness for C8_counts_envelope: the document with one relationship
and no tables key yields the short-circuit envelope with counts
(0, 1, 0, 0) computed from the document. -/
theorem C8_counts_envelope_witness :
    validate_schema doc_no_tables_one_rel =
      .ok ⟨false, [msgMissingTables], [msgMissingDatabase], 0, 1, 0, 0⟩ ∧
    result_counts doc_no_tables_one_rel = .ok (0, 1, 0, 0) := by
  refine ⟨rfl, ?_⟩
  have h := C8_counts_envelope.2 [("relationships", JVal.jarr [JVal.jobj []])]
    ⟨false, [msgMissingTables], [msgMissingDatabase], 0, 1, 0, 0⟩ rfl rfl
  exact h.2.2

theorem pk_ne_msgMissingType (t c : String) : msgPkNullable t c ≠ msgMissingType t c := by
  unfold msgMissingType msgPkNullable
  exact ne_of_last_append (by decide) (by decide) (by decide)

theorem pk_ne_msgInvalidType (t c ty : String) :
    msgPkNullable t c ≠ msgInvalidType t c ty := by
  unfold msgInvalidType msgPkNullable
  exact ne_of_last_append (by decide) (by decide) (by decide)

theorem pk_ne_msgEnumRequiresValues (t c : String) :
    msgPkNullable t c ≠ msgEnumRequiresValues t c := by
  unfold msgEnumRequiresValues msgPkNullable
  exact ne_of_last_append (by decide) (by decide) (by decide)

theorem pk_ne_msgEnumNonEmpty (t c : String) :
    msgPkNullable t c ≠ msgEnumNonEmpty t c := by
  unfold msgEnumNonEmpty msgPkNullable
  exact ne_of_last_append (by decide) (by decide) (by decide)

theorem pk_ne_msgFkMissingTable (t c : String) :
    msgPkNullable t c ≠ msgFkMissingTable t c := by
  unfold msgFkMissingTable msgPkNullable
  exact ne_of_last_append (by decide) (by decide) (by decide)

theorem pk_ne_msgFkMissingColumn (t c : String) :
    msgPkNullable t c ≠ msgFkMissingColumn t c := by
  unfold msgFkMissingColumn msgPkNullable
  exact ne_of_last_append (by decide) (by decide) (by decide)

theorem pk_ne_msgFkTableNotExist (t c rt : String) :
    msgPkNullable t c ≠ msgFkTableNotExist t c rt := by
  unfold msgFkTableNotExist msgPkNullable
  exact ne_of_last_append (by decide) (by decide) (by decide)

theorem pk_ne_msgFkColumnNotExist (t c rt rc : String) :
    msgPkNullable t c ≠ msgFkColumnNotExist t c rt rc := by
  unfold msgFkColumnNotExist msgPkNullable
  exact ne_of_last_append (by decide) (by decide) (by decide)

theorem pk_ne_msgFkInvalidOnDelete (t c a : String) :
    msgPkNullable t c ≠ msgFkInvalidOnDelete t c a := by
  unfold msgFkInvalidOnDelete msgPkNullable
  exact ne_of_last_append (by decide) (by decide) (by decide)

theorem pk_ne_msgFkInvalidOnUpdate (t c a : String) :
    msgPkNullable t c ≠ msgFkInvalidOnUpdate t c a := by
  unfold msgFkInvalidOnUpdate msgPkNullable
  exact ne_of_last_append (by decide) (by decide) (by decide)

theorem validate_fk_no_pk_msg {t c : String} {fk tabs : JVal} {es : List String}
    (h : validate_foreign_key t c fk tabs = .ok es) : msgPkNullable t c ∉ es := by
  unfold validate_foreign_key at h
  rw [except_bind_ok] at h
  obtain ⟨hasTable, -, h⟩ := h
  cases hasTable with
  | false =>
      rw [if_pos (by decide)] at h
      simp only [pure, Except.pure, Except.ok.injEq] at h
      subst h
      simp [pk_ne_msgFkMissingTable]
  | true =>
      rw [if_neg (by decide)] at h
      rw [except_bind_ok] at h
      obtain ⟨_, -, h⟩ := h
      rw [except_bind_ok] at h
      obtain ⟨hasColumn, -, h⟩ := h
      cases hasColumn with
      | false =>
          rw [if_pos (by decide)] at h
          simp only [pure, Except.pure, Except.ok.injEq] at h
          subst h
          simp [pk_ne_msgFkMissingColumn]
      | true =>
          rw [if_neg (by decide)] at h
          rw [except_bind_ok] at h
          obtain ⟨_, -, h⟩ := h
          rw [except_bind_ok] at h
          obtain ⟨refTable, -, h⟩ := h
          rw [except_bind_ok] at h
          obtain ⟨refColumn, -, h⟩ := h
          rw [except_bind_ok] at h
          obtain ⟨memT, -, h⟩ := h
          cases memT with
          | false =>
              rw [if_pos (by decide)] at h
              simp only [pure, Except.pure, Except.ok.injEq] at h
              subst h
              simp [pk_ne_msgFkTableNotExist]
          | true =>
              rw [if_neg (by decide)] at h
              rw [except_bind_ok] at h
              obtain ⟨_, -, h⟩ := h
              rw [except_bind_ok] at h
              obtain ⟨refTarget, -, h⟩ := h
              rw [except_bind_ok] at h
              obtain ⟨refTableColumns, -, h⟩ := h
              rw [except_bind_ok] at h
              obtain ⟨memC, -, h⟩ := h
              rw [except_bind_ok] at h
              obtain ⟨hasOD, -, h⟩ := h
              cases hasOD with
              | true =>
                  rw [if_pos rfl] at h
                  rw [except_bind_ok] at h
                  obtain ⟨_, -, h⟩ := h
                  rw [except_bind_ok] at h
                  obtain ⟨_, -, h⟩ := h
                  rw [except_bind_ok] at h
                  obtain ⟨e1, he1, h⟩ := h
                  simp only [pure, Except.pure, Except.ok.injEq] at he1
                  subst he1
                  rw [except_bind_ok] at h
                  obtain ⟨hasOU, -, h⟩ := h
                  cases hasOU with
                  | true =>
                      rw [if_pos rfl] at h
                      rw [except_bind_ok] at h
                      obtain ⟨_, -, h⟩ := h
                      rw [except_bind_ok] at h
                      obtain ⟨_, -, h⟩ := h
                      rw [except_bind_ok] at h
                      obtain ⟨e2, he2, h⟩ := h
                      simp only [pure, Except.pure, Except.ok.injEq] at he2
                      subst he2
                      simp only [pure, Except.pure, Except.ok.injEq] at h
                      subst h
                      intro hm
                      split at hm <;> split at hm <;> split at hm <;>
                        simp_all [List.mem_append, pk_ne_msgFkColumnNotExist,
                          pk_ne_msgFkInvalidOnDelete, pk_ne_msgFkInvalidOnUpdate]
                  | false =>
                      rw [if_neg (by decide)] at h
                      rw [except_bind_ok] at h
                      obtain ⟨e2, he2, h⟩ := h
                      simp only [pure, Except.pure, Except.ok.injEq] at he2
                      subst he2
                      simp only [pure, Except.pure, Except.ok.injEq] at h
                      subst h
                      intro hm
                      split at hm <;> split at hm <;>
                        simp_all [List.mem_append, pk_ne_msgFkColumnNotExist,
                          pk_ne_msgFkInvalidOnDelete]
              | false =>
                  rw [if_neg (by decide)] at h
                  rw [except_bind_ok] at h
                  obtain ⟨e1, he1, h⟩ := h
                  simp only [pure, Except.pure, Except.ok.injEq] at he1
                  subst he1
                  rw [except_bind_ok] at h
                  obtain ⟨hasOU, -, h⟩ := h
                  cases hasOU with
                  | true =>
                      rw [if_pos rfl] at h
                      rw [except_bind_ok] at h
                      obtain ⟨_, -, h⟩ := h
                      rw [except_bind_ok] at h
                      obtain ⟨_, -, h⟩ := h
                      rw [except_bind_ok] at h
                      obtain ⟨e2, he2, h⟩ := h
                      simp only [pure, Except.pure, Except.ok.injEq] at he2
                      subst he2
                      simp only [pure, Except.pure, Except.ok.injEq] at h
                      subst h
                      intro hm
                      split at hm <;> split at hm <;>
                        simp_all [List.mem_append, pk_ne_msgFkColumnNotExist,
                          pk_ne_msgFkInvalidOnUpdate]
                  | false =>
                      rw [if_neg (by decide)] at h
                      rw [except_bind_ok] at h
                      obtain ⟨e2, he2, h⟩ := h
                      simp only [pure, Except.pure, Except.ok.injEq] at he2
                      subst he2
                      simp only [pure, Except.pure, Except.ok.injEq] at h
                      subst h
                      intro hm
                      split at hm <;>
                        simp_all [pk_ne_msgFkColumnNotExist]

theorem pyGet_obj (kvs : List (String × JVal)) (k : String) (d : JVal) :
    pyGet (.jobj kvs) k d = .ok ((objLookup kvs k).getD d) := rfl

theorem enum_check_cases {t c : String} {colInfo : JVal} {errs es : List String}
    (h : enum_check t c colInfo errs = .ok es) :
    es = errs ∨ es = errs ++ [msgEnumRequiresValues t c] ∨
      es = errs ++ [msgEnumNonEmpty t c] := by
  unfold enum_check at h
  rw [except_bind_ok] at h
  obtain ⟨hasValues, -, h⟩ := h
  cases hasValues with
  | false =>
      rw [if_pos (by decide)] at h
      simp only [pure, Except.pure, Except.ok.injEq] at h
      subst h
      exact Or.inr (Or.inl rfl)
  | true =>
      rw [if_neg (by decide)] at h
      rw [except_bind_ok] at h
      obtain ⟨vals, -, h⟩ := h
      split at h
      · split at h
        · simp only [pure, Except.pure, Except.ok.injEq] at h
          subst h
          exact Or.inr (Or.inr rfl)
        · simp only [pure, Except.pure, Except.ok.injEq] at h
          subst h
          exact Or.inl rfl
      · simp only [pure, Except.pure, Except.ok.injEq] at h
        subst h
        exact Or.inr (Or.inr rfl)

theorem fk_check_ok {t c : String} {colInfo allTables : JVal} {errs es : List String}
    (h : fk_check t c colInfo allTables errs = .ok es) :
    ∃ fk fkErrors, pyGetItemS colInfo "foreign_key" = .ok fk ∧
      validate_foreign_key t c fk allTables = .ok fkErrors ∧
      es = errs ++ fkErrors := by
  unfold fk_check at h
  rw [except_bind_ok] at h
  obtain ⟨fk, hg, h⟩ := h
  rw [except_bind_ok] at h
  obtain ⟨fkErrors, hfk, h⟩ := h
  simp only [pure, Except.pure, Except.ok.injEq] at h
  exact ⟨fk, fkErrors, hg, hfk, h.symm⟩

/-- C10: the "Primary key cannot be nullable" error is governed by the
Python comparison col_info.get("nullable") == True in _validate_column.
First conjunct: whenever validation of a column object completes and the
nullable field's value (defaulting to None when the field is omitted) does
not Python-equal True, the error list contains no such error for that
column — in particular a primary-key column that omits nullable entirely
passes the check. Second conjunct: when the type field is present, nullable
is explicitly true and primary_key is truthy, the error is reported. -/
theorem C10_pk_nullable :
    (∀ (t c : String) (ckvs : List (String × JVal)) (allTables : JVal)
       (es ws : List String),
      validate_column t c (.jobj ckvs) allTables = .ok (es, ws) →
      pyEq ((objLookup ckvs "nullable").getD .jnull) (.jbool true) = false →
      msgPkNullable t c ∉ es) ∧
    (∀ (t c : String) (ckvs : List (String × JVal)) (allTables : JVal)
       (es ws : List String) (tyv : JVal),
      validate_column t c (.jobj ckvs) allTables = .ok (es, ws) →
      objLookup ckvs "type" = some tyv →
      objLookup ckvs "nullable" = some (.jbool true) →
      pyTruthy ((objLookup ckvs "primary_key").getD .jnull) = true →
      msgPkNullable t c ∈ es) := by
  constructor
  · intro t c ckvs allTables es ws h hnul
    unfold validate_column at h
    rw [except_bind_ok] at h
    obtain ⟨hasType, -, h⟩ := h
    cases hasType with
    | false =>
        rw [if_pos (by decide)] at h
        simp only [pure, Except.pure, Except.ok.injEq, Prod.mk.injEq] at h
        obtain ⟨hes, -⟩ := h
        subst hes
        simp [pk_ne_msgMissingType]
    | true =>
        rw [if_neg (by decide)] at h
        rw [except_bind_ok] at h
        obtain ⟨_, -, h⟩ := h
        rw [except_bind_ok] at h
        obtain ⟨colTypeV, -, h⟩ := h
        rw [except_bind_ok] at h
        obtain ⟨colType, -, h⟩ := h
        simp only [] at h
        rw [except_bind_ok] at h
        obtain ⟨errors1, hE, h⟩ := h
        have h0 : msgPkNullable t c ∉
            (if (!valid_types.any fun ty => ty == strBefore colType '(') = true then
              [msgInvalidType t c colType] else []) := by
          split
          · simp only [List.mem_singleton]
            exact pk_ne_msgInvalidType t c colType
          · simp
        have h1 : msgPkNullable t c ∉ errors1 := by
          split at hE
          · rcases enum_check_cases hE with he | he | he <;> subst he
            · exact h0
            · intro hm
              rcases List.mem_append.mp hm with hm | hm
              · exact h0 hm
              · exact pk_ne_msgEnumRequiresValues t c (List.mem_singleton.mp hm)
            · intro hm
              rcases List.mem_append.mp hm with hm | hm
              · exact h0 hm
              · exact pk_ne_msgEnumNonEmpty t c (List.mem_singleton.mp hm)
          · simp only [pure, Except.pure, Except.ok.injEq] at hE
            subst hE
            exact h0
        rw [except_bind_ok] at h
        obtain ⟨hasFK, -, h⟩ := h
        rw [except_bind_ok] at h
        obtain ⟨errors2, hF, h⟩ := h
        have h2 : msgPkNullable t c ∉ errors2 := by
          split at hF
          · obtain ⟨fk, fkErrors, -, hfk, hes⟩ := fk_check_ok hF
            subst hes
            intro hm
            rcases List.mem_append.mp hm with hm | hm
            · exact h1 hm
            · exact validate_fk_no_pk_msg hfk hm
          · simp only [pure, Except.pure, Except.ok.injEq] at hF
            subst hF
            exact h1
        rw [except_bind_ok] at h
        obtain ⟨pk, -, h⟩ := h
        rw [except_bind_ok] at h
        obtain ⟨nul, hnuleq, h⟩ := h
        rw [pyGet_obj] at hnuleq
        have hnv : nul = (objLookup ckvs "nullable").getD .jnull := by
          injection hnuleq with hx
          exact hx.symm
        subst hnv
        rw [hnul, Bool.and_false] at h
        rw [if_neg (by decide)] at h
        rw [except_bind_ok] at h
        obtain ⟨hasDefault, -, h⟩ := h
        rw [except_bind_ok] at h
        obtain ⟨warnings, -, h⟩ := h
        simp only [pure, Except.pure, Except.ok.injEq, Prod.mk.injEq] at h
        obtain ⟨hes, -⟩ := h
        subst hes
        exact h2
  · intro t c ckvs allTables es ws tyv h htype hnul hpk
    unfold validate_column at h
    rw [except_bind_ok] at h
    obtain ⟨hasType, hT, h⟩ := h
    have hTt : hasType = true := by
      have hany := objLookup_some_any htype
      simp only [pyContainsS, hany, Except.ok.injEq] at hT
      exact hT.symm
    subst hTt
    rw [if_neg (by decide)] at h
    rw [except_bind_ok] at h
    obtain ⟨_, -, h⟩ := h
    rw [except_bind_ok] at h
    obtain ⟨colTypeV, -, h⟩ := h
    rw [except_bind_ok] at h
    obtain ⟨colType, -, h⟩ := h
    simp only [] at h
    rw [except_bind_ok] at h
    obtain ⟨errors1, -, h⟩ := h
    rw [except_bind_ok] at h
    obtain ⟨hasFK, -, h⟩ := h
    rw [except_bind_ok] at h
    obtain ⟨errors2, -, h⟩ := h
    rw [except_bind_ok] at h
    obtain ⟨pk, hpkeq, h⟩ := h
    rw [except_bind_ok] at h
    obtain ⟨nul, hnuleq, h⟩ := h
    rw [pyGet_obj] at hpkeq hnuleq
    have hpv : pk = (objLookup ckvs "primary_key").getD .jnull := by
      injection hpkeq with hx
      exact hx.symm
    have hnv : nul = (objLookup ckvs "nullable").getD .jnull := by
      injection hnuleq with hx
      exact hx.symm
    subst hpv
    subst hnv
    rw [hpk, hnul] at h
    simp only [Option.getD_some] at h
    rw [if_pos (show (true && pyEq (JVal.jbool true) (JVal.jbool true)) = true from rfl)] at h
    rw [except_bind_ok] at h
    obtain ⟨hasDefault, -, h⟩ := h
    rw [except_bind_ok] at h
    obtain ⟨warnings, -, h⟩ := h
    simp only [pure, Except.pure, Except.ok.injEq, Prod.mk.injEq] at h
    obtain ⟨hes, -⟩ := h
    subst hes
    exact List.mem_append.mpr (Or.inr (List.mem_singleton.mpr rfl))

/-- Witness for C10_pk_nullable: an INTEGER primary-key column omitting
nullable yields no errors, and the same column with nullable true yields
exactly the pk-nullable error. -/
theorem C10_pk_nullable_witness :
    msgPkNullable "users" "id" ∉ ([] : List String) ∧
    msgPkNullable "users" "id" ∈ [msgPkNullable "users" "id"] :=
  ⟨C10_pk_nullable.1 "users" "id"
      [("type", JVal.jstr "INTEGER"), ("primary_key", JVal.jbool true)]
      (JVal.jobj []) [] [] rfl rfl,
   C10_pk_nullable.2 "users" "id"
      [("type", JVal.jstr "INTEGER"), ("primary_key", JVal.jbool true),
       ("nullable", JVal.jbool true)]
      (JVal.jobj []) [msgPkNullable "users" "id"] [] (JVal.jstr "INTEGER")
      rfl rfl rfl rfl⟩

theorem process_records_ok {p : String} {tableColumns : JVal} :
    ∀ (records : List JVal) (i : Nat) (acc res : List JVal),
    process_records (some p) tableColumns i records acc = .ok res →
    p ≠ "" →
    ∃ procs, res = acc ++ procs ∧ procs.length = records.length ∧
      (∀ (j : Nat) (kvs : List (String × JVal)), records[j]? = some (.jobj kvs) →
        ((kvs.any fun q => q.1 == p) = true → procs[j]? = some (.jobj kvs)) ∧
        ((kvs.any fun q => q.1 == p) = false →
          ∀ dkvs, pyGetItemS tableColumns p = .ok (.jobj dkvs) →
            (pyEq ((objLookup dkvs "type").getD .jnull) (.jstr "INTEGER") = true →
              procs[j]? = some (.jobj (objStore kvs p (.jint (Int.ofNat (i + j + 1)))))) ∧
            (pyEq ((objLookup dkvs "type").getD .jnull) (.jstr "INTEGER") = false →
              procs[j]? = some (.jobj kvs)))) := by
  intro records
  induction records with
  | nil =>
      intro i acc res h hp
      unfold process_records at h
      simp only [pure, Except.pure, Except.ok.injEq] at h
      subst h
      refine ⟨[], by simp, rfl, ?_⟩
      intro j kvs hj
      simp at hj
  | cons record rest ih =>
      intro i acc res h hp
      have hpb : (p != "") = true := bne_iff_ne.mpr hp
      unfold process_records at h
      rw [except_bind_ok] at h
      obtain ⟨newRecord, hcopy, h⟩ := h
      rw [except_bind_ok] at h
      obtain ⟨newRecord2, hnr2, h⟩ := h
      obtain ⟨procs, hres, hlen, hchar⟩ := ih (i + 1) (acc ++ [newRecord2]) res h hp
      refine ⟨newRecord2 :: procs, ?_, by simpa using hlen, ?_⟩
      · rw [hres, List.append_assoc]
        rfl
      · intro j kvs hj
        cases j with
        | zero =>
            simp only [List.getElem?_cons_zero, Option.some.injEq] at hj
            subst hj
            have hnr : newRecord = .jobj kvs := by
              simp only [pyCopy, Except.ok.injEq] at hcopy
              exact hcopy.symm
            subst hnr
            simp only [process_one_record] at hnr2
            rw [if_pos hpb] at hnr2
            rw [except_bind_ok] at hnr2
            obtain ⟨inRec, hin, hnr2⟩ := hnr2
            have hinv : inRec = (kvs.any fun q => q.1 == p) := by
              simp only [pyContainsS, Except.ok.injEq] at hin
              exact hin.symm
            subst hinv
            constructor
            · intro hmem
              rw [hmem] at hnr2
              rw [if_neg (by decide)] at hnr2
              simp only [pure, Except.pure, Except.ok.injEq] at hnr2
              subst hnr2
              simp
            · intro hmem dkvs hdk
              rw [hmem] at hnr2
              rw [if_pos (by decide)] at hnr2
              rw [except_bind_ok] at hnr2
              obtain ⟨colDef, hcd, hnr2⟩ := hnr2
              rw [hdk] at hcd
              have hcdv : colDef = .jobj dkvs := by
                injection hcd with hx
                exact hx.symm
              subst hcdv
              rw [except_bind_ok] at hnr2
              obtain ⟨ty, hty, hnr2⟩ := hnr2
              rw [pyGet_obj] at hty
              have htyv : ty = (objLookup dkvs "type").getD .jnull := by
                injection hty with hx
                exact hx.symm
              subst htyv
              constructor
              · intro hInt
                rw [if_pos hInt] at hnr2
                simp only [pySetItemS, Except.ok.injEq] at hnr2
                subst hnr2
                simp
              · intro hInt
                rw [if_neg (by simp [hInt])] at hnr2
                simp only [pure, Except.pure, Except.ok.injEq] at hnr2
                subst hnr2
                simp
        | succ jp =>
            simp only [List.getElem?_cons_succ] at hj ⊢
            have hc := hchar jp kvs hj
            refine ⟨hc.1, ?_⟩
            intro hm dkvs hdk
            have hc2 := hc.2 hm dkvs hdk
            refine ⟨?_, hc2.2⟩
            intro hInt
            have hval := hc2.1 hInt
            have harith : i + 1 + jp + 1 = i + (jp + 1) + 1 := by omega
            rw [harith] at hval
            exact hval

/-- C7: for a seed-data table present in the tables section,
_process_seed_data finds the first truthy primary-key column and runs the
record loop from position 0 (first conjunct); the record loop leaves every
record that already contains the primary-key column unchanged, leaves
every record unchanged when the primary-key column's type is not INTEGER,
and otherwise assigns the primary key the record's 1-based position j + 1
(second conjunct). -/
theorem C7_seed_auto_ids :
    (∀ (t : String) (records : List JVal) (tables tv : JVal)
       (tcols res : List (String × JVal)),
      process_seed_data (.jobj [(t, .jarr records)]) tables = .ok res →
      pyContainsS t tables = .ok true →
      pyGetItemS tables t = .ok tv →
      pyGet tv "columns" (.jobj []) = .ok (.jobj tcols) →
      ∃ pkCol procs, find_primary_key_column tcols = .ok pkCol ∧
        process_records pkCol (.jobj tcols) 0 records [] = .ok procs ∧
        res = [(t, .jarr procs)]) ∧
    (∀ (p : String) (tableColumns : JVal) (records procs : List JVal),
      process_records (some p) tableColumns 0 records [] = .ok procs →
      p ≠ "" →
      procs.length = records.length ∧
      ∀ (j : Nat) (kvs : List (String × JVal)), records[j]? = some (.jobj kvs) →
        ((kvs.any fun q => q.1 == p) = true → procs[j]? = some (.jobj kvs)) ∧
        ((kvs.any fun q => q.1 == p) = false →
          ∀ dkvs, pyGetItemS tableColumns p = .ok (.jobj dkvs) →
            (pyEq ((objLookup dkvs "type").getD .jnull) (.jstr "INTEGER") = true →
              procs[j]? = some (.jobj (objStore kvs p (.jint (Int.ofNat (j + 1)))))) ∧
            (pyEq ((objLookup dkvs "type").getD .jnull) (.jstr "INTEGER") = false →
              procs[j]? = some (.jobj kvs)))) := by
  constructor
  · intro t records tables tv tcols res h hmem hget hcols
    unfold process_seed_data at h
    rw [except_bind_ok] at h
    obtain ⟨entries, hent, h⟩ := h
    have hentv : entries = [(t, .jarr records)] := by
      simp only [asObj, Except.ok.injEq] at hent
      exact hent.symm
    subst hentv
    unfold process_seed_loop at h
    rw [except_bind_ok] at h
    obtain ⟨mem, hm, h⟩ := h
    rw [hmem] at hm
    have hmv : mem = true := by
      injection hm with hx
      exact hx.symm
    subst hmv
    rw [if_neg (by decide)] at h
    rw [except_bind_ok] at h
    obtain ⟨tv2, htv2, h⟩ := h
    rw [hget] at htv2
    have htv2v : tv2 = tv := by
      injection htv2 with hx
      exact hx.symm
    subst htv2v
    rw [except_bind_ok] at h
    obtain ⟨tcV, htc, h⟩ := h
    rw [hcols] at htc
    have htcv : tcV = .jobj tcols := by
      injection htc with hx
      exact hx.symm
    subst htcv
    rw [except_bind_ok] at h
    obtain ⟨colEntries, hce, h⟩ := h
    have hcev : colEntries = tcols := by
      simp only [asObj, Except.ok.injEq] at hce
      exact hce.symm
    subst hcev
    rw [except_bind_ok] at h
    obtain ⟨pkCol, hpk, h⟩ := h
    rw [except_bind_ok] at h
    obtain ⟨recs, hrecs, h⟩ := h
    have hrv : recs = records := by
      simp only [pyIter, Except.ok.injEq] at hrecs
      exact hrecs.symm
    subst hrv
    rw [except_bind_ok] at h
    obtain ⟨processed, hproc, h⟩ := h
    unfold process_seed_loop at h
    simp only [pure, Except.pure, Except.ok.injEq] at h
    subst h
    exact ⟨pkCol, processed, hpk, hproc, rfl⟩
  · intro p tableColumns records procs h hp
    obtain ⟨procs2, hres, hlen, hchar⟩ := process_records_ok records 0 [] procs h hp
    have hpv : procs = procs2 := by simpa using hres
    subst hpv
    refine ⟨hlen, ?_⟩
    intro j kvs hj
    have hc := hchar j kvs hj
    refine ⟨hc.1, ?_⟩
    intro hm dkvs hdk
    have hc2 := hc.2 hm dkvs hdk
    refine ⟨?_, hc2.2⟩
    intro hInt
    have hval := hc2.1 hInt
    simpa using hval

/-- Witness for C7_seed_auto_ids at the concrete users seed list: record 0
(no id) gets id 1, record 1 keeps id 7, record 2 gets id 3. -/
theorem C7_seed_auto_ids_witness :
    (∃ pkCol procs, find_primary_key_column seed_users_cols = .ok pkCol ∧
      process_records pkCol (.jobj seed_users_cols) 0 seed_users_records [] = .ok procs ∧
      [(("users" : String), JVal.jarr seed_users_processed)] = [("users", JVal.jarr procs)]) ∧
    (seed_users_processed.length = seed_users_records.length ∧
     ∀ (j : Nat) (kvs : List (String × JVal)),
       seed_users_records[j]? = some (.jobj kvs) →
       ((kvs.any fun q => q.1 == "id") = true →
         seed_users_processed[j]? = some (.jobj kvs)) ∧
       ((kvs.any fun q => q.1 == "id") = false →
         ∀ dkvs, pyGetItemS (.jobj seed_users_cols) "id" = .ok (.jobj dkvs) →
           (pyEq ((objLookup dkvs "type").getD .jnull) (.jstr "INTEGER") = true →
             seed_users_processed[j]? =
               some (.jobj (objStore kvs "id" (.jint (Int.ofNat (j + 1)))))) ∧
           (pyEq ((objLookup dkvs "type").getD .jnull) (.jstr "INTEGER") = false →
             seed_users_processed[j]? = some (.jobj kvs)))) :=
  ⟨C7_seed_auto_ids.1 "users" seed_users_records doc_seed_tables
      (JVal.jobj [("columns", JVal.jobj seed_users_cols)]) seed_users_cols
      [("users", JVal.jarr seed_users_processed)] rfl rfl rfl rfl,
   C7_seed_auto_ids.2 "id" (JVal.jobj seed_users_cols) seed_users_records
      seed_users_processed rfl (by decide)⟩

theorem objLookup_objStore_self (kvs : List (String × JVal)) (k : String) (v : JVal) :
    objLookup (objStore kvs k v) k = some v := by
  induction kvs with
  | nil => simp [objStore, objLookup]
  | cons p rest ih =>
      obtain ⟨k0, v0⟩ := p
      unfold objStore
      cases hk : (k0 == k) with
      | true =>
          rw [if_pos rfl]
          simp only [objLookup]
          rw [List.find?_cons_of_pos _ (by simp [hk])]
          rfl
      | false =>
          rw [if_neg (by decide)]
          simp only [objLookup] at ih ⊢
          rw [List.find?_cons_of_neg _ (by simp [hk])]
          exact ih

theorem objLookup_objStore_ne (kvs : List (String × JVal)) (k u : String) (v : JVal)
    (hne : (k == u) = false) :
    objLookup (objStore kvs k v) u = objLookup kvs u := by
  induction kvs with
  | nil =>
      simp only [objStore, objLookup]
      rw [List.find?_cons_of_neg _ (by simp [hne])]
  | cons p rest ih =>
      obtain ⟨k0, v0⟩ := p
      unfold objStore
      cases hk : (k0 == k) with
      | true =>
          rw [if_pos rfl]
          have hk0 : k0 = k := eq_of_beq hk
          subst hk0
          simp only [objLookup]
          rw [List.find?_cons_of_neg _ (by simp [hne]),
            List.find?_cons_of_neg _ (by simp [hne])]
      | false =>
          rw [if_neg (by decide)]
          simp only [objLookup] at ih ⊢
          cases hku : (k0 == u) with
          | true =>
              rw [List.find?_cons_of_pos _ (by simp [hku]),
                List.find?_cons_of_pos _ (by simp [hku])]
          | false =>
              rw [List.find?_cons_of_neg _ (by simp [hku]),
                List.find?_cons_of_neg _ (by simp [hku])]
              exact ih

theorem objLookup_append_of_none (l1 l2 : List (String × JVal)) (u : String)
    (h : objLookup l1 u = none) : objLookup (l1 ++ l2) u = objLookup l2 u := by
  induction l1 with
  | nil => rfl
  | cons p rest ih =>
      obtain ⟨k0, v0⟩ := p
      simp only [objLookup] at h ih ⊢
      cases hk : (k0 == u) with
      | true =>
          rw [List.find?_cons_of_pos _ (by simp [hk])] at h
          simp at h
      | false =>
          rw [List.find?_cons_of_neg _ (by simp [hk])] at h
          rw [List.cons_append, List.find?_cons_of_neg _ (by simp [hk])]
          exact ih h

theorem objLookup_append_of_some (l1 l2 : List (String × JVal)) (u : String) (v : JVal)
    (h : objLookup l1 u = some v) : objLookup (l1 ++ l2) u = some v := by
  induction l1 with
  | nil => simp [objLookup] at h
  | cons p rest ih =>
      obtain ⟨k0, v0⟩ := p
      simp only [objLookup] at h ih ⊢
      cases hk : (k0 == u) with
      | true =>
          rw [List.find?_cons_of_pos _ (by simp [hk])] at h
          rw [List.cons_append, List.find?_cons_of_pos _ (by simp [hk])]
          exact h
      | false =>
          rw [List.find?_cons_of_neg _ (by simp [hk])] at h
          rw [List.cons_append, List.find?_cons_of_neg _ (by simp [hk])]
          exact ih h

theorem objLookup_eq_none_of_not_mem {l : List (String × JVal)} {u : String}
    (h : u ∉ l.map Prod.fst) : objLookup l u = none := by
  induction l with
  | nil => rfl
  | cons p rest ih =>
      obtain ⟨k0, v0⟩ := p
      simp only [List.map_cons, List.mem_cons, not_or] at h
      simp only [objLookup] at ih ⊢
      rw [List.find?_cons_of_neg _ (by simp; exact fun he => h.1 he.symm)]
      exact ih h.2

theorem any_false_objLookup_none {l : List (String × JVal)} {u : String}
    (h : l.any (fun p => p.1 == u) = false) : objLookup l u = none := by
  cases hL : objLookup l u with
  | none => rfl
  | some w => rw [objLookup_some_any hL] at h; exact absurd h (by decide)

theorem merge_tables_step_frame {u : String} :
    ∀ (entries tables : List (String × JVal)) (fp : String),
    objLookup entries u = none →
    objLookup (merge_tables_step tables fp entries) u = objLookup tables u := by
  intro entries
  induction entries with
  | nil => intro tables fp h; rfl
  | cons p rest ih =>
      obtain ⟨tn, td⟩ := p
      intro tables fp h
      have htn : (tn == u) = false := by
        cases hx : (tn == u) with
        | false => rfl
        | true =>
            exfalso
            simp only [objLookup] at h
            rw [List.find?_cons_of_pos _ (by simp [hx])] at h
            simp at h
      have hrest : objLookup rest u = none := by
        simp only [objLookup] at h ⊢
        rw [List.find?_cons_of_neg _ (by simp [htn])] at h
        exact h
      unfold merge_tables_step
      cases hany : tables.any (fun p => p.1 == tn) with
      | true =>
          rw [if_pos rfl]
          cases hadm : sContains (strLower fp) "admin" with
          | true =>
              rw [if_pos rfl]
              rw [ih (objStore tables tn td) fp hrest]
              exact objLookup_objStore_ne tables tn u td htn
          | false =>
              rw [if_neg (by decide)]
              exact ih tables fp hrest
      | false =>
          rw [if_neg (by decide)]
          rw [ih (tables ++ [(tn, td)]) fp hrest]
          cases hT : objLookup tables u with
          | some w => exact objLookup_append_of_some tables [(tn, td)] u w hT
          | none =>
              rw [objLookup_append_of_none tables [(tn, td)] u hT]
              simp only [objLookup]
              rw [List.find?_cons_of_neg _ (by simp [htn])]
              rfl

theorem merge_tables_step_admin {u : String} {v : JVal} :
    ∀ (entries tables : List (String × JVal)) (fp : String),
    sContains (strLower fp) "admin" = true →
    (entries.map Prod.fst).Nodup →
    objLookup entries u = some v →
    objLookup (merge_tables_step tables fp entries) u = some v := by
  intro entries
  induction entries with
  | nil => intro tables fp hadm hnd hl; simp [objLookup] at hl
  | cons p rest ih =>
      obtain ⟨tn, td⟩ := p
      intro tables fp hadm hnd hl
      simp only [List.map_cons, List.nodup_cons] at hnd
      obtain ⟨hnm, hnd2⟩ := hnd
      cases htn : (tn == u) with
      | true =>
          have hte : tn = u := eq_of_beq htn
          subst hte
          have hv : td = v := by
            simp only [objLookup] at hl
            rw [List.find?_cons_of_pos _ (by simp)] at hl
            simpa using hl
          subst hv
          have hrnone : objLookup rest tn = none := objLookup_eq_none_of_not_mem hnm
          unfold merge_tables_step
          cases hany : tables.any (fun p => p.1 == tn) with
          | true =>
              rw [if_pos rfl, if_pos hadm]
              rw [merge_tables_step_frame rest (objStore tables tn td) fp hrnone]
              exact objLookup_objStore_self tables tn td
          | false =>
              rw [if_neg (by decide)]
              rw [merge_tables_step_frame rest (tables ++ [(tn, td)]) fp hrnone]
              rw [objLookup_append_of_none tables [(tn, td)] tn
                (any_false_objLookup_none hany)]
              simp only [objLookup]
              rw [List.find?_cons_of_pos _ (by simp)]
              rfl
      | false =>
          have hrl : objLookup rest u = some v := by
            simp only [objLookup] at hl ⊢
            rw [List.find?_cons_of_neg _ (by simp [htn])] at hl
            exact hl
          unfold merge_tables_step
          cases hany : tables.any (fun p => p.1 == tn) with
          | true =>
              rw [if_pos rfl]
              cases hadm2 : sContains (strLower fp) "admin" with
              | true =>
                  rw [if_pos rfl]
                  exact ih (objStore tables tn td) fp hadm hnd2 hrl
              | false =>
                  rw [if_neg (by decide)]
                  exact ih tables fp hadm hnd2 hrl
          | false =>
              rw [if_neg (by decide)]
              exact ih (tables ++ [(tn, td)]) fp hadm hnd2 hrl

theorem merge_tables_step_keep {u : String} {v : JVal} :
    ∀ (entries tables : List (String × JVal)) (fp : String),
    sContains (strLower fp) "admin" = false →
    objLookup tables u = some v →
    objLookup (merge_tables_step tables fp entries) u = some v := by
  intro entries
  induction entries with
  | nil => intro tables fp hadm hT; exact hT
  | cons p rest ih =>
      obtain ⟨tn, td⟩ := p
      intro tables fp hadm hT
      unfold merge_tables_step
      cases hany : tables.any (fun p => p.1 == tn) with
      | true =>
          rw [if_pos rfl, if_neg (by simp [hadm])]
          exact ih tables fp hadm hT
      | false =>
          rw [if_neg (by decide)]
          exact ih (tables ++ [(tn, td)]) fp hadm
            (objLookup_append_of_some tables [(tn, td)] u v hT)

/-- C6: merging a non-admin source and a source whose lowercased path
contains "admin", both defining the same table, yields the admin source's
definition for that table under either list order (the admin file's
tables section must not bind the same table name twice, matching a parsed
JSON object). -/
theorem C6_admin_override :
    ∀ (bp ap u : String) (bd ad : JVal) (bts ats : List (String × JVal)) (ub ua : JVal)
      (r12 r21 : JVal),
    sContains (strLower bp) "admin" = false →
    sContains (strLower ap) "admin" = true →
    pyGet bd "tables" (.jobj []) = .ok (.jobj bts) →
    pyGet ad "tables" (.jobj []) = .ok (.jobj ats) →
    (ats.map Prod.fst).Nodup →
    objLookup bts u = some ub →
    objLookup ats u = some ua →
    merge_schemas [(bp, bd), (ap, ad)] = .ok r12 →
    merge_schemas [(ap, ad), (bp, bd)] = .ok r21 →
    (∃ t12, pyGetItemS r12 "tables" = .ok (.jobj t12) ∧ objLookup t12 u = some ua) ∧
    (∃ t21, pyGetItemS r21 "tables" = .ok (.jobj t21) ∧ objLookup t21 u = some ua) := by
  intro bp ap u bd ad bts ats ub ua r12 r21 hnadm hadm hbt hat hnd hlb hla h12 h21
  constructor
  · unfold merge_schemas at h12
    rw [except_bind_ok] at h12
    obtain ⟨⟨tables, rels, seeds⟩, hloop, h12⟩ := h12
    simp only [pure, Except.pure, Except.ok.injEq] at h12
    subst h12
    unfold merge_sources_loop at hloop
    rw [except_bind_ok] at hloop
    obtain ⟨tV1, htV1, hloop⟩ := hloop
    rw [hbt] at htV1
    have htV1v : tV1 = .jobj bts := by
      injection htV1 with hx
      exact hx.symm
    subst htV1v
    rw [except_bind_ok] at hloop
    obtain ⟨tE1, htE1, hloop⟩ := hloop
    have htE1v : bts = tE1 := by
      simp only [asObj, Except.ok.injEq] at htE1
      exact htE1
    subst htE1v
    rw [except_bind_ok] at hloop
    obtain ⟨rV1, -, hloop⟩ := hloop
    rw [except_bind_ok] at hloop
    obtain ⟨nR1, -, hloop⟩ := hloop
    rw [except_bind_ok] at hloop
    obtain ⟨sV1, -, hloop⟩ := hloop
    rw [except_bind_ok] at hloop
    obtain ⟨sE1, -, hloop⟩ := hloop
    rw [except_bind_ok] at hloop
    obtain ⟨seeds1, -, hloop⟩ := hloop
    unfold merge_sources_loop at hloop
    rw [except_bind_ok] at hloop
    obtain ⟨tV2, htV2, hloop⟩ := hloop
    rw [hat] at htV2
    have htV2v : tV2 = .jobj ats := by
      injection htV2 with hx
      exact hx.symm
    subst htV2v
    rw [except_bind_ok] at hloop
    obtain ⟨tE2, htE2, hloop⟩ := hloop
    have htE2v : ats = tE2 := by
      simp only [asObj, Except.ok.injEq] at htE2
      exact htE2
    subst htE2v
    rw [except_bind_ok] at hloop
    obtain ⟨rV2, -, hloop⟩ := hloop
    rw [except_bind_ok] at hloop
    obtain ⟨nR2, -, hloop⟩ := hloop
    rw [except_bind_ok] at hloop
    obtain ⟨sV2, -, hloop⟩ := hloop
    rw [except_bind_ok] at hloop
    obtain ⟨sE2, -, hloop⟩ := hloop
    rw [except_bind_ok] at hloop
    obtain ⟨seeds2, -, hloop⟩ := hloop
    unfold merge_sources_loop at hloop
    simp only [pure, Except.pure, Except.ok.injEq, Prod.mk.injEq] at hloop
    obtain ⟨hT, -, -⟩ := hloop
    subst hT
    refine ⟨merge_tables_step (merge_tables_step [] bp bts) ap ats, rfl, ?_⟩
    exact merge_tables_step_admin ats (merge_tables_step [] bp bts) ap hadm hnd hla
  · unfold merge_schemas at h21
    rw [except_bind_ok] at h21
    obtain ⟨⟨tables, rels, seeds⟩, hloop, h21⟩ := h21
    simp only [pure, Except.pure, Except.ok.injEq] at h21
    subst h21
    unfold merge_sources_loop at hloop
    rw [except_bind_ok] at hloop
    obtain ⟨tV1, htV1, hloop⟩ := hloop
    rw [hat] at htV1
    have htV1v : tV1 = .jobj ats := by
      injection htV1 with hx
      exact hx.symm
    subst htV1v
    rw [except_bind_ok] at hloop
    obtain ⟨tE1, htE1, hloop⟩ := hloop
    have htE1v : ats = tE1 := by
      simp only [asObj, Except.ok.injEq] at htE1
      exact htE1
    subst htE1v
    rw [except_bind_ok] at hloop
    obtain ⟨rV1, -, hloop⟩ := hloop
    rw [except_bind_ok] at hloop
    obtain ⟨nR1, -, hloop⟩ := hloop
    rw [except_bind_ok] at hloop
    obtain ⟨sV1, -, hloop⟩ := hloop
    rw [except_bind_ok] at hloop
    obtain ⟨sE1, -, hloop⟩ := hloop
    rw [except_bind_ok] at hloop
    obtain ⟨seeds1, -, hloop⟩ := hloop
    unfold merge_sources_loop at hloop
    rw [except_bind_ok] at hloop
    obtain ⟨tV2, htV2, hloop⟩ := hloop
    rw [hbt] at htV2
    have htV2v : tV2 = .jobj bts := by
      injection htV2 with hx
      exact hx.symm
    subst htV2v
    rw [except_bind_ok] at hloop
    obtain ⟨tE2, htE2, hloop⟩ := hloop
    have htE2v : bts = tE2 := by
      simp only [asObj, Except.ok.injEq] at htE2
      exact htE2
    subst htE2v
    rw [except_bind_ok] at hloop
    obtain ⟨rV2, -, hloop⟩ := hloop
    rw [except_bind_ok] at hloop
    obtain ⟨nR2, -, hloop⟩ := hloop
    rw [except_bind_ok] at hloop
    obtain ⟨sV2, -, hloop⟩ := hloop
    rw [except_bind_ok] at hloop
    obtain ⟨sE2, -, hloop⟩ := hloop
    rw [except_bind_ok] at hloop
    obtain ⟨seeds2, -, hloop⟩ := hloop
    unfold merge_sources_loop at hloop
    simp only [pure, Except.pure, Except.ok.injEq, Prod.mk.injEq] at hloop
    obtain ⟨hT, -, -⟩ := hloop
    subst hT
    refine ⟨merge_tables_step (merge_tables_step [] ap ats) bp bts, rfl, ?_⟩
    exact merge_tables_step_keep bts (merge_tables_step [] ap ats) bp hnadm
      (merge_tables_step_admin ats [] ap hadm hnd hla)

/-- Witness for C6_admin_override: base.json and admin_overrides.json both
define users; both merge orders produce doc_merged_users, whose users
table is the admin one. -/
theorem C6_admin_override_witness :
    (∃ t12, pyGetItemS doc_merged_users "tables" = .ok (.jobj t12) ∧
      objLookup t12 "users" = some merge_admin_users) ∧
    (∃ t21, pyGetItemS doc_merged_users "tables" = .ok (.jobj t21) ∧
      objLookup t21 "users" = some merge_admin_users) :=
  C6_admin_override "base.json" "admin_overrides.json" "users" doc_merge_base
    doc_merge_admin [("users", merge_base_users)] [("users", merge_admin_users)]
    merge_base_users merge_admin_users doc_merged_users doc_merged_users
    rfl rfl rfl rfl (by decide) rfl rfl rfl rfl

theorem listPrefixOf_iff : ∀ (p l : List Char), listPrefixOf p l = true ↔ p <+: l := by
  intro p
  induction p with
  | nil => intro l; simp [listPrefixOf]
  | cons a ps ih =>
      intro l
      cases l with
      | nil =>
          simp [listPrefixOf]
      | cons c cs =>
          simp only [listPrefixOf, Bool.and_eq_true, beq_iff_eq, List.cons_prefix_cons]
          exact and_congr Iff.rfl (ih cs)

theorem listInfixOf_iff (p : List Char) : ∀ (l : List Char),
    listInfixOf p l = true ↔ p <:+: l := by
  intro l
  induction l with
  | nil =>
      simp only [listInfixOf, listPrefixOf_iff, List.infix_nil]
      constructor
      · intro h
        simpa using List.prefix_nil.mp h
      · intro h
        subst h
        exact List.nil_prefix
  | cons c cs ih =>
      simp only [listInfixOf, Bool.or_eq_true, listPrefixOf_iff, ih, List.infix_cons_iff]

theorem msgFkTableNotExist_contains (t c X : String) :
    sContains (msgFkTableNotExist t c X) X = true := by
  unfold sContains
  rw [listInfixOf_iff]
  have h : (msgFkTableNotExist t c X).toList =
      ("Table '" ++ t ++ "', column '" ++ c ++ "': Referenced table '").toList ++
        X.toList ++ ("' does not exist").toList := by
    simp [msgFkTableNotExist, String.toList, String.data_append, List.append_assoc]
  rw [h]
  exact List.infix_append _ _ _

theorem validate_fk_ghost {t c X : String} {fkvs tkvs : List (String × JVal)}
    {cv : JVal} {es : List String}
    (htab : objLookup fkvs "table" = some (.jstr X))
    (hcol : objLookup fkvs "column" = some cv)
    (habs : tkvs.any (fun p => p.1 == X) = false)
    (h : validate_foreign_key t c (.jobj fkvs) (.jobj tkvs) = .ok es) :
    es = [msgFkTableNotExist t c X] := by
  unfold validate_foreign_key at h
  rw [except_bind_ok] at h
  obtain ⟨hasTable, hT, h⟩ := h
  have hTt : hasTable = true := by
    have hany := objLookup_some_any htab
    simp only [pyContainsS, hany, Except.ok.injEq] at hT
    exact hT.symm
  subst hTt
  rw [if_neg (by decide)] at h
  rw [except_bind_ok] at h
  obtain ⟨_, -, h⟩ := h
  rw [except_bind_ok] at h
  obtain ⟨hasColumn, hC, h⟩ := h
  have hCt : hasColumn = true := by
    have hany := objLookup_some_any hcol
    simp only [pyContainsS, hany, Except.ok.injEq] at hC
    exact hC.symm
  subst hCt
  rw [if_neg (by decide)] at h
  rw [except_bind_ok] at h
  obtain ⟨_, -, h⟩ := h
  rw [except_bind_ok] at h
  obtain ⟨refTable, hrt, h⟩ := h
  have hrtv : refTable = .jstr X := by
    simp only [pyGetItemS, htab, Except.ok.injEq] at hrt
    exact hrt.symm
  subst hrtv
  rw [except_bind_ok] at h
  obtain ⟨refColumn, -, h⟩ := h
  rw [except_bind_ok] at h
  obtain ⟨memT, hm, h⟩ := h
  have hmv : memT = false := by
    simp only [pyContainsV, habs, Except.ok.injEq] at hm
    exact hm.symm
  subst hmv
  rw [if_pos (by decide)] at h
  simp only [pure, Except.pure, Except.ok.injEq] at h
  exact h.symm

theorem validate_column_fk_ghost {t c X : String}
    {ckvs fkvs tkvs : List (String × JVal)} {tyv cv : JVal} {es ws : List String}
    (h : validate_column t c (.jobj ckvs) (.jobj tkvs) = .ok (es, ws))
    (hty : objLookup ckvs "type" = some tyv)
    (hfk : objLookup ckvs "foreign_key" = some (.jobj fkvs))
    (htab : objLookup fkvs "table" = some (.jstr X))
    (hcol : objLookup fkvs "column" = some cv)
    (habs : tkvs.any (fun p => p.1 == X) = false) :
    msgFkTableNotExist t c X ∈ es := by
  unfold validate_column at h
  rw [except_bind_ok] at h
  obtain ⟨hasType, hT, h⟩ := h
  have hTt : hasType = true := by
    have hany := objLookup_some_any hty
    simp only [pyContainsS, hany, Except.ok.injEq] at hT
    exact hT.symm
  subst hTt
  rw [if_neg (by decide)] at h
  rw [except_bind_ok] at h
  obtain ⟨_, -, h⟩ := h
  rw [except_bind_ok] at h
  obtain ⟨colTypeV, -, h⟩ := h
  rw [except_bind_ok] at h
  obtain ⟨colType, -, h⟩ := h
  simp only [] at h
  rw [except_bind_ok] at h
  obtain ⟨errors1, -, h⟩ := h
  rw [except_bind_ok] at h
  obtain ⟨hasFK, hF, h⟩ := h
  have hFt : hasFK = true := by
    have hany := objLookup_some_any hfk
    simp only [pyContainsS, hany, Except.ok.injEq] at hF
    exact hF.symm
  subst hFt
  rw [except_bind_ok] at h
  obtain ⟨errors2, hE2, h⟩ := h
  rw [if_pos rfl] at hE2
  obtain ⟨fk, fkErrors, hg, hfke, hes2⟩ := fk_check_ok hE2
  have hfkv : fk = .jobj fkvs := by
    simp only [pyGetItemS, hfk, Except.ok.injEq] at hg
    exact hg.symm
  subst hfkv
  have hfkes : fkErrors = [msgFkTableNotExist t c X] :=
    validate_fk_ghost htab hcol habs hfke
  subst hfkes
  subst hes2
  have hmem2 : msgFkTableNotExist t c X ∈ errors1 ++ [msgFkTableNotExist t c X] :=
    List.mem_append_right _ (List.mem_singleton.mpr rfl)
  rw [except_bind_ok] at h
  obtain ⟨pk, -, h⟩ := h
  rw [except_bind_ok] at h
  obtain ⟨nul, -, h⟩ := h
  rw [except_bind_ok] at h
  obtain ⟨hasDefault, -, h⟩ := h
  rw [except_bind_ok] at h
  obtain ⟨warnings, -, h⟩ := h
  simp only [pure, Except.pure, Except.ok.injEq, Prod.mk.injEq] at h
  obtain ⟨hes, -⟩ := h
  subst hes
  split
  · exact List.mem_append_left _ hmem2
  · exact hmem2

theorem mem_length_beq_zero_false {α : Type} {m : α} : ∀ {l : List α}, m ∈ l →
    (l.length == 0) = false := by
  intro l
  cases l with
  | nil => intro h; exact absurd h (List.not_mem_nil _)
  | cons a t => intro h; rfl

theorem validate_columns_loop_prefix {t : String} {allT : JVal} :
    ∀ (cols : List (String × JVal)) (errs warns : List String) (pkc : Nat)
      (es ws : List String) (n : Nat),
    validate_columns_loop t cols allT errs warns pkc = .ok (es, ws, n) →
    ∃ tl, es = errs ++ tl := by
  intro cols
  induction cols with
  | nil =>
      intro errs warns pkc es ws n h
      unfold validate_columns_loop at h
      simp only [pure, Except.pure, Except.ok.injEq, Prod.mk.injEq] at h
      obtain ⟨h1, -⟩ := h
      exact ⟨[], by rw [List.append_nil, h1]⟩
  | cons p rest ih =>
      obtain ⟨cn, ci⟩ := p
      intro errs warns pkc es ws n h
      unfold validate_columns_loop at h
      rw [except_bind_ok] at h
      obtain ⟨⟨ce, cw⟩, -, h⟩ := h
      rw [except_bind_ok] at h
      obtain ⟨pk, -, h⟩ := h
      obtain ⟨tl, htl⟩ := ih (errs ++ ce) _ _ es ws n h
      exact ⟨ce ++ tl, by rw [htl, List.append_assoc]⟩

theorem validate_columns_loop_mem {t c X : String}
    {ckvs fkvs tkvs : List (String × JVal)} {tyv cv : JVal} :
    ∀ (cols : List (String × JVal)) (errs warns : List String) (pkc : Nat)
      (es ws : List String) (n : Nat),
    (c, JVal.jobj ckvs) ∈ cols →
    objLookup ckvs "type" = some tyv →
    objLookup ckvs "foreign_key" = some (.jobj fkvs) →
    objLookup fkvs "table" = some (.jstr X) →
    objLookup fkvs "column" = some cv →
    tkvs.any (fun p => p.1 == X) = false →
    validate_columns_loop t cols (.jobj tkvs) errs warns pkc = .ok (es, ws, n) →
    msgFkTableNotExist t c X ∈ es := by
  intro cols
  induction cols with
  | nil =>
      intro errs warns pkc es ws n hmem
      exact absurd hmem (List.not_mem_nil _)
  | cons p rest ih =>
      obtain ⟨cn, ci⟩ := p
      intro errs warns pkc es ws n hmem hty hfk htab hcol habs h
      unfold validate_columns_loop at h
      rw [except_bind_ok] at h
      obtain ⟨⟨ce, cw⟩, hcv, h⟩ := h
      rw [except_bind_ok] at h
      obtain ⟨pk, -, h⟩ := h
      rcases List.mem_cons.mp hmem with heq | hmem2
      · injection heq with h1 h2
        subst h1
        subst h2
        have hmemce := validate_column_fk_ghost hcv hty hfk htab hcol habs
        obtain ⟨tl, htl⟩ := validate_columns_loop_prefix _ _ _ _ _ _ _ h
        subst htl
        exact List.mem_append_left _ (List.mem_append_right _ hmemce)
      · exact ih _ _ _ _ _ _ hmem2 hty hfk htab hcol habs h

theorem validate_table_mem {t c X : String}
    {ttkvs colEntries ckvs fkvs tkvs : List (String × JVal)} {tyv cv : JVal}
    {es ws : List String}
    (h : validate_table t (.jobj ttkvs) (.jobj tkvs) = .ok (es, ws))
    (hcols : objLookup ttkvs "columns" = some (.jobj colEntries))
    (hcmem : (c, JVal.jobj ckvs) ∈ colEntries)
    (hty : objLookup ckvs "type" = some tyv)
    (hfk : objLookup ckvs "foreign_key" = some (.jobj fkvs))
    (htab : objLookup fkvs "table" = some (.jstr X))
    (hcol : objLookup fkvs "column" = some cv)
    (habs : tkvs.any (fun p => p.1 == X) = false) :
    msgFkTableNotExist t c X ∈ es := by
  unfold validate_table at h
  rw [except_bind_ok] at h
  obtain ⟨hasCols, hHC, h⟩ := h
  have hHCt : hasCols = true := by
    have hany := objLookup_some_any hcols
    simp only [pyContainsS, hany, Except.ok.injEq] at hHC
    exact hHC.symm
  subst hHCt
  rw [if_neg (by decide)] at h
  rw [except_bind_ok] at h
  obtain ⟨_, -, h⟩ := h
  rw [except_bind_ok] at h
  obtain ⟨columns, hco, h⟩ := h
  have hcov : columns = .jobj colEntries := by
    simp only [pyGetItemS, hcols, Except.ok.injEq] at hco
    exact hco.symm
  subst hcov
  have htr : pyTruthy (.jobj colEntries) = true := by
    cases colEntries with
    | nil => exact absurd hcmem (List.not_mem_nil _)
    | cons a l => rfl
  rw [htr] at h
  rw [if_neg (by decide)] at h
  rw [except_bind_ok] at h
  obtain ⟨_, -, h⟩ := h
  rw [except_bind_ok] at h
  obtain ⟨colItems, hci, h⟩ := h
  have hciv : colEntries = colItems := by
    simp only [asObj, Except.ok.injEq] at hci
    exact hci
  subst hciv
  rw [except_bind_ok] at h
  obtain ⟨⟨errs0, warns0, pkc⟩, hloop, h⟩ := h
  have hm0 : msgFkTableNotExist t c X ∈ errs0 :=
    validate_columns_loop_mem _ _ _ _ _ _ _ hcmem hty hfk htab hcol habs hloop
  simp only [] at h
  have hm1 : msgFkTableNotExist t c X ∈
      (if pkc > 1 then errs0 ++ [msgMultiplePrimaryKeys t] else errs0) := by
    split
    · exact List.mem_append_left _ hm0
    · exact hm0
  rw [except_bind_ok] at h
  obtain ⟨hasIdx, -, h⟩ := h
  cases hasIdx with
  | true =>
      rw [if_pos rfl] at h
      rw [except_bind_ok] at h
      obtain ⟨idxs, -, h⟩ := h
      rw [except_bind_ok] at h
      obtain ⟨idxErrs, -, h⟩ := h
      rw [except_bind_ok] at h
      obtain ⟨y, hy, h⟩ := h
      simp only [pure, Except.pure, Except.ok.injEq] at hy
      subst hy
      simp only [pure, Except.pure, Except.ok.injEq, Prod.mk.injEq] at h
      obtain ⟨hes, -⟩ := h
      subst hes
      exact List.mem_append_left _ hm1
  | false =>
      rw [if_neg (by decide)] at h
      rw [except_bind_ok] at h
      obtain ⟨y, hy, h⟩ := h
      simp only [pure, Except.pure, Except.ok.injEq] at hy
      subst hy
      simp only [pure, Except.pure, Except.ok.injEq, Prod.mk.injEq] at h
      obtain ⟨hes, -⟩ := h
      subst hes
      exact hm1

theorem validate_tables_loop_prefix {allT : JVal} :
    ∀ (entries : List (String × JVal)) (errs warns : List String)
      (es ws : List String),
    validate_tables_loop entries allT errs warns = .ok (es, ws) →
    ∃ tl, es = errs ++ tl := by
  intro entries
  induction entries with
  | nil =>
      intro errs warns es ws h
      unfold validate_tables_loop at h
      simp only [pure, Except.pure, Except.ok.injEq, Prod.mk.injEq] at h
      obtain ⟨h1, -⟩ := h
      exact ⟨[], by rw [List.append_nil, h1]⟩
  | cons p rest ih =>
      obtain ⟨tn, ti⟩ := p
      intro errs warns es ws h
      unfold validate_tables_loop at h
      rw [except_bind_ok] at h
      obtain ⟨⟨te, tw⟩, -, h⟩ := h
      obtain ⟨tl, htl⟩ := ih (errs ++ te) _ es ws h
      exact ⟨te ++ tl, by rw [htl, List.append_assoc]⟩

theorem validate_tables_loop_mem {t c X : String}
    {ttkvs colEntries ckvs fkvs tkvs : List (String × JVal)} {tyv cv : JVal} :
    ∀ (entries : List (String × JVal)) (errs warns : List String)
      (es ws : List String),
    (t, JVal.jobj ttkvs) ∈ entries →
    objLookup ttkvs "columns" = some (.jobj colEntries) →
    (c, JVal.jobj ckvs) ∈ colEntries →
    objLookup ckvs "type" = some tyv →
    objLookup ckvs "foreign_key" = some (.jobj fkvs) →
    objLookup fkvs "table" = some (.jstr X) →
    objLookup fkvs "column" = some cv →
    tkvs.any (fun p => p.1 == X) = false →
    validate_tables_loop entries (.jobj tkvs) errs warns = .ok (es, ws) →
    msgFkTableNotExist t c X ∈ es := by
  intro entries
  induction entries with
  | nil =>
      intro errs warns es ws hmem
      exact absurd hmem (List.not_mem_nil _)
  | cons p rest ih =>
      obtain ⟨tn, ti⟩ := p
      intro errs warns es ws hmem hcols hcmem hty hfk htab hcol habs h
      unfold validate_tables_loop at h
      rw [except_bind_ok] at h
      obtain ⟨⟨te, tw⟩, htv, h⟩ := h
      rcases List.mem_cons.mp hmem with heq | hmem2
      · injection heq with h1 h2
        subst h1
        subst h2
        have hmte := validate_table_mem htv hcols hcmem hty hfk htab hcol habs
        obtain ⟨tl, htl⟩ := validate_tables_loop_prefix _ _ _ _ _ h
        subst htl
        exact List.mem_append_left _ (List.mem_append_right _ hmte)
      · exact ih _ _ _ _ hmem2 hcols hcmem hty hfk htab hcol habs h

/-- C2 amended: for a document whose table t has a column c carrying a
type field and a foreign_key object with both a table field naming X and
a column field, where X is not a key of the tables mapping, a completed
validation returns is_valid false and an errors list containing the
referenced-table-does-not-exist message for t, c and X, and that message
mentions X as a substring. -/
theorem C2_fk_ghost_invalid :
    ∀ (skvs tkvs ttkvs colEntries ckvs fkvs : List (String × JVal))
      (t c X : String) (tyv cv : JVal) (r : VResult),
    validate_schema (.jobj skvs) = .ok r →
    objLookup skvs "tables" = some (.jobj tkvs) →
    (t, JVal.jobj ttkvs) ∈ tkvs →
    objLookup ttkvs "columns" = some (.jobj colEntries) →
    (c, JVal.jobj ckvs) ∈ colEntries →
    objLookup ckvs "type" = some tyv →
    objLookup ckvs "foreign_key" = some (.jobj fkvs) →
    objLookup fkvs "table" = some (.jstr X) →
    objLookup fkvs "column" = some cv →
    tkvs.any (fun p => p.1 == X) = false →
    r.is_valid = false ∧ msgFkTableNotExist t c X ∈ r.errors ∧
      sContains (msgFkTableNotExist t c X) X = true := by
  intro skvs tkvs ttkvs colEntries ckvs fkvs t c X tyv cv r h hst htmem hcols hcmem
    hty hfk htab hcol habs
  refine ?_
  unfold validate_schema at h
  rw [except_bind_ok] at h
  obtain ⟨hasDb, -, h⟩ := h
  rw [except_bind_ok] at h
  obtain ⟨hasTables, hHT, h⟩ := h
  have hHTt : hasTables = true := by
    have hany := objLookup_some_any hst
    simp only [pyContainsS, hany, Except.ok.injEq] at hHT
    exact hHT.symm
  subst hHTt
  rw [if_neg (by decide)] at h
  rw [except_bind_ok] at h
  obtain ⟨tables, htb, h⟩ := h
  have htbv : tables = .jobj tkvs := by
    simp only [pyGetItemS, hst, Except.ok.injEq] at htb
    exact htb.symm
  subst htbv
  rw [except_bind_ok] at h
  obtain ⟨entries, hen, h⟩ := h
  have henv : tkvs = entries := by
    simp only [asObj, Except.ok.injEq] at hen
    exact hen
  subst henv
  rw [except_bind_ok] at h
  obtain ⟨⟨errs, warns⟩, hloop, h⟩ := h
  have hm1 : msgFkTableNotExist t c X ∈ errs :=
    validate_tables_loop_mem _ _ _ _ _ htmem hcols hcmem hty hfk htab hcol habs hloop
  have hfin : ∀ (errsF warnsF : List String),
      msgFkTableNotExist t c X ∈ errsF →
      create_result (errsF.length == 0) errsF warnsF (.jobj skvs) = .ok r →
      r.is_valid = false ∧ msgFkTableNotExist t c X ∈ r.errors ∧
        sContains (msgFkTableNotExist t c X) X = true := by
    intro errsF warnsF hmf hcr
    obtain ⟨-, hv, he, -⟩ := create_result_ok hcr
    refine ⟨?_, ?_, msgFkTableNotExist_contains t c X⟩
    · rw [hv, mem_length_beq_zero_false hmf]
    · rw [he]
      exact hmf
  rw [except_bind_ok] at h
  obtain ⟨hasRels, -, h⟩ := h
  cases hasRels with
  | true =>
      rw [if_pos rfl] at h
      rw [except_bind_ok] at h
      obtain ⟨rels, -, h⟩ := h
      rw [except_bind_ok] at h
      obtain ⟨⟨re, rw2⟩, -, h⟩ := h
      rw [except_bind_ok] at h
      obtain ⟨y, hy, h⟩ := h
      simp only [pure, Except.pure, Except.ok.injEq] at hy
      subst hy
      rw [except_bind_ok] at h
      obtain ⟨hasSeed, -, h⟩ := h
      cases hasSeed with
      | true =>
          rw [if_pos rfl] at h
          rw [except_bind_ok] at h
          obtain ⟨sd, -, h⟩ := h
          rw [except_bind_ok] at h
          obtain ⟨se, -, h⟩ := h
          rw [except_bind_ok] at h
          obtain ⟨y2, hy2, h⟩ := h
          simp only [pure, Except.pure, Except.ok.injEq] at hy2
          subst hy2
          rw [except_bind_ok] at h
          obtain ⟨ce, -, h⟩ := h
          exact hfin _ _ (List.mem_append_left _ (List.mem_append_left _
            (List.mem_append_left _ hm1))) h
      | false =>
          rw [if_neg (by decide)] at h
          rw [except_bind_ok] at h
          obtain ⟨y2, hy2, h⟩ := h
          simp only [pure, Except.pure, Except.ok.injEq] at hy2
          subst hy2
          rw [except_bind_ok] at h
          obtain ⟨ce, -, h⟩ := h
          exact hfin _ _ (List.mem_append_left _ (List.mem_append_left _ hm1)) h
  | false =>
      rw [if_neg (by decide)] at h
      rw [except_bind_ok] at h
      obtain ⟨y, hy, h⟩ := h
      simp only [pure, Except.pure, Except.ok.injEq] at hy
      subst hy
      rw [except_bind_ok] at h
      obtain ⟨hasSeed, -, h⟩ := h
      cases hasSeed with
      | true =>
          rw [if_pos rfl] at h
          rw [except_bind_ok] at h
          obtain ⟨sd, -, h⟩ := h
          rw [except_bind_ok] at h
          obtain ⟨se, -, h⟩ := h
          rw [except_bind_ok] at h
          obtain ⟨y2, hy2, h⟩ := h
          simp only [pure, Except.pure, Except.ok.injEq] at hy2
          subst hy2
          rw [except_bind_ok] at h
          obtain ⟨ce, -, h⟩ := h
          exact hfin _ _ (List.mem_append_left _ (List.mem_append_left _ hm1)) h
      | false =>
          rw [if_neg (by decide)] at h
          rw [except_bind_ok] at h
          obtain ⟨y2, hy2, h⟩ := h
          simp only [pure, Except.pure, Except.ok.injEq] at hy2
          subst hy2
          rw [except_bind_ok] at h
          obtain ⟨ce, -, h⟩ := h
          exact hfin _ _ (List.mem_append_left _ hm1) h

/-- Witness for C2_fk_ghost_invalid at doc_fk_ghost_full: orders.uid
references the nonexistent table users; validation returns is_valid false
with the referenced-table error, which mentions users. -/
theorem C2_fk_ghost_invalid_witness :
    (VResult.mk false [msgFkTableNotExist "orders" "uid" "users"]
      [msgMissingDatabase, msgNoPrimaryKey "orders"] 1 0 0 1).is_valid = false ∧
    msgFkTableNotExist "orders" "uid" "users" ∈
      (VResult.mk false [msgFkTableNotExist "orders" "uid" "users"]
        [msgMissingDatabase, msgNoPrimaryKey "orders"] 1 0 0 1).errors ∧
    sContains (msgFkTableNotExist "orders" "uid" "users") "users" = true :=
  C2_fk_ghost_invalid
    [("tables", .jobj [("orders", .jobj [("columns", .jobj
      [("uid", .jobj [("type", .jstr "INTEGER"),
        ("foreign_key", .jobj [("table", .jstr "users"), ("column", .jstr "id")])])])])])]
    [("orders", .jobj [("columns", .jobj
      [("uid", .jobj [("type", .jstr "INTEGER"),
        ("foreign_key", .jobj [("table", .jstr "users"), ("column", .jstr "id")])])])])]
    [("columns", .jobj
      [("uid", .jobj [("type", .jstr "INTEGER"),
        ("foreign_key", .jobj [("table", .jstr "users"), ("column", .jstr "id")])])])]
    [("uid", .jobj [("type", .jstr "INTEGER"),
      ("foreign_key", .jobj [("table", .jstr "users"), ("column", .jstr "id")])])]
    [("type", .jstr "INTEGER"),
      ("foreign_key", .jobj [("table", .jstr "users"), ("column", .jstr "id")])]
    [("table", .jstr "users"), ("column", .jstr "id")]
    "orders" "uid" "users" (.jstr "INTEGER") (.jstr "id")
    (VResult.mk false [msgFkTableNotExist "orders" "uid" "users"]
      [msgMissingDatabase, msgNoPrimaryKey "orders"] 1 0 0 1)
    rfl rfl (List.mem_singleton.mpr rfl) rfl (List.mem_singleton.mpr rfl)
    rfl rfl rfl rfl rfl

theorem countP_le_of_imp {α : Type} :
    ∀ (l : List α) (p q : α → Bool),
    (∀ a, a ∈ l → p a = true → q a = true) → l.countP p ≤ l.countP q := by
  intro l
  induction l with
  | nil => intro p q h; simp
  | cons b t ih =>
      intro p q h
      rw [List.countP_cons, List.countP_cons]
      have ht := ih p q (fun a ha => h a (List.mem_cons_of_mem b ha))
      cases hp : p b with
      | true =>
          rw [if_pos rfl, h b (List.mem_cons_self b t) hp, if_pos rfl]
          omega
      | false =>
          rw [if_neg (by decide)]
          cases hq : q b with
          | true => rw [if_pos rfl]; omega
          | false => rw [if_neg (by decide)]; omega

theorem countP_lt_of_witness {α : Type} :
    ∀ (l : List α) (p q : α → Bool),
    (∀ a, a ∈ l → p a = true → q a = true) →
    ∀ a0, a0 ∈ l → p a0 = false → q a0 = true →
    l.countP p < l.countP q := by
  intro l
  induction l with
  | nil => intro p q h a0 h0; exact absurd h0 (List.not_mem_nil _)
  | cons b t ih =>
      intro p q h a0 h0 hp0 hq0
      rw [List.countP_cons, List.countP_cons]
      rcases List.mem_cons.mp h0 with heq | hmem
      · subst heq
        rw [hp0, hq0]
        have ht := countP_le_of_imp t p q (fun a ha => h a (List.mem_cons_of_mem a0 ha))
        rw [if_neg (by decide), if_pos rfl]
        omega
      · have ht := ih p q (fun a ha => h a (List.mem_cons_of_mem b ha)) a0 hmem hp0 hq0
        cases hpb : p b with
        | true =>
            rw [if_pos rfl, h b (List.mem_cons_self b t) hpb, if_pos rfl]
            omega
        | false =>
            rw [if_neg (by decide)]
            cases hqb : q b with
            | true => rw [if_pos rfl]; omega
            | false => rw [if_neg (by decide)]; omega

theorem pyEq_jstr_right {y : JVal} {s : String} (h : pyEq y (.jstr s) = true) :
    y = .jstr s := by
  cases y with
  | jstr t =>
      simp only [pyEq] at h
      rw [eq_of_beq h]
  | jnull => simp [pyEq] at h
  | jbool b => simp [pyEq] at h
  | jint n => simp [pyEq] at h
  | jarr xs => simp [pyEq] at h
  | jobj kvs => simp [pyEq] at h

theorem pyEq_jstr_refl (s : String) : pyEq (.jstr s) (.jstr s) = true := by
  simp [pyEq]

theorem mem_pySetAdd_of_mem {v : List JVal} {x y : JVal} (h : y ∈ v) :
    y ∈ pySetAdd v x := by
  unfold pySetAdd
  split
  · exact h
  · exact List.mem_append_left _ h

theorem pySetAdd_eq_append {v : List JVal} {x : JVal} (h : pySetMem v x = false) :
    pySetAdd v x = v ++ [x] := by
  unfold pySetAdd
  rw [h]
  rfl

theorem cycK_le_of_subset (deps : List (String × List JVal)) {v v2 : List JVal}
    (h : ∀ y, y ∈ v → y ∈ v2) : cycK deps v2 ≤ cycK deps v := by
  unfold cycK
  refine countP_le_of_imp deps _ _ ?_
  intro p hp h2
  cases hx : v.any (fun y => pyEq y (.jstr p.1)) with
  | false => rfl
  | true =>
      exfalso
      obtain ⟨y, hy, hpy⟩ := List.any_eq_true.mp hx
      have h3 : v2.any (fun y => pyEq y (.jstr p.1)) = true :=
        List.any_eq_true.mpr ⟨y, h y hy, hpy⟩
      rw [h3] at h2
      exact absurd h2 (by decide)

theorem cycK_dec (deps : List (String × List JVal)) {v : List JVal} {n : JVal}
    (hnm : pySetMem v n = false) (hne : depsGet deps n ≠ []) :
    cycK deps (v ++ [n]) < cycK deps v := by
  unfold depsGet at hne
  cases hf : deps.find? (fun p => pyEq n (.jstr p.1)) with
  | none => rw [hf] at hne; exact absurd rfl hne
  | some p0 =>
      have hp0mem : p0 ∈ deps := List.mem_of_find?_eq_some hf
      have hp0eq : pyEq n (.jstr p0.1) = true := by
        have hx := List.find?_some hf
        simpa using hx
      have hnv : n = .jstr p0.1 := pyEq_jstr_right hp0eq
      unfold cycK
      refine countP_lt_of_witness deps _ _ ?_ p0 hp0mem ?_ ?_
      · intro a ha h2
        cases hx : v.any (fun y => pyEq y (.jstr a.1)) with
        | false => rfl
        | true =>
            exfalso
            obtain ⟨y, hy, hpy⟩ := List.any_eq_true.mp hx
            have h3 : (v ++ [n]).any (fun y => pyEq y (.jstr a.1)) = true :=
              List.any_eq_true.mpr ⟨y, List.mem_append_left _ hy, hpy⟩
            rw [h3] at h2
            exact absurd h2 (by decide)
      · have h3 : (v ++ [n]).any (fun y => pyEq y (.jstr p0.1)) = true :=
          List.any_eq_true.mpr ⟨n, List.mem_append_right _ (List.mem_singleton.mpr rfl),
            hp0eq⟩
        rw [h3]
        rfl
      · cases hx : v.any (fun y => pyEq y (.jstr p0.1)) with
        | false => rfl
        | true =>
            exfalso
            obtain ⟨y, hy, hpy⟩ := List.any_eq_true.mp hx
            have hyn : y = n := by rw [pyEq_jstr_right hpy, hnv]
            subst hyn
            have hmem2 : pySetMem v y = true := by
              unfold pySetMem
              refine List.any_eq_true.mpr ⟨y, hy, ?_⟩
              rw [hnv]
              exact pyEq_jstr_refl p0.1
            rw [hmem2] at hnm
            exact absurd hnm (by decide)

theorem depsGet_len_le (deps : List (String × List JVal)) (n : JVal) :
    (depsGet deps n).length ≤ cycS deps := by
  unfold depsGet
  cases hf : deps.find? (fun p => pyEq n (.jstr p.1)) with
  | none => simp
  | some p0 =>
      have hp0mem : p0 ∈ deps := List.mem_of_find?_eq_some hf
      have : p0.2.length ∈ deps.map (fun p => p.2.length) :=
        List.mem_map.mpr ⟨p0, hp0mem, rfl⟩
      exact List.single_le_sum (fun x hx => Nat.zero_le x) _ this

theorem cycle_go_total (deps : List (String × List JVal)) :
    ∀ (fuel : Nat) (c : CycleCall) (v r : List JVal),
    (match c with
     | .node n => pySetMem v n = false ∧
         cycK deps v * (cycS deps + 2) + cycS deps + 2 ≤ fuel
     | .neigh l => l.length ≤ cycS deps ∧
         ((l = [] ∧ 1 ≤ fuel) ∨
          cycK deps v * (cycS deps + 2) + cycS deps + 2 + l.length ≤ fuel)) →
    ∃ b v2 r2, cycle_go deps fuel c v r = .ok (b, v2, r2) ∧
      ∀ y, y ∈ v → y ∈ v2 := by
  intro fuel
  induction fuel with
  | zero =>
      intro c v r hc
      exfalso
      cases c with
      | node n => omega
      | neigh l =>
          rcases hc.2 with ⟨-, h1⟩ | h1 <;> omega
  | succ fuel ih =>
      intro c v r hc
      cases c with
      | neigh l =>
          obtain ⟨hlen, hb⟩ := hc
          cases l with
          | nil => exact ⟨false, v, r, rfl, fun y hy => hy⟩
          | cons n rest =>
              rcases hb with ⟨hnil, -⟩ | hbig
              · exact absurd hnil (by simp)
              have hrlen : rest.length ≤ cycS deps := by
                simp only [List.length_cons] at hlen
                omega
              simp only [List.length_cons] at hbig
              cases hm : pySetMem v n with
              | false =>
                  obtain ⟨b1, v1, r1, hgo, hmono1⟩ :=
                    ih (.node n) v r ⟨hm, by omega⟩
                  cases b1 with
                  | true =>
                      refine ⟨true, v1, r1, ?_, hmono1⟩
                      simp only [cycle_go, hm]
                      rw [hgo]
                      rfl
                  | false =>
                      have hK : cycK deps v1 * (cycS deps + 2) ≤
                          cycK deps v * (cycS deps + 2) :=
                        Nat.mul_le_mul_right _ (cycK_le_of_subset deps hmono1)
                      obtain ⟨b2, v2, r2, hgo2, hmono2⟩ :=
                        ih (.neigh rest) v1 r1 ⟨hrlen, Or.inr (by omega)⟩
                      refine ⟨b2, v2, r2, ?_, fun y hy => hmono2 y (hmono1 y hy)⟩
                      simp only [cycle_go, hm]
                      rw [hgo]
                      exact hgo2
              | true =>
                  cases hr : pySetMem r n with
                  | true =>
                      refine ⟨true, v, r, ?_, fun y hy => hy⟩
                      simp only [cycle_go, hm, hr]
                      rfl
                  | false =>
                      obtain ⟨b2, v2, r2, hgo2, hmono2⟩ :=
                        ih (.neigh rest) v r ⟨hrlen, Or.inr (by omega)⟩
                      refine ⟨b2, v2, r2, ?_, hmono2⟩
                      simp only [cycle_go, hm, hr]
                      exact hgo2
      | node n =>
          obtain ⟨hnm, hbound⟩ := hc
          have hadd : pySetAdd v n = v ++ [n] := pySetAdd_eq_append hnm
          have hdlen : (depsGet deps n).length ≤ cycS deps := depsGet_len_le deps n
          have hargs : (depsGet deps n).length ≤ cycS deps ∧
              ((depsGet deps n = [] ∧ 1 ≤ fuel) ∨
               cycK deps (pySetAdd v n) * (cycS deps + 2) + cycS deps + 2 +
                 (depsGet deps n).length ≤ fuel) := by
            refine ⟨hdlen, ?_⟩
            cases hdg : depsGet deps n with
            | nil => exact Or.inl ⟨rfl, by omega⟩
            | cons a l =>
                refine Or.inr ?_
                have hdec : cycK deps (v ++ [n]) < cycK deps v :=
                  cycK_dec deps hnm (by rw [hdg]; simp)
                rw [hadd]
                have hmul : (cycK deps (v ++ [n]) + 1) * (cycS deps + 2) ≤
                    cycK deps v * (cycS deps + 2) :=
                  Nat.mul_le_mul_right _ (by omega)
                rw [Nat.add_mul, Nat.one_mul] at hmul
                have hdg2 : (depsGet deps n).length ≤ cycS deps := hdlen
                rw [hdg] at hdg2
                rw [← hdg]
                omega
          obtain ⟨b1, v2, r2, hgo, hmono1⟩ :=
            ih (.neigh (depsGet deps n)) (pySetAdd v n) (pySetAdd r n) hargs
          have hmono : ∀ y, y ∈ v → y ∈ v2 :=
            fun y hy => hmono1 y (mem_pySetAdd_of_mem hy)
          cases b1 with
          | true =>
              refine ⟨true, v2, r2, ?_, hmono⟩
              simp only [cycle_go]
              rw [hgo]
          | false =>
              refine ⟨false, v2, pySetRemove r2 n, ?_, hmono⟩
              simp only [cycle_go]
              rw [hgo]

theorem cycB_le_cycleFuel (deps : List (String × List JVal)) (v : List JVal) :
    cycK deps v * (cycS deps + 2) + cycS deps + 2 ≤ cycleFuel deps := by
  have hK : cycK deps v ≤ deps.length := List.countP_le_length _
  have h1 : cycK deps v * (cycS deps + 2) ≤ deps.length * (cycS deps + 2) :=
    Nat.mul_le_mul_right _ hK
  have h2 : (deps.length + 2) * (cycS deps + 2) ≤
      (2 + deps.length + cycS deps + 2) * (2 + deps.length + cycS deps + 2) :=
    Nat.mul_le_mul (by omega) (by omega)
  rw [Nat.add_mul] at h2
  have h3 : cycleFuel deps =
      (2 + deps.length + cycS deps + 2) * (2 + deps.length + cycS deps + 2) := by
    simp [cycleFuel, cycS]
  rw [h3]
  have h4 : (2 : Nat) * (cycS deps + 2) = cycS deps + cycS deps + 4 := by omega
  omega

theorem cycle_outer_total (deps : List (String × List JVal)) :
    ∀ (keys : List String) (v r : List JVal) (acc : List String),
    ∃ es, cycle_outer deps (cycleFuel deps) keys v r acc = .ok es := by
  intro keys
  induction keys with
  | nil => intro v r acc; exact ⟨acc, rfl⟩
  | cons k rest ih =>
      intro v r acc
      cases hm : pySetMem v (.jstr k) with
      | false =>
          obtain ⟨b, v2, r2, hgo, -⟩ :=
            cycle_go_total deps (cycleFuel deps) (.node (.jstr k)) v r
              ⟨hm, cycB_le_cycleFuel deps v⟩
          obtain ⟨es, hrec⟩ := ih v2 r2 (if b then acc ++ [msgCircular k] else acc)
          refine ⟨es, ?_⟩
          simp only [cycle_outer, hm]
          rw [hgo]
          exact hrec
      | true =>
          obtain ⟨es, hrec⟩ := ih v r acc
          refine ⟨es, ?_⟩
          simp only [cycle_outer, hm]
          exact hrec

theorem bind_exists_ok {α β : Type} {e : Except String α} {k : α → Except String β}
    {a : α} (he : e = .ok a) (h2 : ∃ b, k a = .ok b) : ∃ b, (e >>= k) = .ok b := by
  rw [he]
  exact h2

theorem any_objLookup_some {kvs : List (String × JVal)} {k : String}
    (h : kvs.any (fun p => p.1 == k) = true) : ∃ v, objLookup kvs k = some v := by
  cases hL : objLookup kvs k with
  | some v => exact ⟨v, rfl⟩
  | none => rw [objLookup_none_any hL] at h; exact absurd h (by decide)

theorem pyGetItemS_of_lookup {kvs : List (String × JVal)} {k : String} {v : JVal}
    (h : objLookup kvs k = some v) : pyGetItemS (.jobj kvs) k = .ok v := by
  simp [pyGetItemS, h]

theorem pyGetItemV_of_lookup {kvs : List (String × JVal)} {k : String} {v : JVal}
    (h : objLookup kvs k = some v) : pyGetItemV (.jobj kvs) (.jstr k) = .ok v := by
  simp [pyGetItemV, h]

theorem pyContainsV_obj_total {x : JVal} {kvs : List (String × JVal)}
    (h : pyHashable x = true) : ∃ b, pyContainsV x (.jobj kvs) = .ok b := by
  cases x with
  | jarr xs => simp [pyHashable] at h
  | jobj o => simp [pyHashable] at h
  | jstr s => exact ⟨_, rfl⟩
  | jnull => exact ⟨false, rfl⟩
  | jbool b => exact ⟨false, rfl⟩
  | jint n => exact ⟨false, rfl⟩

theorem pyInStrSet_total {x : JVal} (ss : List String)
    (h : pyHashable x = true) : ∃ b, pyInStrSet x ss = .ok b := by
  cases x with
  | jarr xs => simp [pyHashable] at h
  | jobj o => simp [pyHashable] at h
  | jstr s => exact ⟨_, rfl⟩
  | jnull => exact ⟨false, rfl⟩
  | jbool b => exact ⟨false, rfl⟩
  | jint n => exact ⟨false, rfl⟩

theorem validate_default_value_total (t c : String) {ckvs : List (String × JVal)}
    {tyv dv : JVal}
    (hwf : wfColumn (.jobj ckvs) = true)
    (hty : objLookup ckvs "type" = some tyv)
    (hdef : objLookup ckvs "default" = some dv) :
    ∃ es, validate_default_value t c (.jobj ckvs) = .ok es := by
  unfold validate_default_value
  refine bind_exists_ok (pyGetItemS_of_lookup hty) ?_
  refine bind_exists_ok (pyGetItemS_of_lookup hdef) ?_
  cases hc1 : (pyEq tyv (JVal.jstr "INTEGER") && !isIntOrStr dv) with
  | true => exact ⟨_, rfl⟩
  | false =>
  cases hc2 : (pyEq tyv (JVal.jstr "BOOLEAN") &&
      !(booleanDefaultLiterals.any (fun e => pyEq e dv))) with
  | true => exact ⟨_, rfl⟩
  | false =>
  cases hc3 : pyEq tyv (JVal.jstr "ENUM") with
  | false => exact ⟨_, rfl⟩
  | true =>
  rw [if_neg (by decide), if_neg (by decide), if_pos rfl]
  have hv : (match objLookup ckvs "values" with
      | none => true | some (.jarr _) => true | _ => false) = true := by
    simp only [wfColumn, Bool.and_eq_true] at hwf
    exact hwf.1.2
  refine bind_exists_ok (show pyGet (.jobj ckvs) "values" (.jarr []) =
    .ok ((objLookup ckvs "values").getD (.jarr [])) from rfl) ?_
  cases hvv : objLookup ckvs "values" with
  | none =>
      simp only [hvv, Option.getD_none]
      refine bind_exists_ok (show pyContainsV dv (.jarr []) = .ok false from rfl) ?_
      exact ⟨_, rfl⟩
  | some vv =>
      rw [hvv] at hv
      cases vv with
      | jarr xs =>
          simp only [hvv, Option.getD_some]
          refine bind_exists_ok (show pyContainsV dv (.jarr xs) =
            .ok (xs.any (fun y => pyEq y dv)) from rfl) ?_
          cases hm : (xs.any (fun y => pyEq y dv)) <;> exact ⟨_, rfl⟩
      | jnull => simp at hv
      | jbool b => simp at hv
      | jint n => simp at hv
      | jstr s2 => simp at hv
      | jobj o => simp at hv

theorem enum_check_total (t c : String) (ckvs : List (String × JVal))
    (errs : List String) :
    ∃ es, enum_check t c (.jobj ckvs) errs = .ok es := by
  unfold enum_check
  refine bind_exists_ok (show pyContainsS "values" (.jobj ckvs) =
    .ok (ckvs.any (fun p => p.1 == "values")) from rfl) ?_
  split
  · exact ⟨_, rfl⟩
  · rename_i hnv
    have hany : ckvs.any (fun p => p.1 == "values") = true := by
      cases hx : ckvs.any (fun p => p.1 == "values") with
      | true => rfl
      | false => rw [hx] at hnv; exact absurd rfl hnv
    obtain ⟨vv, hvv⟩ := any_objLookup_some hany
    refine bind_exists_ok (pyGetItemS_of_lookup hvv) ?_
    cases vv with
    | jarr xs =>
        show ∃ b, (if (xs.length == 0) = true then
            (pure (errs ++ [msgEnumNonEmpty t c]) : Except String (List String))
          else pure errs) = .ok b
        cases hx : (xs.length == 0) <;> exact ⟨_, rfl⟩
    | jnull => exact ⟨_, rfl⟩
    | jbool b => exact ⟨_, rfl⟩
    | jint n => exact ⟨_, rfl⟩
    | jstr s => exact ⟨_, rfl⟩
    | jobj o => exact ⟨_, rfl⟩

theorem objLookup_mem {kvs : List (String × JVal)} {k : String} {v : JVal}
    (h : objLookup kvs k = some v) : ∃ p, p ∈ kvs ∧ p.2 = v := by
  unfold objLookup at h
  cases hf : kvs.find? (fun p => p.1 == k) with
  | none => rw [hf] at h; exact absurd h (by simp)
  | some p =>
      rw [hf] at h
      refine ⟨p, List.mem_of_find?_eq_some hf, ?_⟩
      simpa using h

theorem wfFK_table {fkvs : List (String × JVal)} (hwf : wfFK (.jobj fkvs) = true) :
    ∃ X, objLookup fkvs "table" = some (.jstr X) := by
  simp only [wfFK, Bool.and_eq_true] at hwf
  have h := hwf.1.1.1
  cases ht : objLookup fkvs "table" with
  | none => rw [ht] at h; simp at h
  | some tv =>
      rw [ht] at h
      cases tv with
      | jstr X => exact ⟨X, rfl⟩
      | jnull => simp at h
      | jbool b => simp at h
      | jint n => simp at h
      | jarr xs => simp at h
      | jobj o => simp at h

theorem wfFK_column {fkvs : List (String × JVal)} (hwf : wfFK (.jobj fkvs) = true)
    {v : JVal} (h : objLookup fkvs "column" = some v) : pyHashable v = true := by
  simp only [wfFK, Bool.and_eq_true] at hwf
  have h2 := hwf.1.1.2
  rw [h] at h2
  exact h2

theorem wfFK_od {fkvs : List (String × JVal)} (hwf : wfFK (.jobj fkvs) = true)
    {v : JVal} (h : objLookup fkvs "on_delete" = some v) : pyHashable v = true := by
  simp only [wfFK, Bool.and_eq_true] at hwf
  have h2 := hwf.1.2
  rw [h] at h2
  exact h2

theorem wfFK_ou {fkvs : List (String × JVal)} (hwf : wfFK (.jobj fkvs) = true)
    {v : JVal} (h : objLookup fkvs "on_update" = some v) : pyHashable v = true := by
  simp only [wfFK, Bool.and_eq_true] at hwf
  have h2 := hwf.2
  rw [h] at h2
  exact h2

theorem wfTable_obj {v : JVal} (hwf : wfTable v = true) :
    ∃ kvs, v = .jobj kvs := by
  cases v with
  | jobj kvs => exact ⟨kvs, rfl⟩
  | jnull => simp [wfTable] at hwf
  | jbool b => simp [wfTable] at hwf
  | jint n => simp [wfTable] at hwf
  | jstr s => simp [wfTable] at hwf
  | jarr xs => simp [wfTable] at hwf

theorem wfTable_columns_getD {tkvs : List (String × JVal)}
    (hwf : wfTable (.jobj tkvs) = true) :
    ∃ ckvs, (objLookup tkvs "columns").getD (.jobj []) = .jobj ckvs ∧
      ∀ p, p ∈ ckvs → wfColumn p.2 = true := by
  simp only [wfTable, Bool.and_eq_true] at hwf
  have h := hwf.1
  cases hc : objLookup tkvs "columns" with
  | none => exact ⟨[], rfl, by intro p hp; exact absurd hp (List.not_mem_nil _)⟩
  | some cv =>
      rw [hc] at h
      cases cv with
      | jobj ckvs =>
          refine ⟨ckvs, rfl, ?_⟩
          intro p hp
          have := List.all_eq_true.mp h p hp
          simpa using this
      | jnull => simp at h
      | jbool b => simp at h
      | jint n => simp at h
      | jstr s => simp at h
      | jarr xs => simp at h

theorem wfColumn_obj {v : JVal} (hwf : wfColumn v = true) :
    ∃ kvs, v = .jobj kvs := by
  cases v with
  | jobj kvs => exact ⟨kvs, rfl⟩
  | jnull => simp [wfColumn] at hwf
  | jbool b => simp [wfColumn] at hwf
  | jint n => simp [wfColumn] at hwf
  | jstr s => simp [wfColumn] at hwf
  | jarr xs => simp [wfColumn] at hwf

theorem wfColumn_fk {ckvs : List (String × JVal)}
    (hwf : wfColumn (.jobj ckvs) = true) {fk : JVal}
    (h : objLookup ckvs "foreign_key" = some fk) : wfFK fk = true := by
  simp only [wfColumn, Bool.and_eq_true] at hwf
  have h2 := hwf.2
  rw [h] at h2
  exact h2

theorem wfColumn_type {ckvs : List (String × JVal)}
    (hwf : wfColumn (.jobj ckvs) = true) {tv : JVal}
    (h : objLookup ckvs "type" = some tv) : ∃ s, tv = .jstr s := by
  simp only [wfColumn, Bool.and_eq_true] at hwf
  have h2 := hwf.1.1
  rw [h] at h2
  cases tv with
  | jstr s => exact ⟨s, rfl⟩
  | jnull => simp at h2
  | jbool b => simp at h2
  | jint n => simp at h2
  | jarr xs => simp at h2
  | jobj o => simp at h2

theorem validate_foreign_key_total (t c : String) {fkvs tkvs : List (String × JVal)}
    (hwf : wfFK (.jobj fkvs) = true)
    (hwt : ∀ p, p ∈ tkvs → wfTable p.2 = true) :
    ∃ es, validate_foreign_key t c (.jobj fkvs) (.jobj tkvs) = .ok es := by
  unfold validate_foreign_key
  obtain ⟨X, htab⟩ := wfFK_table hwf
  have htany : fkvs.any (fun p => p.1 == "table") = true := objLookup_some_any htab
  refine bind_exists_ok (show pyContainsS "table" (.jobj fkvs) =
    .ok (fkvs.any (fun p => p.1 == "table")) from rfl) ?_
  rw [htany, if_neg (by decide)]
  refine bind_exists_ok (show (pure PUnit.unit : Except String PUnit) =
    .ok PUnit.unit from rfl) ?_
  refine bind_exists_ok (show pyContainsS "column" (.jobj fkvs) =
    .ok (fkvs.any (fun p => p.1 == "column")) from rfl) ?_
  cases hcany : fkvs.any (fun p => p.1 == "column") with
  | false => rw [if_pos (by decide)]; exact ⟨_, rfl⟩
  | true =>
      rw [if_neg (by decide)]
      refine bind_exists_ok (show (pure PUnit.unit : Except String PUnit) =
        .ok PUnit.unit from rfl) ?_
      obtain ⟨cv, hcol⟩ := any_objLookup_some hcany
      refine bind_exists_ok (pyGetItemS_of_lookup htab) ?_
      refine bind_exists_ok (pyGetItemS_of_lookup hcol) ?_
      refine bind_exists_ok (show pyContainsV (.jstr X) (.jobj tkvs) =
        .ok (tkvs.any (fun p => p.1 == X)) from rfl) ?_
      cases hmem : tkvs.any (fun p => p.1 == X) with
      | false => rw [if_pos (by decide)]; exact ⟨_, rfl⟩
      | true =>
          rw [if_neg (by decide)]
          refine bind_exists_ok (show (pure PUnit.unit : Except String PUnit) =
            .ok PUnit.unit from rfl) ?_
          obtain ⟨tv, htv⟩ := any_objLookup_some hmem
          refine bind_exists_ok (pyGetItemV_of_lookup htv) ?_
          obtain ⟨p0, hp0mem, hp0v⟩ := objLookup_mem htv
          have hwtv : wfTable tv = true := by rw [← hp0v]; exact hwt p0 hp0mem
          obtain ⟨ttkvs, httv⟩ := wfTable_obj hwtv
          subst httv
          refine bind_exists_ok (show pyGet (.jobj ttkvs) "columns" (.jobj []) =
            .ok ((objLookup ttkvs "columns").getD (.jobj [])) from rfl) ?_
          obtain ⟨colskvs, hcols, -⟩ := wfTable_columns_getD hwtv
          rw [hcols]
          obtain ⟨memC, hmemC⟩ := @pyContainsV_obj_total _ colskvs
            (wfFK_column hwf hcol)
          refine bind_exists_ok hmemC ?_
          refine bind_exists_ok (show pyContainsS "on_delete" (.jobj fkvs) =
            .ok (fkvs.any (fun p => p.1 == "on_delete")) from rfl) ?_
          cases hod : fkvs.any (fun p => p.1 == "on_delete") with
          | true =>
              rw [if_pos rfl]
              obtain ⟨av, hav⟩ := any_objLookup_some hod
              refine bind_exists_ok (pyGetItemS_of_lookup hav) ?_
              obtain ⟨mb, hmb⟩ := pyInStrSet_total valid_actions (wfFK_od hwf hav)
              refine bind_exists_ok hmb ?_
              refine bind_exists_ok (show (pure (if !mb then
                  (if !memC then [msgFkColumnNotExist t c (pyStr (.jstr X)) (pyStr cv)]
                   else []) ++ [msgFkInvalidOnDelete t c (pyStr av)]
                else (if !memC then [msgFkColumnNotExist t c (pyStr (.jstr X)) (pyStr cv)]
                   else [])) : Except String (List String)) = .ok _ from rfl) ?_
              refine bind_exists_ok (show pyContainsS "on_update" (.jobj fkvs) =
                .ok (fkvs.any (fun p => p.1 == "on_update")) from rfl) ?_
              cases hou : fkvs.any (fun p => p.1 == "on_update") with
              | true =>
                  rw [if_pos rfl]
                  obtain ⟨av2, hav2⟩ := any_objLookup_some hou
                  refine bind_exists_ok (pyGetItemS_of_lookup hav2) ?_
                  obtain ⟨mb2, hmb2⟩ := pyInStrSet_total valid_actions (wfFK_ou hwf hav2)
                  refine bind_exists_ok hmb2 ?_
                  exact ⟨_, rfl⟩
              | false =>
                  rw [if_neg (by decide)]
                  exact ⟨_, rfl⟩
          | false =>
              rw [if_neg (by decide)]
              refine bind_exists_ok (show (pure (if !memC then
                  [msgFkColumnNotExist t c (pyStr (.jstr X)) (pyStr cv)] else []) :
                  Except String (List String)) = .ok _ from rfl) ?_
              refine bind_exists_ok (show pyContainsS "on_update" (.jobj fkvs) =
                .ok (fkvs.any (fun p => p.1 == "on_update")) from rfl) ?_
              cases hou : fkvs.any (fun p => p.1 == "on_update") with
              | true =>
                  rw [if_pos rfl]
                  obtain ⟨av2, hav2⟩ := any_objLookup_some hou
                  refine bind_exists_ok (pyGetItemS_of_lookup hav2) ?_
                  obtain ⟨mb2, hmb2⟩ := pyInStrSet_total valid_actions (wfFK_ou hwf hav2)
                  refine bind_exists_ok hmb2 ?_
                  exact ⟨_, rfl⟩
              | false =>
                  rw [if_neg (by decide)]
                  exact ⟨_, rfl⟩

theorem fk_check_total (t c : String) {ckvs tkvs : List (String × JVal)}
    {fk : JVal} (errs : List String)
    (hfk : objLookup ckvs "foreign_key" = some fk)
    (hwfk : wfFK fk = true)
    (hwt : ∀ p, p ∈ tkvs → wfTable p.2 = true) :
    ∃ es, fk_check t c (.jobj ckvs) (.jobj tkvs) errs = .ok es := by
  unfold fk_check
  refine bind_exists_ok (pyGetItemS_of_lookup hfk) ?_
  obtain ⟨fkvs, hfkv⟩ : ∃ kvs, fk = .jobj kvs := by
    cases fk with
    | jobj kvs => exact ⟨kvs, rfl⟩
    | jnull => simp [wfFK] at hwfk
    | jbool b => simp [wfFK] at hwfk
    | jint n => simp [wfFK] at hwfk
    | jstr s => simp [wfFK] at hwfk
    | jarr xs => simp [wfFK] at hwfk
  subst hfkv
  obtain ⟨es, hes⟩ := validate_foreign_key_total t c hwfk hwt
  refine bind_exists_ok hes ?_
  exact ⟨_, rfl⟩

theorem validate_column_total (t c : String) {ckvs tkvs : List (String × JVal)}
    (hwf : wfColumn (.jobj ckvs) = true)
    (hwt : ∀ p, p ∈ tkvs → wfTable p.2 = true) :
    ∃ r, validate_column t c (.jobj ckvs) (.jobj tkvs) = .ok r := by
  unfold validate_column
  refine bind_exists_ok (show pyContainsS "type" (.jobj ckvs) =
    .ok (ckvs.any (fun p => p.1 == "type")) from rfl) ?_
  cases hty : ckvs.any (fun p => p.1 == "type") with
  | false => rw [if_pos (by decide)]; exact ⟨_, rfl⟩
  | true =>
      rw [if_neg (by decide)]
      refine bind_exists_ok (show (pure PUnit.unit : Except String PUnit) =
        .ok PUnit.unit from rfl) ?_
      obtain ⟨tv, htv⟩ := any_objLookup_some hty
      refine bind_exists_ok (pyGetItemS_of_lookup htv) ?_
      obtain ⟨s, hs⟩ := wfColumn_type hwf htv
      subst hs
      refine bind_exists_ok (show asStr (.jstr s) = .ok s from rfl) ?_
      simp only []
      cases he : (s == "ENUM") with
      | true =>
          rw [if_pos rfl]
          obtain ⟨es1, hes1⟩ := enum_check_total t c ckvs
            (if !(valid_types.any fun t1 => t1 == strBefore s '(') then
              [msgInvalidType t c s] else [])
          refine bind_exists_ok hes1 ?_
          refine bind_exists_ok (show pyContainsS "foreign_key" (.jobj ckvs) =
            .ok (ckvs.any (fun p => p.1 == "foreign_key")) from rfl) ?_
          cases hfka : ckvs.any (fun p => p.1 == "foreign_key") with
          | true =>
              rw [if_pos rfl]
              obtain ⟨fk, hfk⟩ := any_objLookup_some hfka
              obtain ⟨es2, hes2⟩ := fk_check_total t c es1 hfk (wfColumn_fk hwf hfk) hwt
              refine bind_exists_ok hes2 ?_
              refine bind_exists_ok (show pyGet (.jobj ckvs) "primary_key" .jnull =
                .ok ((objLookup ckvs "primary_key").getD .jnull) from rfl) ?_
              refine bind_exists_ok (show pyGet (.jobj ckvs) "nullable" .jnull =
                .ok ((objLookup ckvs "nullable").getD .jnull) from rfl) ?_
              refine bind_exists_ok (show pyContainsS "default" (.jobj ckvs) =
                .ok (ckvs.any (fun p => p.1 == "default")) from rfl) ?_
              cases hdef : ckvs.any (fun p => p.1 == "default") with
              | true =>
                  rw [if_pos rfl]
                  obtain ⟨dv, hdv⟩ := any_objLookup_some hdef
                  obtain ⟨ws, hws⟩ := validate_default_value_total t c hwf htv hdv
                  refine bind_exists_ok hws ?_
                  exact ⟨_, rfl⟩
              | false =>
                  rw [if_neg (by decide)]
                  exact ⟨_, rfl⟩
          | false =>
              rw [if_neg (by decide)]
              refine bind_exists_ok (show (pure es1 : Except String (List String)) =
                .ok es1 from rfl) ?_
              refine bind_exists_ok (show pyGet (.jobj ckvs) "primary_key" .jnull =
                .ok ((objLookup ckvs "primary_key").getD .jnull) from rfl) ?_
              refine bind_exists_ok (show pyGet (.jobj ckvs) "nullable" .jnull =
                .ok ((objLookup ckvs "nullable").getD .jnull) from rfl) ?_
              refine bind_exists_ok (show pyContainsS "default" (.jobj ckvs) =
                .ok (ckvs.any (fun p => p.1 == "default")) from rfl) ?_
              cases hdef : ckvs.any (fun p => p.1 == "default") with
              | true =>
                  rw [if_pos rfl]
                  obtain ⟨dv, hdv⟩ := any_objLookup_some hdef
                  obtain ⟨ws, hws⟩ := validate_default_value_total t c hwf htv hdv
                  refine bind_exists_ok hws ?_
                  exact ⟨_, rfl⟩
              | false =>
                  rw [if_neg (by decide)]
                  exact ⟨_, rfl⟩
      | false =>
          rw [if_neg (by decide)]
          refine bind_exists_ok (show (pure (if !(valid_types.any fun t1 =>
              t1 == strBefore s '(') then [msgInvalidType t c s] else []) :
              Except String (List String)) = .ok _ from rfl) ?_
          refine bind_exists_ok (show pyContainsS "foreign_key" (.jobj ckvs) =
            .ok (ckvs.any (fun p => p.1 == "foreign_key")) from rfl) ?_
          cases hfka : ckvs.any (fun p => p.1 == "foreign_key") with
          | true =>
              rw [if_pos rfl]
              obtain ⟨fk, hfk⟩ := any_objLookup_some hfka
              obtain ⟨es2, hes2⟩ := fk_check_total t c
                (if !(valid_types.any fun t1 => t1 == strBefore s '(') then
                  [msgInvalidType t c s] else []) hfk (wfColumn_fk hwf hfk) hwt
              refine bind_exists_ok hes2 ?_
              refine bind_exists_ok (show pyGet (.jobj ckvs) "primary_key" .jnull =
                .ok ((objLookup ckvs "primary_key").getD .jnull) from rfl) ?_
              refine bind_exists_ok (show pyGet (.jobj ckvs) "nullable" .jnull =
                .ok ((objLookup ckvs "nullable").getD .jnull) from rfl) ?_
              refine bind_exists_ok (show pyContainsS "default" (.jobj ckvs) =
                .ok (ckvs.any (fun p => p.1 == "default")) from rfl) ?_
              cases hdef : ckvs.any (fun p => p.1 == "default") with
              | true =>
                  rw [if_pos rfl]
                  obtain ⟨dv, hdv⟩ := any_objLookup_some hdef
                  obtain ⟨ws, hws⟩ := validate_default_value_total t c hwf htv hdv
                  refine bind_exists_ok hws ?_
                  exact ⟨_, rfl⟩
              | false =>
                  rw [if_neg (by decide)]
                  exact ⟨_, rfl⟩
          | false =>
              rw [if_neg (by decide)]
              refine bind_exists_ok (show (pure (if !(valid_types.any fun t1 =>
                  t1 == strBefore s '(') then [msgInvalidType t c s] else []) :
                  Except String (List String)) = .ok _ from rfl) ?_
              refine bind_exists_ok (show pyGet (.jobj ckvs) "primary_key" .jnull =
                .ok ((objLookup ckvs "primary_key").getD .jnull) from rfl) ?_
              refine bind_exists_ok (show pyGet (.jobj ckvs) "nullable" .jnull =
                .ok ((objLookup ckvs "nullable").getD .jnull) from rfl) ?_
              refine bind_exists_ok (show pyContainsS "default" (.jobj ckvs) =
                .ok (ckvs.any (fun p => p.1 == "default")) from rfl) ?_
              cases hdef : ckvs.any (fun p => p.1 == "default") with
              | true =>
                  rw [if_pos rfl]
                  obtain ⟨dv, hdv⟩ := any_objLookup_some hdef
                  obtain ⟨ws, hws⟩ := validate_default_value_total t c hwf htv hdv
                  refine bind_exists_ok hws ?_
                  exact ⟨_, rfl⟩
              | false =>
                  rw [if_neg (by decide)]
                  exact ⟨_, rfl⟩

theorem validate_columns_loop_total (t : String) {tkvs : List (String × JVal)}
    (hwt : ∀ p, p ∈ tkvs → wfTable p.2 = true) :
    ∀ (cols : List (String × JVal)) (errs warns : List String) (pkc : Nat),
    (∀ p, p ∈ cols → wfColumn p.2 = true) →
    ∃ r, validate_columns_loop t cols (.jobj tkvs) errs warns pkc = .ok r := by
  intro cols
  induction cols with
  | nil => intro errs warns pkc hwc; exact ⟨_, rfl⟩
  | cons p rest ih =>
      obtain ⟨cn, ci⟩ := p
      intro errs warns pkc hwc
      have hwci : wfColumn ci = true := hwc (cn, ci) (List.mem_cons_self _ _)
      obtain ⟨ckvs, hckvs⟩ := wfColumn_obj hwci
      subst hckvs
      unfold validate_columns_loop
      obtain ⟨⟨ce, cw⟩, hcv⟩ := validate_column_total t cn hwci hwt
      refine bind_exists_ok hcv ?_
      refine bind_exists_ok (show pyGet (.jobj ckvs) "primary_key" .jnull =
        .ok ((objLookup ckvs "primary_key").getD .jnull) from rfl) ?_
      exact ih _ _ _ (fun q hq => hwc q (List.mem_cons_of_mem _ hq))

theorem wfIndex_obj {v : JVal} (hwf : wfIndex v = true) :
    ∃ kvs, v = .jobj kvs := by
  cases v with
  | jobj kvs => exact ⟨kvs, rfl⟩
  | jnull => simp [wfIndex] at hwf
  | jbool b => simp [wfIndex] at hwf
  | jint n => simp [wfIndex] at hwf
  | jstr s => simp [wfIndex] at hwf
  | jarr xs => simp [wfIndex] at hwf

theorem wfIndex_name {ikvs : List (String × JVal)}
    (hwf : wfIndex (.jobj ikvs) = true) {v : JVal}
    (h : objLookup ikvs "name" = some v) : pyHashable v = true := by
  simp only [wfIndex, Bool.and_eq_true] at hwf
  have h2 := hwf.1
  rw [h] at h2
  exact h2

theorem wfIndex_columns {ikvs : List (String × JVal)}
    (hwf : wfIndex (.jobj ikvs) = true) {v : JVal}
    (h : objLookup ikvs "columns" = some v) :
    ∃ xs, v = .jarr xs ∧ ∀ x, x ∈ xs → pyHashable x = true := by
  simp only [wfIndex, Bool.and_eq_true] at hwf
  have h2 := hwf.2
  rw [h] at h2
  cases v with
  | jarr xs =>
      refine ⟨xs, rfl, ?_⟩
      intro x hx
      exact List.all_eq_true.mp h2 x hx
  | jnull => simp at h2
  | jbool b => simp at h2
  | jint n => simp at h2
  | jstr s => simp at h2
  | jobj o => simp at h2

theorem index_columns_loop_total (t idx : String) {ckvs : List (String × JVal)} :
    ∀ (cols : List JVal) (acc : List String),
    (∀ x, x ∈ cols → pyHashable x = true) →
    ∃ es, index_columns_loop t idx cols (.jobj ckvs) acc = .ok es := by
  intro cols
  induction cols with
  | nil => intro acc hh; exact ⟨_, rfl⟩
  | cons x rest ih =>
      intro acc hh
      unfold index_columns_loop
      obtain ⟨b, hb⟩ := @pyContainsV_obj_total _ ckvs
        (hh x (List.mem_cons_self _ _))
      refine bind_exists_ok hb ?_
      exact ih _ (fun y hy => hh y (List.mem_cons_of_mem _ hy))

theorem validate_indexes_loop_total (t : String) {ckvs : List (String × JVal)} :
    ∀ (idxs : List JVal) (indexNames : List JVal) (acc : List String),
    (∀ i, i ∈ idxs → wfIndex i = true) →
    ∃ es, validate_indexes_loop t idxs (.jobj ckvs) indexNames acc = .ok es := by
  intro idxs
  induction idxs with
  | nil => intro indexNames acc hwi; exact ⟨_, rfl⟩
  | cons index rest ih =>
      intro indexNames acc hwi
      have hwix : wfIndex index = true := hwi index (List.mem_cons_self _ _)
      obtain ⟨ikvs, hik⟩ := wfIndex_obj hwix
      subst hik
      unfold validate_indexes_loop
      refine bind_exists_ok (show pyContainsS "name" (.jobj ikvs) =
        .ok (ikvs.any (fun p => p.1 == "name")) from rfl) ?_
      cases hn : ikvs.any (fun p => p.1 == "name") with
      | false =>
          rw [if_pos (by decide)]
          exact ih _ _ (fun i hi => hwi i (List.mem_cons_of_mem _ hi))
      | true =>
          rw [if_neg (by decide)]
          refine bind_exists_ok (show pyContainsS "columns" (.jobj ikvs) =
            .ok (ikvs.any (fun p => p.1 == "columns")) from rfl) ?_
          obtain ⟨nv, hnv⟩ := any_objLookup_some hn
          cases hcA : ikvs.any (fun p => p.1 == "columns") with
          | false =>
              rw [if_pos (by decide)]
              refine bind_exists_ok (pyGetItemS_of_lookup hnv) ?_
              exact ih _ _ (fun i hi => hwi i (List.mem_cons_of_mem _ hi))
          | true =>
              rw [if_neg (by decide)]
              refine bind_exists_ok (pyGetItemS_of_lookup hnv) ?_
              rw [wfIndex_name hwix hnv]
              rw [if_neg (by decide)]
              obtain ⟨cv, hcv⟩ := any_objLookup_some hcA
              refine bind_exists_ok (pyGetItemS_of_lookup hcv) ?_
              obtain ⟨xs, hxs, hxh⟩ := wfIndex_columns hwix hcv
              subst hxs
              refine bind_exists_ok (show pyIter (.jarr xs) = .ok xs from rfl) ?_
              obtain ⟨es1, hes1⟩ := @index_columns_loop_total t
                (pyStr nv) ckvs xs _ hxh
              refine bind_exists_ok hes1 ?_
              exact ih _ _ (fun i hi => hwi i (List.mem_cons_of_mem _ hi))

theorem validate_indexes_total (t : String) {ckvs : List (String × JVal)}
    {xs : List JVal} (hwi : ∀ i, i ∈ xs → wfIndex i = true) :
    ∃ es, validate_indexes t (.jarr xs) (.jobj ckvs) = .ok es := by
  unfold validate_indexes
  refine bind_exists_ok (show pyIter (.jarr xs) = .ok xs from rfl) ?_
  exact validate_indexes_loop_total t xs [] [] hwi

theorem wfTable_indexes {tkvs : List (String × JVal)}
    (hwf : wfTable (.jobj tkvs) = true) {v : JVal}
    (h : objLookup tkvs "indexes" = some v) :
    ∃ xs, v = .jarr xs ∧ ∀ i, i ∈ xs → wfIndex i = true := by
  simp only [wfTable, Bool.and_eq_true] at hwf
  have h2 := hwf.2
  rw [h] at h2
  cases v with
  | jarr xs =>
      refine ⟨xs, rfl, ?_⟩
      intro i hi
      exact List.all_eq_true.mp h2 i hi
  | jnull => simp at h2
  | jbool b => simp at h2
  | jint n => simp at h2
  | jstr s => simp at h2
  | jobj o => simp at h2

theorem wfTable_columns_some {tkvs : List (String × JVal)}
    (hwf : wfTable (.jobj tkvs) = true) {v : JVal}
    (h : objLookup tkvs "columns" = some v) :
    ∃ ckvs, v = .jobj ckvs ∧ ∀ p, p ∈ ckvs → wfColumn p.2 = true := by
  obtain ⟨ckvs, hg, hwc⟩ := wfTable_columns_getD hwf
  rw [h] at hg
  simp only [Option.getD_some] at hg
  exact ⟨ckvs, hg, hwc⟩

theorem validate_table_total (t : String) {ttkvs tkvs : List (String × JVal)}
    (hwf : wfTable (.jobj ttkvs) = true)
    (hwt : ∀ p, p ∈ tkvs → wfTable p.2 = true) :
    ∃ r, validate_table t (.jobj ttkvs) (.jobj tkvs) = .ok r := by
  unfold validate_table
  refine bind_exists_ok (show pyContainsS "columns" (.jobj ttkvs) =
    .ok (ttkvs.any (fun p => p.1 == "columns")) from rfl) ?_
  cases hc : ttkvs.any (fun p => p.1 == "columns") with
  | false => rw [if_pos (by decide)]; exact ⟨_, rfl⟩
  | true =>
      rw [if_neg (by decide)]
      refine bind_exists_ok (show (pure PUnit.unit : Except String PUnit) =
        .ok PUnit.unit from rfl) ?_
      obtain ⟨cv, hcv⟩ := any_objLookup_some hc
      refine bind_exists_ok (pyGetItemS_of_lookup hcv) ?_
      obtain ⟨colskvs, hck, hwc⟩ := wfTable_columns_some hwf hcv
      subst hck
      cases hpt : pyTruthy (.jobj colskvs) with
      | false => rw [if_pos (by decide)]; exact ⟨_, rfl⟩
      | true =>
          rw [if_neg (by decide)]
          refine bind_exists_ok (show (pure PUnit.unit : Except String PUnit) =
            .ok PUnit.unit from rfl) ?_
          refine bind_exists_ok (show asObj (.jobj colskvs) = .ok colskvs from rfl) ?_
          obtain ⟨⟨errs0, warns0, pkc⟩, hloop⟩ :=
            validate_columns_loop_total t hwt colskvs [] [] 0 hwc
          refine bind_exists_ok hloop ?_
          simp only []
          refine bind_exists_ok (show pyContainsS "indexes" (.jobj ttkvs) =
            .ok (ttkvs.any (fun p => p.1 == "indexes")) from rfl) ?_
          cases hix : ttkvs.any (fun p => p.1 == "indexes") with
          | false =>
              rw [if_neg (by decide)]
              refine bind_exists_ok (show (pure (if pkc > 1 then
                  errs0 ++ [msgMultiplePrimaryKeys t] else errs0) :
                  Except String (List String)) = .ok _ from rfl) ?_
              exact ⟨_, rfl⟩
          | true =>
              rw [if_pos rfl]
              obtain ⟨iv, hiv⟩ := any_objLookup_some hix
              refine bind_exists_ok (pyGetItemS_of_lookup hiv) ?_
              obtain ⟨ixs, hixv, hwi⟩ := wfTable_indexes hwf hiv
              subst hixv
              obtain ⟨ies, hies⟩ := @validate_indexes_total t colskvs _ hwi
              refine bind_exists_ok hies ?_
              refine bind_exists_ok (show (pure ((if pkc > 1 then
                  errs0 ++ [msgMultiplePrimaryKeys t] else errs0) ++ ies) :
                  Except String (List String)) = .ok _ from rfl) ?_
              exact ⟨_, rfl⟩

theorem validate_tables_loop_total {tkvs : List (String × JVal)}
    (hwt : ∀ p, p ∈ tkvs → wfTable p.2 = true) :
    ∀ (entries : List (String × JVal)) (errs warns : List String),
    (∀ p, p ∈ entries → wfTable p.2 = true) →
    ∃ r, validate_tables_loop entries (.jobj tkvs) errs warns = .ok r := by
  intro entries
  induction entries with
  | nil => intro errs warns hwe; exact ⟨_, rfl⟩
  | cons p rest ih =>
      obtain ⟨tn, ti⟩ := p
      intro errs warns hwe
      have hwti : wfTable ti = true := hwe (tn, ti) (List.mem_cons_self _ _)
      obtain ⟨ttkvs, hti⟩ := wfTable_obj hwti
      subst hti
      unfold validate_tables_loop
      obtain ⟨⟨te, tw⟩, htv⟩ := validate_table_total tn hwti hwt
      refine bind_exists_ok htv ?_
      exact ih _ _ (fun q hq => hwe q (List.mem_cons_of_mem _ hq))

theorem wfRel_from {rkvs : List (String × JVal)}
    (hwf : wfRelationship (.jobj rkvs) = true) {v : JVal}
    (h : objLookup rkvs "from" = some v) : ∃ s, v = .jstr s := by
  simp only [wfRelationship, Bool.and_eq_true] at hwf
  have h2 := hwf.1
  rw [h] at h2
  cases v with
  | jstr s => exact ⟨s, rfl⟩
  | jnull => simp at h2
  | jbool b => simp at h2
  | jint n => simp at h2
  | jarr xs => simp at h2
  | jobj o => simp at h2

theorem wfRel_to {rkvs : List (String × JVal)}
    (hwf : wfRelationship (.jobj rkvs) = true) {v : JVal}
    (h : objLookup rkvs "to" = some v) : ∃ s, v = .jstr s := by
  simp only [wfRelationship, Bool.and_eq_true] at hwf
  have h2 := hwf.2
  rw [h] at h2
  cases v with
  | jstr s => exact ⟨s, rfl⟩
  | jnull => simp at h2
  | jbool b => simp at h2
  | jint n => simp at h2
  | jarr xs => simp at h2
  | jobj o => simp at h2

theorem wfRel_obj {v : JVal} (hwf : wfRelationship v = true) :
    ∃ kvs, v = .jobj kvs := by
  cases v with
  | jobj kvs => exact ⟨kvs, rfl⟩
  | jnull => simp [wfRelationship] at hwf
  | jbool b => simp [wfRelationship] at hwf
  | jint n => simp [wfRelationship] at hwf
  | jstr s => simp [wfRelationship] at hwf
  | jarr xs => simp [wfRelationship] at hwf

theorem validate_relationships_loop_total {tkvs : List (String × JVal)}
    (hwt : ∀ p, p ∈ tkvs → wfTable p.2 = true) :
    ∀ (rels : List JVal) (acc : List String),
    (∀ r, r ∈ rels → wfRelationship r = true) →
    ∃ es, validate_relationships_loop rels (.jobj tkvs) acc = .ok es := by
  have hfromwalk : ∀ (tb col : String) (acc2 : List String)
      (k : List String → Except String (List String)),
      tkvs.any (fun p => p.1 == tb) = true →
      (∀ a3, ∃ b, k a3 = .ok b) →
      ∃ b, (do
        let tv ← pyGetItemS (.jobj tkvs) tb
        let cols ← pyGet tv "columns" (.jobj [])
        let memC ← pyContainsS col cols
        let y ← pure (if !memC then acc2 ++ [msgRelColumn tb col] else acc2)
        k y : Except String (List String)) = .ok b := by
    intro tb col acc2 k hmem hk
    obtain ⟨tv, htv⟩ := any_objLookup_some hmem
    refine bind_exists_ok (pyGetItemS_of_lookup htv) ?_
    obtain ⟨p0, hp0mem, hp0v⟩ := objLookup_mem htv
    have hwtv : wfTable tv = true := by rw [← hp0v]; exact hwt p0 hp0mem
    obtain ⟨ttkvs, httv⟩ := wfTable_obj hwtv
    subst httv
    refine bind_exists_ok (show pyGet (.jobj ttkvs) "columns" (.jobj []) =
      .ok ((objLookup ttkvs "columns").getD (.jobj [])) from rfl) ?_
    obtain ⟨colskvs, hcols, -⟩ := wfTable_columns_getD hwtv
    rw [hcols]
    refine bind_exists_ok (show pyContainsS col (.jobj colskvs) =
      .ok (colskvs.any (fun p => p.1 == col)) from rfl) ?_
    refine bind_exists_ok (show (pure (if !(colskvs.any (fun p => p.1 == col)) then
        acc2 ++ [msgRelColumn tb col] else acc2) :
        Except String (List String)) = .ok _ from rfl) ?_
    exact hk _
  intro rels
  induction rels with
  | nil => intro acc hwr; exact ⟨_, rfl⟩
  | cons rel rest ih =>
      intro acc hwr
      have hwrr : wfRelationship rel = true := hwr rel (List.mem_cons_self _ _)
      obtain ⟨rkvs, hrk⟩ := wfRel_obj hwrr
      subst hrk
      have ihr := fun acc2 => ih acc2 (fun r hr => hwr r (List.mem_cons_of_mem _ hr))
      unfold validate_relationships_loop
      refine bind_exists_ok (show pyContainsS "from" (.jobj rkvs) =
        .ok (rkvs.any (fun p => p.1 == "from")) from rfl) ?_
      cases hF : rkvs.any (fun p => p.1 == "from") with
      | false =>
          rw [if_neg (by decide)]
          refine bind_exists_ok (show (pure false : Except String Bool) =
            .ok false from rfl) ?_
          simp only []
          rw [show ((!false) || (!false)) = true from rfl, if_pos rfl]
          exact ihr _
      | true =>
          rw [if_pos rfl]
          refine bind_exists_ok (show pyContainsS "to" (.jobj rkvs) =
            .ok (rkvs.any (fun p => p.1 == "to")) from rfl) ?_
          cases hT : rkvs.any (fun p => p.1 == "to") with
          | false =>
              simp only []
              rw [show ((!true) || (!false)) = true from rfl, if_pos rfl]
              exact ihr _
          | true =>
              simp only []
              rw [show ((!true) || (!true)) = false from rfl, if_neg (by decide)]
              obtain ⟨fv, hfv⟩ := any_objLookup_some hF
              refine bind_exists_ok (pyGetItemS_of_lookup hfv) ?_
              obtain ⟨fs, hfs⟩ := wfRel_from hwrr hfv
              subst hfs
              refine bind_exists_ok (show asStr (.jstr fs) = .ok fs from rfl) ?_
              obtain ⟨tv, htv2⟩ := any_objLookup_some hT
              refine bind_exists_ok (pyGetItemS_of_lookup htv2) ?_
              obtain ⟨ts, hts⟩ := wfRel_to hwrr htv2
              subst hts
              refine bind_exists_ok (show asStr (.jstr ts) = .ok ts from rfl) ?_
              cases hfmt : ((strSplit fs '.').length != 2 ||
                  (strSplit ts '.').length != 2) with
              | true =>
                  rw [if_pos rfl]
                  refine bind_exists_ok (show pyGet (.jobj rkvs) "from" .jnull =
                    .ok ((objLookup rkvs "from").getD .jnull) from rfl) ?_
                  refine bind_exists_ok (show pyGet (.jobj rkvs) "to" .jnull =
                    .ok ((objLookup rkvs "to").getD .jnull) from rfl) ?_
                  exact ihr _
              | false =>
                  rw [if_neg (by decide)]
                  refine bind_exists_ok (show pyContainsS
                      ((strSplit fs '.').getD 0 "") (.jobj tkvs) =
                    .ok (tkvs.any (fun p =>
                      p.1 == (strSplit fs '.').getD 0 "")) from rfl) ?_
                  refine bind_exists_ok (show pyContainsS
                      ((strSplit ts '.').getD 0 "") (.jobj tkvs) =
                    .ok (tkvs.any (fun p =>
                      p.1 == (strSplit ts '.').getD 0 "")) from rfl) ?_
                  have hto : ∀ (acc3 : List String), ∃ b,
                      (if tkvs.any (fun p => p.1 == (strSplit ts '.').getD 0 "") then
                        (do
                          let tv ← pyGetItemS (.jobj tkvs) ((strSplit ts '.').getD 0 "")
                          let cols ← pyGet tv "columns" (.jobj [])
                          let memC ← pyContainsS ((strSplit ts '.').getD 1 "") cols
                          let y ← pure (if !memC then
                              acc3 ++ [msgRelColumn ((strSplit ts '.').getD 0 "")
                                ((strSplit ts '.').getD 1 "")]
                            else acc3)
                          validate_relationships_loop rest (.jobj tkvs) y)
                      else (do
                        let y ← pure acc3
                        validate_relationships_loop rest (.jobj tkvs) y)) = .ok b := by
                    intro acc3
                    cases hmT : tkvs.any (fun p =>
                        p.1 == (strSplit ts '.').getD 0 "") with
                    | true =>
                        rw [if_pos rfl]
                        exact hfromwalk _ _ acc3 _ hmT (fun a3 => ihr a3)
                    | false =>
                        rw [if_neg (by decide)]
                        refine bind_exists_ok (show (pure acc3 :
                          Except String (List String)) = .ok acc3 from rfl) ?_
                        exact ihr _
                  cases hmF : tkvs.any (fun p =>
                      p.1 == (strSplit fs '.').getD 0 "") with
                  | true =>
                      rw [if_pos rfl]
                      refine hfromwalk _ _ _ _ hmF ?_
                      intro a3
                      exact hto a3
                  | false =>
                      rw [if_neg (by decide)]
                      refine bind_exists_ok (show (pure _ :
                        Except String (List String)) = .ok _ from rfl) ?_
                      exact hto _

theorem validate_relationships_total {tkvs : List (String × JVal)}
    (hwt : ∀ p, p ∈ tkvs → wfTable p.2 = true) {xs : List JVal}
    (hwr : ∀ r, r ∈ xs → wfRelationship r = true) :
    ∃ r, validate_relationships (.jarr xs) (.jobj tkvs) = .ok r := by
  unfold validate_relationships
  refine bind_exists_ok (show pyIter (.jarr xs) = .ok xs from rfl) ?_
  obtain ⟨es, hes⟩ := validate_relationships_loop_total hwt xs [] hwr
  refine bind_exists_ok hes ?_
  exact ⟨_, rfl⟩

theorem seed_invalid_cols_total (t : String) (i : Nat)
    {tckvs : List (String × JVal)} :
    ∀ (ks : List (String × JVal)) (acc : List String),
    ∃ es, seed_record_checks.seed_invalid_cols t i ks (.jobj tckvs) acc = .ok es := by
  intro ks
  induction ks with
  | nil => intro acc; exact ⟨_, rfl⟩
  | cons p rest ih =>
      obtain ⟨k, v⟩ := p
      intro acc
      unfold seed_record_checks.seed_invalid_cols
      refine bind_exists_ok (show pyContainsS k (.jobj tckvs) =
        .ok (tckvs.any (fun q => q.1 == k)) from rfl) ?_
      exact ih _

theorem seed_missing_cols_total (t : String) (i : Nat)
    {rkvs : List (String × JVal)} :
    ∀ (cols : List (String × JVal)) (acc : List String),
    (∀ p, p ∈ cols → wfColumn p.2 = true) →
    ∃ es, seed_record_checks.seed_missing_cols t i cols (.jobj rkvs) acc = .ok es := by
  intro cols
  induction cols with
  | nil => intro acc hwc; exact ⟨_, rfl⟩
  | cons p rest ih =>
      obtain ⟨cn, ci⟩ := p
      intro acc hwc
      have hwci : wfColumn ci = true := hwc (cn, ci) (List.mem_cons_self _ _)
      obtain ⟨ckvs, hck⟩ := wfColumn_obj hwci
      subst hck
      unfold seed_record_checks.seed_missing_cols
      refine bind_exists_ok (show pyGet (.jobj ckvs) "nullable" .jnull =
        .ok ((objLookup ckvs "nullable").getD .jnull) from rfl) ?_
      refine bind_exists_ok (show pyContainsS "default" (.jobj ckvs) =
        .ok (ckvs.any (fun q => q.1 == "default")) from rfl) ?_
      refine bind_exists_ok (show pyGet (.jobj ckvs) "auto_increment" .jnull =
        .ok ((objLookup ckvs "auto_increment").getD .jnull) from rfl) ?_
      refine bind_exists_ok (show pyContainsS cn (.jobj rkvs) =
        .ok (rkvs.any (fun q => q.1 == cn)) from rfl) ?_
      exact ih _ (fun q hq => hwc q (List.mem_cons_of_mem _ hq))

theorem seed_record_checks_total (t : String) (i : Nat)
    {rkvs tckvs : List (String × JVal)}
    (hwc : ∀ p, p ∈ tckvs → wfColumn p.2 = true) (acc : List String) :
    ∃ es, seed_record_checks t i (.jobj rkvs) (.jobj tckvs) acc = .ok es := by
  unfold seed_record_checks
  refine bind_exists_ok (show asObj (.jobj rkvs) = .ok rkvs from rfl) ?_
  obtain ⟨es1, hes1⟩ := @seed_invalid_cols_total t i tckvs rkvs acc
  refine bind_exists_ok hes1 ?_
  refine bind_exists_ok (show asObj (.jobj tckvs) = .ok tckvs from rfl) ?_
  exact seed_missing_cols_total t i tckvs es1 hwc

theorem seed_records_loop_total (t : String) {tckvs : List (String × JVal)}
    (hwc : ∀ p, p ∈ tckvs → wfColumn p.2 = true) :
    ∀ (records : List JVal) (i : Nat) (acc : List String),
    ∃ es, seed_records_loop t i records (.jobj tckvs) acc = .ok es := by
  intro records
  induction records with
  | nil => intro i acc; exact ⟨_, rfl⟩
  | cons record rest ih =>
      intro i acc
      unfold seed_records_loop
      cases record with
      | jobj rkvs =>
          obtain ⟨es1, hes1⟩ := @seed_record_checks_total t i rkvs _ hwc acc
          refine bind_exists_ok hes1 ?_
          exact ih _ _
      | jnull => exact ih _ _
      | jbool b => exact ih _ _
      | jint n => exact ih _ _
      | jstr s => exact ih _ _
      | jarr xs => exact ih _ _

theorem validate_seed_data_loop_total {tkvs : List (String × JVal)}
    (hwt : ∀ p, p ∈ tkvs → wfTable p.2 = true) :
    ∀ (entries : List (String × JVal)) (acc : List String),
    (∀ p, p ∈ entries → ∃ rs, p.2 = JVal.jarr rs) →
    ∃ es, validate_seed_data_loop entries (.jobj tkvs) acc = .ok es := by
  intro entries
  induction entries with
  | nil => intro acc hse; exact ⟨_, rfl⟩
  | cons p rest ih =>
      obtain ⟨tn, records⟩ := p
      intro acc hse
      unfold validate_seed_data_loop
      refine bind_exists_ok (show pyContainsS tn (.jobj tkvs) =
        .ok (tkvs.any (fun q => q.1 == tn)) from rfl) ?_
      cases hm : tkvs.any (fun q => q.1 == tn) with
      | false =>
          rw [if_pos (by decide)]
          exact ih _ (fun q hq => hse q (List.mem_cons_of_mem _ hq))
      | true =>
          rw [if_neg (by decide)]
          obtain ⟨tv, htv⟩ := any_objLookup_some hm
          refine bind_exists_ok (pyGetItemS_of_lookup htv) ?_
          obtain ⟨p0, hp0mem, hp0v⟩ := objLookup_mem htv
          have hwtv : wfTable tv = true := by rw [← hp0v]; exact hwt p0 hp0mem
          obtain ⟨ttkvs, httv⟩ := wfTable_obj hwtv
          subst httv
          refine bind_exists_ok (show pyGet (.jobj ttkvs) "columns" (.jobj []) =
            .ok ((objLookup ttkvs "columns").getD (.jobj [])) from rfl) ?_
          obtain ⟨colskvs, hcols, hwcs⟩ := wfTable_columns_getD hwtv
          rw [hcols]
          obtain ⟨rs, hrs⟩ := hse (tn, records) (List.mem_cons_self _ _)
          simp only [] at hrs
          subst hrs
          refine bind_exists_ok (show pyIter (.jarr rs) = .ok rs from rfl) ?_
          obtain ⟨es1, hes1⟩ := seed_records_loop_total tn hwcs rs 0 acc
          refine bind_exists_ok hes1 ?_
          exact ih _ (fun q hq => hse q (List.mem_cons_of_mem _ hq))

theorem validate_seed_data_total {tkvs skvs : List (String × JVal)}
    (hwt : ∀ p, p ∈ tkvs → wfTable p.2 = true)
    (hse : ∀ p, p ∈ skvs → ∃ rs, p.2 = JVal.jarr rs) :
    ∃ es, validate_seed_data (.jobj skvs) (.jobj tkvs) = .ok es := by
  unfold validate_seed_data
  refine bind_exists_ok (show asObj (.jobj skvs) = .ok skvs from rfl) ?_
  exact validate_seed_data_loop_total hwt skvs [] hse

theorem wfFK_obj {v : JVal} (hwf : wfFK v = true) : ∃ kvs, v = .jobj kvs := by
  cases v with
  | jobj kvs => exact ⟨kvs, rfl⟩
  | jnull => simp [wfFK] at hwf
  | jbool b => simp [wfFK] at hwf
  | jint n => simp [wfFK] at hwf
  | jstr s => simp [wfFK] at hwf
  | jarr xs => simp [wfFK] at hwf

theorem build_deps_cols_total (t : String) :
    ∀ (cols : List (String × JVal)) (acc : List JVal),
    (∀ p, p ∈ cols → wfColumn p.2 = true) →
    ∃ s, build_deps_cols t cols acc = .ok s := by
  intro cols
  induction cols with
  | nil => intro acc hwc; exact ⟨_, rfl⟩
  | cons p rest ih =>
      obtain ⟨cn, ci⟩ := p
      intro acc hwc
      have hwci : wfColumn ci = true := hwc (cn, ci) (List.mem_cons_self _ _)
      obtain ⟨ckvs, hck⟩ := wfColumn_obj hwci
      subst hck
      unfold build_deps_cols
      refine bind_exists_ok (show pyContainsS "foreign_key" (.jobj ckvs) =
        .ok (ckvs.any (fun q => q.1 == "foreign_key")) from rfl) ?_
      cases hf : ckvs.any (fun q => q.1 == "foreign_key") with
      | false =>
          rw [if_neg (by decide)]
          exact ih _ (fun q hq => hwc q (List.mem_cons_of_mem _ hq))
      | true =>
          rw [if_pos rfl]
          obtain ⟨fk, hfk⟩ := any_objLookup_some hf
          refine bind_exists_ok (pyGetItemS_of_lookup hfk) ?_
          have hwfk : wfFK fk = true := wfColumn_fk hwci hfk
          obtain ⟨fkvs, hfkv⟩ := wfFK_obj hwfk
          subst hfkv
          obtain ⟨X, htab⟩ := wfFK_table hwfk
          refine bind_exists_ok (pyGetItemS_of_lookup htab) ?_
          cases he : pyEq (.jstr X) (.jstr t) with
          | true =>
              rw [if_neg (by decide)]
              exact ih _ (fun q hq => hwc q (List.mem_cons_of_mem _ hq))
          | false =>
              rw [if_pos (by decide)]
              rw [show pyHashable (JVal.jstr X) = true from rfl]
              rw [if_neg (by decide)]
              exact ih _ (fun q hq => hwc q (List.mem_cons_of_mem _ hq))

theorem build_deps_total :
    ∀ (entries : List (String × JVal)) (deps : List (String × List JVal)),
    (∀ p, p ∈ entries → wfTable p.2 = true) →
    ∃ d, build_deps entries deps = .ok d := by
  intro entries
  induction entries with
  | nil => intro deps hwe; exact ⟨_, rfl⟩
  | cons p rest ih =>
      obtain ⟨tn, ti⟩ := p
      intro deps hwe
      have hwti : wfTable ti = true := hwe (tn, ti) (List.mem_cons_self _ _)
      obtain ⟨ttkvs, hti⟩ := wfTable_obj hwti
      subst hti
      unfold build_deps
      refine bind_exists_ok (show pyGet (.jobj ttkvs) "columns" (.jobj []) =
        .ok ((objLookup ttkvs "columns").getD (.jobj [])) from rfl) ?_
      obtain ⟨colskvs, hcols, hwcs⟩ := wfTable_columns_getD hwti
      rw [hcols]
      refine bind_exists_ok (show asObj (.jobj colskvs) = .ok colskvs from rfl) ?_
      obtain ⟨s1, hs1⟩ := build_deps_cols_total tn colskvs [] hwcs
      refine bind_exists_ok hs1 ?_
      exact ih _ (fun q hq => hwe q (List.mem_cons_of_mem _ hq))

theorem validate_cross_references_total {tkvs : List (String × JVal)}
    (hwt : ∀ p, p ∈ tkvs → wfTable p.2 = true) :
    ∃ es, validate_cross_references (.jobj tkvs) = .ok es := by
  unfold validate_cross_references
  refine bind_exists_ok (show asObj (.jobj tkvs) = .ok tkvs from rfl) ?_
  obtain ⟨deps, hdeps⟩ := build_deps_total tkvs [] hwt
  refine bind_exists_ok hdeps ?_
  exact cycle_outer_total deps (tkvs.map (fun p => p.1)) [] [] []

theorem wfSchema_tables_some {skvs : List (String × JVal)}
    (hwf : wfSchema (.jobj skvs) = true) {v : JVal}
    (h : objLookup skvs "tables" = some v) :
    ∃ tkvs, v = .jobj tkvs ∧ ∀ p, p ∈ tkvs → wfTable p.2 = true := by
  simp only [wfSchema, Bool.and_eq_true] at hwf
  have h2 := hwf.1.1
  rw [h] at h2
  cases v with
  | jobj tkvs =>
      refine ⟨tkvs, rfl, ?_⟩
      intro p hp
      have := List.all_eq_true.mp h2 p hp
      simpa using this
  | jnull => simp at h2
  | jbool b => simp at h2
  | jint n => simp at h2
  | jstr s => simp at h2
  | jarr xs => simp at h2

theorem wfSchema_rels_some {skvs : List (String × JVal)}
    (hwf : wfSchema (.jobj skvs) = true) {v : JVal}
    (h : objLookup skvs "relationships" = some v) :
    ∃ xs, v = .jarr xs ∧ ∀ r, r ∈ xs → wfRelationship r = true := by
  simp only [wfSchema, Bool.and_eq_true] at hwf
  have h2 := hwf.1.2
  rw [h] at h2
  cases v with
  | jarr xs =>
      refine ⟨xs, rfl, ?_⟩
      intro r hr
      exact List.all_eq_true.mp h2 r hr
  | jnull => simp at h2
  | jbool b => simp at h2
  | jint n => simp at h2
  | jstr s => simp at h2
  | jobj o => simp at h2

theorem wfSchema_seed_some {skvs : List (String × JVal)}
    (hwf : wfSchema (.jobj skvs) = true) {v : JVal}
    (h : objLookup skvs "seed_data" = some v) :
    ∃ skv2, v = .jobj skv2 ∧ ∀ p, p ∈ skv2 → ∃ rs, p.2 = JVal.jarr rs := by
  simp only [wfSchema, Bool.and_eq_true] at hwf
  have h2 := hwf.2
  rw [h] at h2
  cases v with
  | jobj skv2 =>
      refine ⟨skv2, rfl, ?_⟩
      intro p hp
      have h3 := List.all_eq_true.mp h2 p hp
      cases hp2 : p.2 with
      | jarr rs => exact ⟨rs, rfl⟩
      | jnull => rw [hp2] at h3; simp at h3
      | jbool b => rw [hp2] at h3; simp at h3
      | jint n => rw [hp2] at h3; simp at h3
      | jstr s => rw [hp2] at h3; simp at h3
      | jobj o => rw [hp2] at h3; simp at h3
  | jnull => simp at h2
  | jbool b => simp at h2
  | jint n => simp at h2
  | jstr s => simp at h2
  | jarr xs => simp at h2

theorem sum_section_lengths_total (key : String) (d : JVal) :
    ∀ (entries : List (String × JVal)),
    (∀ p, p ∈ entries → ∃ kvs, p.2 = JVal.jobj kvs ∧
      ∃ n, pyLen ((objLookup kvs key).getD d) = .ok n) →
    ∃ n, sum_section_lengths entries key d = .ok n := by
  intro entries
  induction entries with
  | nil => intro h; exact ⟨0, rfl⟩
  | cons p rest ih =>
      obtain ⟨nm, tv⟩ := p
      intro h
      obtain ⟨kvs, hkvs, n, hn⟩ := h (nm, tv) (List.mem_cons_self _ _)
      simp only [] at hkvs
      subst hkvs
      unfold sum_section_lengths
      refine bind_exists_ok (show pyGet (.jobj kvs) key d =
        .ok ((objLookup kvs key).getD d) from rfl) ?_
      refine bind_exists_ok hn ?_
      obtain ⟨m, hm⟩ := ih (fun q hq => h q (List.mem_cons_of_mem _ hq))
      refine bind_exists_ok hm ?_
      exact ⟨_, rfl⟩

theorem result_counts_total {skvs : List (String × JVal)}
    (hwf : wfSchema (.jobj skvs) = true) :
    ∃ q, result_counts (.jobj skvs) = .ok q := by
  unfold result_counts
  refine bind_exists_ok (show pyGet (.jobj skvs) "tables" (.jobj []) =
    .ok ((objLookup skvs "tables").getD (.jobj [])) from rfl) ?_
  have htbl : ∃ tkvs, (objLookup skvs "tables").getD (.jobj []) = .jobj tkvs ∧
      ∀ p, p ∈ tkvs → wfTable p.2 = true := by
    cases htv : objLookup skvs "tables" with
    | none => exact ⟨[], rfl, fun p hp => absurd hp (List.not_mem_nil _)⟩
    | some v =>
        obtain ⟨tkvs, hv, hwt⟩ := wfSchema_tables_some hwf htv
        exact ⟨tkvs, by simp [hv], hwt⟩
  obtain ⟨tkvs, htk, hwt⟩ := htbl
  rw [htk]
  refine bind_exists_ok (show pyLen (.jobj tkvs) = .ok tkvs.length from rfl) ?_
  refine bind_exists_ok (show pyGet (.jobj skvs) "relationships" (.jarr []) =
    .ok ((objLookup skvs "relationships").getD (.jarr [])) from rfl) ?_
  have hrl : ∃ xs, (objLookup skvs "relationships").getD (.jarr []) = .jarr xs := by
    cases hrv : objLookup skvs "relationships" with
    | none => exact ⟨[], rfl⟩
    | some v =>
        obtain ⟨xs, hv, -⟩ := wfSchema_rels_some hwf hrv
        exact ⟨xs, by simp [hv]⟩
  obtain ⟨xs, hxs⟩ := hrl
  rw [hxs]
  refine bind_exists_ok (show pyLen (.jarr xs) = .ok xs.length from rfl) ?_
  refine bind_exists_ok (show asObj (.jobj tkvs) = .ok tkvs from rfl) ?_
  have hidx : ∀ p, p ∈ tkvs → ∃ kvs, p.2 = JVal.jobj kvs ∧
      ∃ n, pyLen ((objLookup kvs "indexes").getD (.jarr [])) = .ok n := by
    intro p hp
    obtain ⟨ttkvs, hpt⟩ := wfTable_obj (hwt p hp)
    refine ⟨ttkvs, hpt, ?_⟩
    cases hiv : objLookup ttkvs "indexes" with
    | none => exact ⟨0, rfl⟩
    | some v =>
        obtain ⟨ixs, hv, -⟩ := wfTable_indexes (by rw [← hpt]; exact hwt p hp) hiv
        subst hv
        exact ⟨ixs.length, rfl⟩
  obtain ⟨n1, hn1⟩ := sum_section_lengths_total "indexes" (.jarr []) tkvs hidx
  refine bind_exists_ok hn1 ?_
  have hcol : ∀ p, p ∈ tkvs → ∃ kvs, p.2 = JVal.jobj kvs ∧
      ∃ n, pyLen ((objLookup kvs "columns").getD (.jobj [])) = .ok n := by
    intro p hp
    obtain ⟨ttkvs, hpt⟩ := wfTable_obj (hwt p hp)
    refine ⟨ttkvs, hpt, ?_⟩
    cases hcv : objLookup ttkvs "columns" with
    | none => exact ⟨0, rfl⟩
    | some v =>
        obtain ⟨ckvs, hv, -⟩ := wfTable_columns_some (by rw [← hpt]; exact hwt p hp) hcv
        subst hv
        exact ⟨ckvs.length, rfl⟩
  obtain ⟨n2, hn2⟩ := sum_section_lengths_total "columns" (.jobj []) tkvs hcol
  refine bind_exists_ok hn2 ?_
  exact ⟨_, rfl⟩

theorem create_result_total {skvs : List (String × JVal)}
    (hwf : wfSchema (.jobj skvs) = true) (b : Bool) (es ws : List String) :
    ∃ r, create_result b es ws (.jobj skvs) = .ok r := by
  unfold create_result
  obtain ⟨⟨n1, n2, n3, n4⟩, hq⟩ := result_counts_total hwf
  refine bind_exists_ok hq ?_
  exact ⟨_, rfl⟩

/-- C9: as amended — validate_schema never raises on any well-shaped
document: whenever wfSchema holds (the tables section, if present, is
an object of well-formed table objects, relationships an array of
well-formed relationship objects, and seed_data an object whose values
are arrays), validate_schema returns a result envelope instead of
raising, the missing-tables case included.  The claim as stated over
all parseable documents is refuted separately by a document whose
tables section is a list. -/
theorem C9_wf_total (s : JVal) (hwf : wfSchema s = true) :
    ∃ r, validate_schema s = .ok r := by
  cases s with
  | jnull => simp [wfSchema] at hwf
  | jbool b => simp [wfSchema] at hwf
  | jint n => simp [wfSchema] at hwf
  | jstr st => simp [wfSchema] at hwf
  | jarr xs => simp [wfSchema] at hwf
  | jobj skvs =>
      unfold validate_schema
      refine bind_exists_ok (show pyContainsS "database" (.jobj skvs) =
        .ok (skvs.any (fun p => p.1 == "database")) from rfl) ?_
      refine bind_exists_ok (show pyContainsS "tables" (.jobj skvs) =
        .ok (skvs.any (fun p => p.1 == "tables")) from rfl) ?_
      cases hT : skvs.any (fun p => p.1 == "tables") with
      | false =>
          rw [if_pos (by decide)]
          exact create_result_total hwf false [msgMissingTables] _
      | true =>
          rw [if_neg (by decide)]
          obtain ⟨tv, htv⟩ := any_objLookup_some hT
          refine bind_exists_ok (pyGetItemS_of_lookup htv) ?_
          obtain ⟨tkvs, htkv, hwt⟩ := wfSchema_tables_some hwf htv
          subst htkv
          refine bind_exists_ok (show asObj (.jobj tkvs) = .ok tkvs from rfl) ?_
          have hseedtail : ∀ (errs2 warns2 : List String),
              ∃ b, (do
                let hasSeed ← pyContainsS "seed_data" (.jobj skvs)
                let errs3 ← if hasSeed then do
                    let sd ← pyGetItemS (.jobj skvs) "seed_data"
                    let se ← validate_seed_data sd (.jobj tkvs)
                    pure (errs2 ++ se)
                  else pure errs2
                let ce ← validate_cross_references (.jobj tkvs)
                let errs4 := errs3 ++ ce
                create_result (errs4.length == 0) errs4 warns2 (.jobj skvs)) = .ok b := by
            intro errs2 warns2
            refine bind_exists_ok (show pyContainsS "seed_data" (.jobj skvs) =
              .ok (skvs.any (fun p => p.1 == "seed_data")) from rfl) ?_
            cases hS : skvs.any (fun p => p.1 == "seed_data") with
            | true =>
                rw [if_pos rfl]
                obtain ⟨sv, hsv⟩ := any_objLookup_some hS
                refine bind_exists_ok (pyGetItemS_of_lookup hsv) ?_
                obtain ⟨skv2, hsk, hses⟩ := wfSchema_seed_some hwf hsv
                subst hsk
                obtain ⟨se, hse2⟩ := validate_seed_data_total hwt hses
                refine bind_exists_ok hse2 ?_
                refine bind_exists_ok (show (pure (errs2 ++ se) :
                  Except String (List String)) = .ok (errs2 ++ se) from rfl) ?_
                obtain ⟨ce, hce⟩ := validate_cross_references_total hwt
                refine bind_exists_ok hce ?_
                exact create_result_total hwf _ _ _
            | false =>
                rw [if_neg (by decide)]
                refine bind_exists_ok (show (pure errs2 :
                  Except String (List String)) = .ok errs2 from rfl) ?_
                obtain ⟨ce, hce⟩ := validate_cross_references_total hwt
                refine bind_exists_ok hce ?_
                exact create_result_total hwf _ _ _
          obtain ⟨⟨errs1, warns1⟩, hloop⟩ := validate_tables_loop_total hwt tkvs []
            (if !(skvs.any (fun p => p.1 == "database")) then [msgMissingDatabase] else []) hwt
          refine bind_exists_ok hloop ?_
          refine bind_exists_ok (show pyContainsS "relationships" (.jobj skvs) =
            .ok (skvs.any (fun p => p.1 == "relationships")) from rfl) ?_
          cases hR : skvs.any (fun p => p.1 == "relationships") with
          | true =>
              rw [if_pos rfl]
              obtain ⟨rv, hrv⟩ := any_objLookup_some hR
              refine bind_exists_ok (pyGetItemS_of_lookup hrv) ?_
              obtain ⟨rxs, hrx, hwr⟩ := wfSchema_rels_some hwf hrv
              subst hrx
              obtain ⟨rr, hrr⟩ := validate_relationships_total hwt hwr
              obtain ⟨re, rw2⟩ := rr
              refine bind_exists_ok hrr ?_
              refine bind_exists_ok (show (pure (errs1 ++ re, warns1 ++ rw2) :
                Except String (List String × List String)) =
                .ok (errs1 ++ re, warns1 ++ rw2) from rfl) ?_
              exact hseedtail (errs1 ++ re) (warns1 ++ rw2)
          | false =>
              rw [if_neg (by decide)]
              refine bind_exists_ok (show (pure (errs1, warns1) :
                Except String (List String × List String)) =
                .ok (errs1, warns1) from rfl) ?_
              exact hseedtail errs1 warns1

theorem C9_wf_total_witness :
    wfSchema doc_wf_full = true ∧ ∃ r, validate_schema doc_wf_full = .ok r :=
  ⟨by decide, C9_wf_total doc_wf_full (by decide)⟩

theorem ciPrefix_append_sep : ∀ (p a : List Char) (c : Char) (b : List Char),
    p.all (fun q => q.toLower != c.toLower) = true →
    listCIPrefixOf p (a ++ c :: b) = true → listCIPrefixOf p a = true := by
  intro p
  induction p with
  | nil => intro a c b hc h; rfl
  | cons q ps ih =>
      intro a c b hc h
      rw [List.all_cons, Bool.and_eq_true] at hc
      cases a with
      | nil =>
          rw [List.nil_append] at h
          rw [show listCIPrefixOf (q :: ps) (c :: b) =
            ((q.toLower == c.toLower) && listCIPrefixOf ps b) from rfl] at h
          rw [Bool.and_eq_true] at h
          exact absurd (beq_iff_eq.mp h.1) (bne_iff_ne.mp hc.1)
      | cons x xs =>
          rw [List.cons_append] at h
          rw [show listCIPrefixOf (q :: ps) (x :: (xs ++ c :: b)) =
            ((q.toLower == x.toLower) && listCIPrefixOf ps (xs ++ c :: b)) from rfl] at h
          rw [Bool.and_eq_true] at h
          rw [show listCIPrefixOf (q :: ps) (x :: xs) =
            ((q.toLower == x.toLower) && listCIPrefixOf ps xs) from rfl]
          rw [Bool.and_eq_true]
          exact ⟨h.1, ih xs c b hc.2 h.2⟩

theorem ciInfix_append_sep {p : List Char} (c : Char)
    (hc : p.all (fun q => q.toLower != c.toLower) = true) :
    ∀ a b, listCIInfixOf p (a ++ c :: b) = true →
      listCIInfixOf p a = true ∨ listCIInfixOf p b = true := by
  intro a
  induction a with
  | nil =>
      intro b h
      rw [List.nil_append] at h
      rw [show listCIInfixOf p (c :: b) =
        (listCIPrefixOf p (c :: b) || listCIInfixOf p b) from rfl] at h
      rw [Bool.or_eq_true] at h
      cases h with
      | inl h =>
          cases p with
          | nil => left; rfl
          | cons q ps =>
              rw [List.all_cons, Bool.and_eq_true] at hc
              rw [show listCIPrefixOf (q :: ps) (c :: b) =
                ((q.toLower == c.toLower) && listCIPrefixOf ps b) from rfl] at h
              rw [Bool.and_eq_true] at h
              exact absurd (beq_iff_eq.mp h.1) (bne_iff_ne.mp hc.1)
      | inr h => right; exact h
  | cons x xs ih =>
      intro b h
      rw [List.cons_append] at h
      rw [show listCIInfixOf p (x :: (xs ++ c :: b)) =
        (listCIPrefixOf p (x :: (xs ++ c :: b)) || listCIInfixOf p (xs ++ c :: b)) from rfl] at h
      rw [Bool.or_eq_true] at h
      cases h with
      | inl h =>
          have h2 := ciPrefix_append_sep p (x :: xs) c b hc (by rw [List.cons_append]; exact h)
          left
          rw [show listCIInfixOf p (x :: xs) =
            (listCIPrefixOf p (x :: xs) || listCIInfixOf p xs) from rfl]
          rw [h2]
          rfl
      | inr h =>
          cases ih b h with
          | inl h2 =>
              left
              rw [show listCIInfixOf p (x :: xs) =
                (listCIPrefixOf p (x :: xs) || listCIInfixOf p xs) from rfl]
              rw [h2]
              simp
          | inr h2 => right; exact h2

theorem ciInfix_sep_glue {p : List Char} (c : Char)
    (hc : p.all (fun q => q.toLower != c.toLower) = true)
    {a b : List Char} (ha : listCIInfixOf p a = false) (hb : listCIInfixOf p b = false) :
    listCIInfixOf p (a ++ c :: b) = false := by
  cases h : listCIInfixOf p (a ++ c :: b) with
  | false => rfl
  | true =>
      cases ciInfix_append_sep c hc a b h with
      | inl h2 => rw [h2] at ha; exact absurd ha (by simp)
      | inr h2 => rw [h2] at hb; exact absurd hb (by simp)

theorem ciInfix_sepOnly {p : List Char} (hp : listCIInfixOf p [] = false) :
    ∀ l, l.all (fun c => p.all (fun q => q.toLower != c.toLower)) = true →
    listCIInfixOf p l = false := by
  intro l
  induction l with
  | nil => intro h; exact hp
  | cons c tl ih =>
      intro h
      rw [List.all_cons, Bool.and_eq_true] at h
      have := ciInfix_sep_glue c h.1 hp (ih h.2)
      rw [List.nil_append] at this
      exact this

theorem ciInfix_sepList_prepend {p : List Char} (hp : listCIInfixOf p [] = false) :
    ∀ (l m : List Char),
    l.all (fun c => p.all (fun q => q.toLower != c.toLower)) = true →
    listCIInfixOf p m = false → listCIInfixOf p (l ++ m) = false := by
  intro l
  induction l with
  | nil => intro m h hm; exact hm
  | cons c tl ih =>
      intro m h hm
      rw [List.all_cons, Bool.and_eq_true] at h
      have := ciInfix_sep_glue c h.1 hp (ih m h.2 hm)
      rw [List.nil_append] at this
      rw [List.cons_append]
      exact this

theorem ciInfix_sepList_append {p : List Char} (hp : listCIInfixOf p [] = false) :
    ∀ (m l : List Char),
    l.all (fun c => p.all (fun q => q.toLower != c.toLower)) = true →
    listCIInfixOf p m = false → listCIInfixOf p (m ++ l) = false := by
  intro m l
  cases l with
  | nil => intro h hm; rw [List.append_nil]; exact hm
  | cons c tl =>
      intro h hm
      rw [List.all_cons, Bool.and_eq_true] at h
      exact ciInfix_sep_glue c h.1 hm (ciInfix_sepOnly hp tl h.2)

theorem ciPrefix_extend : ∀ (p x y : List Char),
    listCIPrefixOf p x = true → listCIPrefixOf p (x ++ y) = true := by
  intro p
  induction p with
  | nil => intro x y h; rfl
  | cons q ps ih =>
      intro x y h
      cases x with
      | nil => exact absurd h (by simp [listCIPrefixOf])
      | cons c cs =>
          rw [show listCIPrefixOf (q :: ps) (c :: cs) =
            ((q.toLower == c.toLower) && listCIPrefixOf ps cs) from rfl,
            Bool.and_eq_true] at h
          rw [List.cons_append,
            show listCIPrefixOf (q :: ps) (c :: (cs ++ y)) =
            ((q.toLower == c.toLower) && listCIPrefixOf ps (cs ++ y)) from rfl,
            Bool.and_eq_true]
          exact ⟨h.1, ih cs y h.2⟩

theorem ciInfix_nil_p : ∀ l : List Char, listCIInfixOf [] l = true := by
  intro l
  cases l with
  | nil => rfl
  | cons c cs => rfl

theorem ciInfix_extend_right {p : List Char} :
    ∀ (m v : List Char), listCIInfixOf p m = true → listCIInfixOf p (m ++ v) = true := by
  intro m
  induction m with
  | nil =>
      intro v h
      cases p with
      | nil => exact ciInfix_nil_p v
      | cons q ps => exact absurd h (by simp [listCIInfixOf, listCIPrefixOf])
  | cons c cs ih =>
      intro v h
      rw [show listCIInfixOf p (c :: cs) =
        (listCIPrefixOf p (c :: cs) || listCIInfixOf p cs) from rfl,
        Bool.or_eq_true] at h
      rw [List.cons_append,
        show listCIInfixOf p (c :: (cs ++ v)) =
        (listCIPrefixOf p (c :: (cs ++ v)) || listCIInfixOf p (cs ++ v)) from rfl]
      cases h with
      | inl h =>
          have := ciPrefix_extend p (c :: cs) v h
          rw [List.cons_append] at this
          rw [this]
          rfl
      | inr h => rw [ih v h]; simp

theorem ciInfix_extend_left {p : List Char} :
    ∀ (u m : List Char), listCIInfixOf p m = true → listCIInfixOf p (u ++ m) = true := by
  intro u
  induction u with
  | nil => intro m h; exact h
  | cons x xs ih =>
      intro m h
      rw [List.cons_append,
        show listCIInfixOf p (x :: (xs ++ m)) =
        (listCIPrefixOf p (x :: (xs ++ m)) || listCIInfixOf p (xs ++ m)) from rfl,
        ih m h]
      simp

theorem ciInfix_of_contig {p m l : List Char} (h : m <:+: l) :
    listCIInfixOf p m = true → listCIInfixOf p l = true := by
  intro hm
  obtain ⟨u, v, rfl⟩ := h
  rw [List.append_assoc]
  exact ciInfix_extend_left u (m ++ v) (ciInfix_extend_right m v hm)

theorem noCheckL_mono {p m l : List Char} (h : listCIInfixOf p l = false)
    (hm : m <:+: l) : listCIInfixOf p m = false := by
  cases h2 : listCIInfixOf p m with
  | false => rfl
  | true => rw [ciInfix_of_contig hm h2] at h; exact absurd h (by simp)

theorem splitCharAux_pieces (sep : Char) : ∀ (l acc : List Char) (r : List Char),
    r ∈ splitCharAux sep l acc →
    (∃ m, m <+: l ∧ r = acc.reverse ++ m) ∨ r <:+: l := by
  intro l
  induction l with
  | nil =>
      intro acc r h
      rw [show splitCharAux sep [] acc = [acc.reverse] from rfl] at h
      rw [List.mem_singleton] at h
      exact Or.inl ⟨[], List.nil_prefix, by simp [h]⟩
  | cons x xs ih =>
      intro acc r h
      rw [show splitCharAux sep (x :: xs) acc =
        (if x == sep then acc.reverse :: splitCharAux sep xs []
         else splitCharAux sep xs (x :: acc)) from rfl] at h
      cases hx : x == sep with
      | true =>
          rw [if_pos (by rw [hx])] at h
          rw [List.mem_cons] at h
          cases h with
          | inl h => exact Or.inl ⟨[], List.nil_prefix, by simp [h]⟩
          | inr h =>
              cases ih [] r h with
              | inl h2 =>
                  obtain ⟨m, hm, hr⟩ := h2
                  rw [List.reverse_nil, List.nil_append] at hr
                  subst hr
                  exact Or.inr (List.infix_cons (hm.isInfix))
              | inr h2 => exact Or.inr (List.infix_cons h2)
      | false =>
          rw [if_neg (by rw [hx]; simp)] at h
          cases ih (x :: acc) r h with
          | inl h2 =>
              obtain ⟨m, hm, hr⟩ := h2
              refine Or.inl ⟨x :: m, ?_, ?_⟩
              · obtain ⟨t, ht⟩ := hm
                exact ⟨t, by rw [List.cons_append, ht]⟩
              · rw [hr, List.reverse_cons, List.append_assoc, List.singleton_append]
          | inr h2 => exact Or.inr (List.infix_cons h2)

theorem strSplit_contig {s : String} {c : Char} {y : String} (h : y ∈ strSplit s c) :
    y.toList <:+: s.toList := by
  rw [strSplit] at h
  rw [List.mem_map] at h
  obtain ⟨r, hr, hy⟩ := h
  cases splitCharAux_pieces c s.toList [] r hr with
  | inl h2 =>
      obtain ⟨m, hm, hrm⟩ := h2
      rw [List.reverse_nil, List.nil_append] at hrm
      subst hrm
      rw [← hy]
      exact hm.isInfix
  | inr h2 => rw [← hy]; exact h2

theorem strStrip_contig (s : String) : (strStrip s).toList <:+: s.toList := by
  have h1 : s.toList.dropWhile Char.isWhitespace <:+ s.toList := List.dropWhile_suffix _
  have h2 : ((s.toList.dropWhile Char.isWhitespace).reverse.dropWhile Char.isWhitespace)
      <:+ (s.toList.dropWhile Char.isWhitespace).reverse := List.dropWhile_suffix _
  have h3 : ((s.toList.dropWhile Char.isWhitespace).reverse.dropWhile
      Char.isWhitespace).reverse <+: (s.toList.dropWhile Char.isWhitespace) := by
    rw [← List.reverse_suffix]
    rw [List.reverse_reverse]
    exact h2
  exact (h3.isInfix).trans h1.isInfix

theorem noCheck_eq_true_iff (s : String) :
    noCheck s = true ↔ listCIInfixOf "check".toList s.toList = false := by
  rw [noCheck, Bool.not_eq_true']

theorem noCheck_joinSep (sep : String)
    (hsep : sep.toList.all
      (fun c => ("check".toList).all (fun q => q.toLower != c.toLower)) = true)
    (hne : sep.toList ≠ []) :
    ∀ parts, (∀ x ∈ parts, noCheck x = true) → noCheck (joinSep sep parts) = true := by
  intro parts
  induction parts with
  | nil => intro h; exact (by decide : noCheck "" = true)
  | cons x xs ih =>
      intro h
      cases xs with
      | nil => exact h x (List.mem_singleton.mpr rfl)
      | cons y rest =>
          rw [show joinSep sep (x :: y :: rest) =
            x ++ sep ++ joinSep sep (y :: rest) from rfl]
          have hx := (noCheck_eq_true_iff x).mp (h x (List.mem_cons_self _ _))
          have hj := (noCheck_eq_true_iff _).mp
            (ih (fun z hz => h z (List.mem_cons_of_mem _ hz)))
          rw [noCheck_eq_true_iff]
          rw [show (x ++ sep ++ joinSep sep (y :: rest)).toList =
            x.toList ++ sep.toList ++ (joinSep sep (y :: rest)).toList by
              simp [String.toList, String.data_append]]
          cases hsl : sep.toList with
          | nil => exact absurd hsl hne
          | cons c tl =>
              rw [hsl] at hsep
              rw [List.all_cons, Bool.and_eq_true] at hsep
              rw [List.append_assoc, List.cons_append]
              exact ciInfix_sep_glue c hsep.1 hx
                (ciInfix_sepList_prepend (by decide) tl _ hsep.2 hj)

theorem noCheck_executed {sql : String} (h : noCheck sql = true) :
    noCheck (executed_statement sql) = true := by
  rw [executed_statement]
  refine noCheck_joinSep "\n" (by decide) (by decide) _ ?_
  intro x hx
  rw [List.mem_filter] at hx
  obtain ⟨hx, -⟩ := hx
  rw [List.mem_map] at hx
  obtain ⟨y, hy, hxy⟩ := hx
  subst hxy
  rw [noCheck_eq_true_iff]
  exact noCheckL_mono ((noCheck_eq_true_iff sql).mp h)
    ((strStrip_contig y).trans (strSplit_contig hy))

theorem searchEnum_none {l : List Char}
    (h : listCIInfixOf "check".toList l = false) (cn : List Char) :
    searchEnum cn l = none := by
  induction l with
  | nil => rfl
  | cons c cs ih =>
      rw [show listCIInfixOf "check".toList (c :: cs) =
        (listCIPrefixOf "check".toList (c :: cs) ||
          listCIInfixOf "check".toList cs) from rfl,
        Bool.or_eq_false_iff] at h
      have hm : matchEnumAt cn (c :: cs) = none := by
        rw [matchEnumAt, if_neg (by rw [h.1]; simp)]
      rw [show searchEnum cn (c :: cs) =
        (match matchEnumAt cn (c :: cs) with
         | some cap => some cap
         | none => searchEnum cn cs) from rfl, hm]
      exact ih h.2

theorem extract_enum_none (sql : String) (cn : String) (h : noCheck sql = true) :
    extract_enum_values sql cn = none := by
  rw [extract_enum_values, searchEnum_none ((noCheck_eq_true_iff sql).mp h)]


theorem digit_toUpper (c : Char) (h : c.isDigit = true) : c.toUpper = c := by
  rw [Char.isDigit, Bool.and_eq_true, decide_eq_true_eq, decide_eq_true_eq] at h
  have h1 : c.toNat ≤ 57 := h.2
  rw [Char.toUpper]
  rw [if_neg]
  simp only [Bool.and_eq_true, decide_eq_true_eq, not_and, not_le]
  intro h2
  have h3 : 97 ≤ c.toNat := h2
  omega

theorem digit_not_ws (c : Char) (h : c.isDigit = true) : c.isWhitespace = false := by
  rw [Char.isDigit, Bool.and_eq_true, decide_eq_true_eq, decide_eq_true_eq] at h
  have h1 : c.toNat ≤ 57 := h.2
  have h0 : 48 ≤ c.toNat := h.1
  have hne : ∀ d : Char, (d.toNat < 48 ∨ 57 < d.toNat) → ¬ c = d := by
    intro d hd hc
    subst hc
    cases hd with
    | inl hd => omega
    | inr hd => omega
  rw [Char.isWhitespace]
  simp only [Bool.or_eq_false_iff, decide_eq_false_iff_not]
  exact ⟨⟨⟨hne ' ' (by decide), hne '\t' (by decide)⟩,
    hne '\x0d' (by decide)⟩, hne '\n' (by decide)⟩

theorem digit_toLower_ne (c : Char) (h : c.isDigit = true) (q : Char)
    (hq : 97 ≤ q.toNat) : ¬ (q = c.toLower) := by
  rw [Char.isDigit, Bool.and_eq_true, decide_eq_true_eq, decide_eq_true_eq] at h
  have h1 : c.toNat ≤ 57 := h.2
  have h0 : 48 ≤ c.toNat := h.1
  have hlow : c.toLower = c := by
    rw [Char.toLower, if_neg]
    simp only [Bool.and_eq_true, decide_eq_true_eq, not_and, not_le]
    intro h2
    have h3 : 65 ≤ c.toNat := h2
    omega
  rw [hlow]
  intro hqc
  subst hqc
  omega

theorem listPrefixOf_self_append : ∀ (p r : List Char), listPrefixOf p (p ++ r) = true := by
  intro p
  induction p with
  | nil => intro r; rfl
  | cons c ps ih =>
      intro r
      rw [List.cons_append,
        show listPrefixOf (c :: ps) (c :: (ps ++ r)) =
          ((c == c) && listPrefixOf ps (ps ++ r)) from rfl,
        beq_self_eq_true, ih r]
      rfl

theorem takeWhile_append_neg (p : Char → Bool) :
    ∀ (xs : List Char) (y : Char) (r : List Char),
    (∀ x ∈ xs, p x = true) → p y = false →
    (xs ++ y :: r).takeWhile p = xs := by
  intro xs
  induction xs with
  | nil =>
      intro y r hx hy
      rw [List.nil_append, List.takeWhile_cons, hy]
      simp
  | cons x xt ih =>
      intro y r hx hy
      rw [List.cons_append, List.takeWhile_cons, hx x (List.mem_cons_self _ _),
        if_pos rfl, ih y r (fun z hz => hx z (List.mem_cons_of_mem _ hz)) hy]

theorem dropWhile_all_false (p : Char → Bool) :
    ∀ (l : List Char), (∀ c ∈ l, p c = false) → l.dropWhile p = l := by
  intro l
  induction l with
  | nil => intro h; rfl
  | cons c cs ih =>
      intro h
      rw [List.dropWhile_cons, h c (List.mem_cons_self _ _)]
      simp

theorem strStrip_no_ws (s : String)
    (h : ∀ c ∈ s.toList, c.isWhitespace = false) : strStrip s = s := by
  rw [strStrip]
  rw [dropWhile_all_false _ _ h]
  rw [dropWhile_all_false _ _ (fun c hc => h c (List.mem_reverse.mp hc))]
  rw [List.reverse_reverse]
  exact String.ext (by rfl)

theorem map_toUpper_id (l : List Char) (h : ∀ c ∈ l, c.toUpper = c) :
    l.map Char.toUpper = l := by
  induction l with
  | nil => rfl
  | cons c cs ih =>
      rw [List.map_cons, h c (List.mem_cons_self _ _),
        ih (fun z hz => h z (List.mem_cons_of_mem _ hz))]

theorem varcharForm_struct (ty : String) (h : varcharForm ty = true) :
    ∃ digits : List Char, ty.toList = "VARCHAR(".toList ++ (digits ++ [')']) ∧
      digits ≠ [] ∧ ∀ c ∈ digits, c.isDigit = true := by
  rw [varcharForm, Bool.and_eq_true] at h
  obtain ⟨rest, hrest⟩ := (listPrefixOf_iff _ _).mp h.1
  have h2 := h.1
  have hr : ty.toList = "VARCHAR(".toList ++ rest := hrest.symm
  have hdrop : ty.toList.drop 8 = rest := by
    rw [hr, show (8 : Nat) = ("VARCHAR(".toList).length from rfl, List.drop_left]
  have h3 := h.2
  rw [Bool.and_eq_true] at h3
  obtain ⟨hne, hcl⟩ := h3
  rw [hdrop] at hne hcl
  have hsplit : rest = rest.takeWhile Char.isDigit ++ rest.dropWhile Char.isDigit :=
    (List.takeWhile_append_dropWhile Char.isDigit rest).symm
  have hdw : rest.drop (rest.takeWhile Char.isDigit).length = rest.dropWhile Char.isDigit := by
    nth_rewrite 2 [hsplit]
    rw [List.drop_left]
  rw [hdw] at hcl
  have hcl2 : rest.dropWhile Char.isDigit = [')'] := by
    have := eq_of_beq hcl
    exact this
  refine ⟨rest.takeWhile Char.isDigit, ?_, ?_, ?_⟩
  · rw [hr]
    congr 1
    rw [← hcl2]
    exact hsplit
  · intro hc
    rw [hc] at hne
    exact absurd hne (by decide)
  · intro c hc
    exact List.mem_takeWhile_imp hc

theorem e_of_ciPrefix {m : List Char} (h : listCIPrefixOf "check".toList m = true) :
    ∃ c ∈ m, c.toLower = 'e' := by
  rw [show "check".toList = ['c', 'h', 'e', 'c', 'k'] from rfl] at h
  cases m with
  | nil => exact absurd h (by decide)
  | cons c1 m1 =>
      cases m1 with
      | nil => exact absurd h (by simp [listCIPrefixOf])
      | cons c2 m2 =>
          cases m2 with
          | nil => exact absurd h (by simp [listCIPrefixOf])
          | cons c3 m3 =>
              rw [show listCIPrefixOf ['c', 'h', 'e', 'c', 'k'] (c1 :: c2 :: c3 :: m3) =
                (('c'.toLower == c1.toLower) && (('h'.toLower == c2.toLower) &&
                  (('e'.toLower == c3.toLower) &&
                    listCIPrefixOf ['c', 'k'] m3))) from rfl] at h
              rw [Bool.and_eq_true, Bool.and_eq_true, Bool.and_eq_true] at h
              refine ⟨c3, by simp, ?_⟩
              have := eq_of_beq h.2.2.1
              rw [← this]
              rfl

theorem noCheck_of_no_e (l : List Char) (h : ∀ c ∈ l, ¬ c.toLower = 'e') :
    listCIInfixOf "check".toList l = false := by
  induction l with
  | nil => decide
  | cons c cs ih =>
      rw [show listCIInfixOf "check".toList (c :: cs) =
        (listCIPrefixOf "check".toList (c :: cs) ||
          listCIInfixOf "check".toList cs) from rfl]
      cases hp : listCIPrefixOf "check".toList (c :: cs) with
      | true =>
          obtain ⟨c2, hc2, he⟩ := e_of_ciPrefix hp
          exact absurd he (h c2 hc2)
      | false =>
          rw [ih (fun z hz => h z (List.mem_cons_of_mem _ hz))]
          rfl

theorem noCheck_c1Type (ty : String) (h : c1TypeOk ty = true) : noCheck ty = true := by
  rw [c1TypeOk] at h
  rw [Bool.or_eq_true, Bool.or_eq_true, Bool.or_eq_true, Bool.or_eq_true,
    Bool.or_eq_true] at h
  rcases h with ((((h | h) | h) | h) | h) | h
  · rw [eq_of_beq h]; decide
  · rw [eq_of_beq h]; decide
  · rw [eq_of_beq h]; decide
  · rw [eq_of_beq h]; decide
  · rw [eq_of_beq h]; decide
  · obtain ⟨digits, hstruct, hne, hdig⟩ := varcharForm_struct ty h
    rw [noCheck_eq_true_iff]
    apply noCheck_of_no_e
    intro c hc
    rw [hstruct] at hc
    rw [List.mem_append] at hc
    cases hc with
    | inl hc =>
        revert c
        decide
    | inr hc =>
        rw [List.mem_append] at hc
        cases hc with
        | inl hc =>
            intro he
            exact (digit_toLower_ne c (hdig c hc) 'e' (by decide)) he.symm
        | inr hc =>
            rw [List.mem_singleton] at hc
            subst hc
            decide

theorem varchar_match_eval (digits : List Char) (hne : digits ≠ [])
    (hdig : ∀ c ∈ digits, c.isDigit = true) :
    parse_sql_type.varchar_match ("VARCHAR(".toList ++ (digits ++ [')'])) =
      some digits := by
  rw [parse_sql_type.varchar_match]
  rw [if_pos (listPrefixOf_self_append _ _)]
  have e1 : ("VARCHAR(".toList ++ (digits ++ [')'])).drop 8 = digits ++ [')'] := by
    rw [show (8 : Nat) = ("VARCHAR(".toList).length from rfl, List.drop_left]
  rw [e1]
  simp only []
  have e2 : (digits ++ [')']).takeWhile Char.isDigit = digits :=
    takeWhile_append_neg Char.isDigit digits ')' [] hdig (by decide)
  rw [e2]
  have e3 : digits.isEmpty = false := by
    cases digits with
    | nil => exact absurd rfl hne
    | cons d ds => rfl
  rw [if_neg (by rw [e3]; simp)]
  rw [List.drop_left]
  rfl

theorem parse_sqlite_type_c1 (ty : String) (h : c1TypeOk ty = true) :
    ∃ tail, parse_sql_type (sqlite_decl_type ty) = ("type", JVal.jstr ty) :: tail := by
  rw [c1TypeOk] at h
  rw [Bool.or_eq_true, Bool.or_eq_true, Bool.or_eq_true, Bool.or_eq_true,
    Bool.or_eq_true] at h
  rcases h with ((((h | h) | h) | h) | h) | h
  · rw [eq_of_beq h]; exact ⟨_, rfl⟩
  · rw [eq_of_beq h]; exact ⟨_, rfl⟩
  · rw [eq_of_beq h]; exact ⟨_, rfl⟩
  · rw [eq_of_beq h]; exact ⟨_, rfl⟩
  · rw [eq_of_beq h]; exact ⟨_, rfl⟩
  · obtain ⟨digits, hstruct, hne, hdig⟩ := varcharForm_struct ty h
    have hsw : sStartsWith ty "VARCHAR" = true := by
      rw [sStartsWith, hstruct,
        show "VARCHAR(".toList = "VARCHAR".toList ++ ['('] from rfl, List.append_assoc]
      exact listPrefixOf_self_append _ _
    have hdecl : sqlite_decl_type ty = ty := by
      rw [sqlite_decl_type, if_pos (by rw [hsw]; rfl)]
    have hchars : ∀ c ∈ ty.toList,
        c.toUpper = c ∧ c.isWhitespace = false := by
      intro c hc
      rw [hstruct, List.mem_append] at hc
      cases hc with
      | inl hc =>
          revert c
          decide
      | inr hc =>
          rw [List.mem_append] at hc
          cases hc with
          | inl hc => exact ⟨digit_toUpper c (hdig c hc), digit_not_ws c (hdig c hc)⟩
          | inr hc =>
              rw [List.mem_singleton] at hc
              subst hc
              exact ⟨by decide, by decide⟩
    have hup : strUpper ty = ty := by
      rw [strUpper]
      refine String.ext ?_
      show ty.toList.map Char.toUpper = ty.data
      rw [map_toUpper_id ty.toList (fun c hc => (hchars c hc).1)]
      rfl
    have hstrip : strStrip (strUpper ty) = ty := by
      rw [hup]
      exact strStrip_no_ws ty (fun c hc => (hchars c hc).2)
    have hvm : parse_sql_type.varchar_match (strStrip (strUpper ty)).toList =
        some digits := by
      rw [hstrip, hstruct]
      exact varchar_match_eval digits hne hdig
    have hty : "VARCHAR(" ++ String.mk digits ++ ")" = ty := by
      refine String.ext ?_
      show ("VARCHAR(" ++ String.mk digits ++ ")").data = ty.data
      rw [String.data_append, String.data_append]
      rw [show (String.mk digits).data = digits from rfl]
      rw [show (")" : String).data = [')'] from rfl]
      rw [show ty.data = ty.toList from rfl, hstruct, List.append_assoc]
      rfl
    rw [hdecl, parse_sql_type, hvm]
    refine ⟨[("max_length", JVal.jint (Int.ofNat (digitsToNat digits)))], ?_⟩
    show [("type", JVal.jstr ("VARCHAR(" ++ String.mk digits ++ ")")),
      ("max_length", JVal.jint (Int.ofNat (digitsToNat digits)))] = _
    rw [hty]


theorem digitChar_isDigit : ∀ m : Nat, m < 10 → (Nat.digitChar m).isDigit = true := by
  decide

theorem toDigitsCore_chars (f : Nat) : ∀ (n : Nat) (l : List Char) (c : Char),
    c ∈ Nat.toDigitsCore 10 f n l → c ∈ l ∨ c.isDigit = true := by
  induction f with
  | zero => intro n l c h; exact Or.inl h
  | succ f ih =>
      intro n l c h
      rw [show Nat.toDigitsCore 10 (f + 1) n l =
        (if n / 10 = 0 then Nat.digitChar (n % 10) :: l
         else Nat.toDigitsCore 10 f (n / 10) (Nat.digitChar (n % 10) :: l)) from rfl] at h
      by_cases hn : n / 10 = 0
      · rw [if_pos hn] at h
        rw [List.mem_cons] at h
        cases h with
        | inl h => exact Or.inr (h ▸ digitChar_isDigit _ (Nat.mod_lt _ (by decide)))
        | inr h => exact Or.inl h
      · rw [if_neg hn] at h
        cases ih (n / 10) (Nat.digitChar (n % 10) :: l) c h with
        | inl h2 =>
            rw [List.mem_cons] at h2
            cases h2 with
            | inl h2 => exact Or.inr (h2 ▸ digitChar_isDigit _ (Nat.mod_lt _ (by decide)))
            | inr h2 => exact Or.inl h2
        | inr h2 => exact Or.inr h2

theorem nat_repr_chars (n : Nat) : ∀ c ∈ (Nat.repr n).toList, c.isDigit = true := by
  intro c hc
  rw [show (Nat.repr n).toList = Nat.toDigits 10 n from rfl] at hc
  cases toDigitsCore_chars (n + 1) n [] c hc with
  | inl h => exact absurd h (List.not_mem_nil c)
  | inr h => exact h

theorem noCheck_of_all_isDigit (l : List Char) (h : ∀ c ∈ l, c.isDigit = true) :
    listCIInfixOf "check".toList l = false :=
  noCheck_of_no_e l (fun c hc he => (digit_toLower_ne c (h c hc) 'e' (by decide)) he.symm)

theorem noCheck_int_toString (n : Int) : noCheck (toString n) = true := by
  rw [noCheck_eq_true_iff]
  cases n with
  | ofNat m =>
      rw [show (toString (Int.ofNat m)).toList = (Nat.repr m).toList from rfl]
      exact noCheck_of_all_isDigit _ (nat_repr_chars m)
  | negSucc m =>
      rw [show (toString (Int.negSucc m)).toList =
        '-' :: (Nat.repr (m + 1)).toList from rfl]
      rw [show ('-' : Char) :: (Nat.repr (m + 1)).toList =
        [] ++ '-' :: (Nat.repr (m + 1)).toList from rfl]
      exact ciInfix_sep_glue '-' (by decide) (by decide)
        (noCheck_of_all_isDigit _ (nat_repr_chars (m + 1)))

theorem noCheck_append_sep (c : Char)
    (hc : ("check".toList).all (fun q => q.toLower != c.toLower) = true)
    {a b : String} (ha : noCheck a = true) (hb : noCheck b = true) :
    noCheck (a ++ String.mk [c] ++ b) = true := by
  rw [noCheck_eq_true_iff]
  rw [show (a ++ String.mk [c] ++ b).toList = a.toList ++ c :: b.toList by
    simp [String.toList, String.data_append]]
  exact ciInfix_sep_glue c hc ((noCheck_eq_true_iff a).mp ha)
    ((noCheck_eq_true_iff b).mp hb)

theorem noCheck_render_default (dv : JVal) (h : c1DefaultOk dv = true) :
    noCheck (render_default dv) = true := by
  cases dv with
  | jnull => exact absurd h (by decide)
  | jarr xs => simp [c1DefaultOk] at h
  | jobj kvs => simp [c1DefaultOk] at h
  | jbool b =>
      cases b with
      | true => decide
      | false => decide
  | jint n =>
      rw [render_default, if_neg (by simp [pyEq])]
      have h2 := noCheck_int_toString n
      rw [noCheck_eq_true_iff,
        show ("DEFAULT " ++ pyStr (.jint n)).toList =
          "DEFAULT".toList ++ ' ' :: (toString n).toList by
            simp [String.toList, String.data_append]
            rfl]
      exact ciInfix_sep_glue ' ' (by decide) (by decide)
        ((noCheck_eq_true_iff _).mp h2)
      intro b hb
      exact JVal.noConfusion hb
      intro s3 hs3
      exact JVal.noConfusion hs3
  | jstr s =>
      cases hs2 : s == "CURRENT_TIMESTAMP" with
      | true =>
          rw [eq_of_beq hs2]
          decide
      | false =>
          rw [c1DefaultOk] at h
          have hs : noCheck s = true := h
          rw [render_default, if_neg (by simp [pyEq, hs2])]
          rw [noCheck_eq_true_iff,
            show ("DEFAULT '" ++ s ++ "'").toList =
              "DEFAULT ".toList ++ '\'' :: (s.toList ++ '\'' :: []) by
                simp [String.toList, String.data_append]]
          exact ciInfix_sep_glue '\'' (by decide) (by decide)
            (ciInfix_sep_glue '\'' (by decide)
              ((noCheck_eq_true_iff s).mp hs) (by decide))

theorem noCheck_findD (m : List (String × String)) (d : String)
    (hall : ∀ p ∈ m, noCheck p.2 = true) (hd : noCheck d = true)
    (q : (String × String) → Bool) :
    noCheck (((m.find? q).map (fun p => p.2)).getD d) = true := by
  cases hf : m.find? q with
  | none => exact hd
  | some p => exact hall p (List.mem_of_find?_eq_some hf)

theorem noCheck_type_mapping_sqlite (ty : String) :
    noCheck (type_mapping_get "sqlite" ty) = true := by
  refine noCheck_findD [("INTEGER", "INTEGER"), ("VARCHAR", "VARCHAR"), ("TEXT", "TEXT"),
    ("DATETIME", "DATETIME"), ("DATE", "DATE"), ("BOOLEAN", "BOOLEAN"),
    ("JSON", "TEXT"), ("ENUM", "TEXT")] "TEXT" (by decide) (by decide)
    (fun p => p.1 == ty)

theorem except_ok_bind {α β : Type} (a : α) (k : α → Except String β) :
    ((Except.ok a : Except String α) >>= k) = k a := rfl

theorem infix_cons_self {c : Char} {l : List Char} : l <:+: c :: l :=
  ⟨[c], [], by simp⟩

theorem ciInfix_tail {p : List Char} {c : Char} {l : List Char}
    (h : listCIInfixOf p (c :: l) = false) : listCIInfixOf p l = false :=
  noCheckL_mono h infix_cons_self

theorem noCheck_sandwich (a b : String) (mid : List Char) (c d : Char)
    (ha : noCheck a = true) (hb : noCheck b = true)
    (hc : ("check".toList).all (fun q => q.toLower != c.toLower) = true)
    (hd : ("check".toList).all (fun q => q.toLower != d.toLower) = true)
    (hmid : listCIInfixOf "check".toList mid = false) :
    listCIInfixOf "check".toList (a.toList ++ c :: (mid ++ d :: b.toList)) = false :=
  ciInfix_sep_glue c hc ((noCheck_eq_true_iff a).mp ha)
    (ciInfix_sep_glue d hd hmid ((noCheck_eq_true_iff b).mp hb))

theorem c1FKOk_fields {kvs : List (String × JVal)} (h : c1FKOk (.jobj kvs) = true) :
    (∃ ft, objLookup kvs "table" = some (.jstr ft) ∧ noCheck ft = true) ∧
    (∃ fc, objLookup kvs "column" = some (.jstr fc) ∧ noCheck fc = true) ∧
    (∀ v, objLookup kvs "on_delete" = some v → ∃ s, v = .jstr s ∧ noCheck s = true) ∧
    (∀ v, objLookup kvs "on_update" = some v → ∃ s, v = .jstr s ∧ noCheck s = true) := by
  rw [c1FKOk, Bool.and_eq_true, Bool.and_eq_true, Bool.and_eq_true] at h
  obtain ⟨⟨⟨hT, hC⟩, hOD⟩, hOU⟩ := h
  refine ⟨?_, ?_, ?_, ?_⟩
  · cases hl : objLookup kvs "table" with
    | none => rw [hl] at hT; exact absurd hT (by simp)
    | some v =>
        rw [hl] at hT
        cases v with
        | jstr s => exact ⟨s, rfl, hT⟩
        | jnull => exact absurd hT (by simp)
        | jbool b => exact absurd hT (by simp)
        | jint n => exact absurd hT (by simp)
        | jarr xs => exact absurd hT (by simp)
        | jobj o => exact absurd hT (by simp)
  · cases hl : objLookup kvs "column" with
    | none => rw [hl] at hC; exact absurd hC (by simp)
    | some v =>
        rw [hl] at hC
        cases v with
        | jstr s => exact ⟨s, rfl, hC⟩
        | jnull => exact absurd hC (by simp)
        | jbool b => exact absurd hC (by simp)
        | jint n => exact absurd hC (by simp)
        | jarr xs => exact absurd hC (by simp)
        | jobj o => exact absurd hC (by simp)
  · intro v hl
    rw [hl] at hOD
    cases v with
    | jstr s => exact ⟨s, rfl, hOD⟩
    | jnull => exact absurd hOD (by simp)
    | jbool b => exact absurd hOD (by simp)
    | jint n => exact absurd hOD (by simp)
    | jarr xs => exact absurd hOD (by simp)
    | jobj o => exact absurd hOD (by simp)
  · intro v hl
    rw [hl] at hOU
    cases v with
    | jstr s => exact ⟨s, rfl, hOU⟩
    | jnull => exact absurd hOU (by simp)
    | jbool b => exact absurd hOU (by simp)
    | jint n => exact absurd hOU (by simp)
    | jarr xs => exact absurd hOU (by simp)
    | jobj o => exact absurd hOU (by simp)

theorem noCheck_fk_line (cn ft fc : String) (hcn : noCheck cn = true)
    (hft : noCheck ft = true) (hfc : noCheck fc = true) :
    noCheck ("    FOREIGN KEY (" ++ cn ++ ") REFERENCES " ++ ft ++ "(" ++ fc ++ ")") =
      true := by
  rw [noCheck_eq_true_iff]
  rw [show ("    FOREIGN KEY (" ++ cn ++ ") REFERENCES " ++ ft ++ "(" ++ fc ++
      ")").toList = "    FOREIGN KEY ".toList ++ '(' ::
        (cn.toList ++ ')' :: (" REFERENCES".toList ++ ' ' ::
          (ft.toList ++ '(' :: (fc.toList ++ ')' :: [])))) by
    simp only [String.toList, String.data_append, List.append_assoc]
    rfl]
  refine ciInfix_sep_glue '(' (by decide) (by decide) ?_
  refine ciInfix_sep_glue ')' (by decide) ((noCheck_eq_true_iff cn).mp hcn) ?_
  refine ciInfix_sep_glue ' ' (by decide) (by decide) ?_
  refine ciInfix_sep_glue '(' (by decide) ((noCheck_eq_true_iff ft).mp hft) ?_
  exact ciInfix_sep_glue ')' (by decide) ((noCheck_eq_true_iff fc).mp hfc) (by decide)

theorem noCheck_on_delete (a od : String) (ha : noCheck a = true)
    (hod : noCheck od = true) : noCheck (a ++ " ON DELETE " ++ od) = true := by
  rw [noCheck_eq_true_iff]
  rw [show (a ++ " ON DELETE " ++ od).toList =
      a.toList ++ ' ' :: ("ON DELETE".toList ++ ' ' :: od.toList) by
    simp only [String.toList, String.data_append, List.append_assoc]
    rfl]
  exact noCheck_sandwich a od "ON DELETE".toList ' ' ' ' ha hod
    (by decide) (by decide) (by decide)

theorem noCheck_on_update (a ou : String) (ha : noCheck a = true)
    (hou : noCheck ou = true) : noCheck (a ++ " ON UPDATE " ++ ou) = true := by
  rw [noCheck_eq_true_iff]
  rw [show (a ++ " ON UPDATE " ++ ou).toList =
      a.toList ++ ' ' :: ("ON UPDATE".toList ++ ' ' :: ou.toList) by
    simp only [String.toList, String.data_append, List.append_assoc]
    rfl]
  exact noCheck_sandwich a ou "ON UPDATE".toList ' ' ' ' ha hou
    (by decide) (by decide) (by decide)

theorem except_pure_bind {α β : Type} (a : α) (k : α → Except String β) :
    ((pure a : Except String α) >>= k) = k a := rfl

theorem fk_clause_c1 (cn : String) {kvs : List (String × JVal)} (hcn : noCheck cn = true)
    (h : c1FKOk (.jobj kvs) = true) :
    ∃ line, fk_clause cn (.jobj kvs) = .ok line ∧ noCheck line = true := by
  obtain ⟨⟨ft, hft, hnft⟩, ⟨fc, hfc, hnfc⟩, hOD, hOU⟩ := c1FKOk_fields h
  have hl0 := noCheck_fk_line cn ft fc hcn hnft hnfc
  rw [fk_clause]
  rw [pyGetItemS_of_lookup hft, except_ok_bind]
  try simp only []
  rw [pyGetItemS_of_lookup hfc, except_ok_bind]
  try simp only []
  rw [show pyContainsS "on_delete" (JVal.jobj kvs) =
    .ok (kvs.any (fun p => p.1 == "on_delete")) from rfl, except_ok_bind]
  try simp only []
  cases hod : kvs.any (fun p => p.1 == "on_delete") with
  | true =>
      rw [if_pos rfl]
      obtain ⟨odv, hodv⟩ := any_objLookup_some hod
      obtain ⟨od, hodeq, hnod⟩ := hOD odv hodv
      subst hodeq
      rw [pyGetItemS_of_lookup hodv, except_ok_bind]
      try simp only []
      rw [except_pure_bind]
      try simp only []
      rw [show pyContainsS "on_update" (JVal.jobj kvs) =
        .ok (kvs.any (fun p => p.1 == "on_update")) from rfl, except_ok_bind]
      try simp only []
      cases hou : kvs.any (fun p => p.1 == "on_update") with
      | true =>
          rw [if_pos rfl]
          obtain ⟨ouv, houv⟩ := any_objLookup_some hou
          obtain ⟨ou, houeq, hnou⟩ := hOU ouv houv
          subst houeq
          rw [pyGetItemS_of_lookup houv, except_ok_bind]
          try simp only []
          rw [except_pure_bind]
          try simp only []
          refine ⟨_, rfl, ?_⟩
          exact noCheck_on_update _ _ (noCheck_on_delete _ _ hl0 hnod) hnou
      | false =>
          rw [if_neg (by decide)]
          rw [except_pure_bind]
          try simp only []
          refine ⟨_, rfl, ?_⟩
          exact noCheck_on_delete _ _ hl0 hnod
  | false =>
      rw [if_neg (by decide)]
      rw [except_pure_bind]
      try simp only []
      rw [show pyContainsS "on_update" (JVal.jobj kvs) =
        .ok (kvs.any (fun p => p.1 == "on_update")) from rfl, except_ok_bind]
      try simp only []
      cases hou : kvs.any (fun p => p.1 == "on_update") with
      | true =>
          rw [if_pos rfl]
          obtain ⟨ouv, houv⟩ := any_objLookup_some hou
          obtain ⟨ou, houeq, hnou⟩ := hOU ouv houv
          subst houeq
          rw [pyGetItemS_of_lookup houv, except_ok_bind]
          try simp only []
          rw [except_pure_bind]
          try simp only []
          refine ⟨_, rfl, ?_⟩
          exact noCheck_on_update _ _ hl0 hnou
      | false =>
          rw [if_neg (by decide)]
          rw [except_pure_bind]
          try simp only []
          refine ⟨_, rfl, ?_⟩
          exact hl0

theorem c1ColumnOk_fields {cn : String} {kvs : List (String × JVal)}
    (h : c1ColumnOk cn (.jobj kvs) = true) :
    noCheck cn = true ∧
    (∃ ty, objLookup kvs "type" = some (.jstr ty) ∧ c1TypeOk ty = true) ∧
    (∀ v, objLookup kvs "default" = some v → c1DefaultOk v = true) ∧
    (∀ v, objLookup kvs "foreign_key" = some v → c1FKOk v = true) := by
  rw [c1ColumnOk, Bool.and_eq_true] at h
  obtain ⟨hcn, h2⟩ := h
  rw [Bool.and_eq_true, Bool.and_eq_true] at h2
  obtain ⟨⟨hT, hD⟩, hF⟩ := h2
  refine ⟨hcn, ?_, ?_, ?_⟩
  · cases hl : objLookup kvs "type" with
    | none => rw [hl] at hT; exact absurd hT (by simp)
    | some v =>
        rw [hl] at hT
        cases v with
        | jstr s => exact ⟨s, rfl, hT⟩
        | jnull => exact absurd hT (by simp)
        | jbool b => exact absurd hT (by simp)
        | jint n => exact absurd hT (by simp)
        | jarr xs => exact absurd hT (by simp)
        | jobj o => exact absurd hT (by simp)
  · intro v hl
    rw [hl] at hD
    exact hD
  · intro v hl
    rw [hl] at hF
    exact hF

theorem noCheck_all_ite_singleton (c : Bool) (s : String) (hs : noCheck s = true) :
    ∀ x ∈ (if c = true then [s] else []), noCheck x = true := by
  cases c with
  | true => intro x hx; rw [List.mem_singleton.mp hx]; exact hs
  | false => intro x hx; exact absurd hx (List.not_mem_nil x)

theorem generate_column_sql_c1 {cn : String} {kvs : List (String × JVal)}
    (h : c1ColumnOk cn (.jobj kvs) = true) :
    ∃ line, generate_column_sql cn (.jobj kvs) "sqlite" = .ok line ∧
      noCheck line = true := by
  obtain ⟨hcn, ⟨ty, hty, htyok⟩, hdef, -⟩ := c1ColumnOk_fields h
  have hnE : (ty == "ENUM") = false := by
    cases hE : ty == "ENUM" with
    | true => rw [eq_of_beq hE] at htyok; exact absurd htyok (by decide)
    | false => rfl
  have htp0 : noCheck (if sStartsWith ty "VARCHAR" || sStartsWith ty "CHAR" then ty
      else type_mapping_get "sqlite" ty) = true := by
    cases hsw : sStartsWith ty "VARCHAR" || sStartsWith ty "CHAR" with
    | true => rw [if_pos rfl]; exact noCheck_c1Type ty htyok
    | false => rw [if_neg (by decide)]; exact noCheck_type_mapping_sqlite ty
  have hfinish : ∀ (tp : String) (pkp nn uqp dp : List String),
      noCheck tp = true → (∀ x ∈ pkp, noCheck x = true) →
      (∀ x ∈ nn, noCheck x = true) → (∀ x ∈ uqp, noCheck x = true) →
      (∀ x ∈ dp, noCheck x = true) →
      ∃ line, (do
        let colTypeV2 ← (Except.ok (JVal.jstr ty) : Except String JVal)
        let hasValues ← pyContainsS "values" (JVal.jobj kvs)
        let (typePart, checkParts) ← if pyEq colTypeV2 (.jstr "ENUM") && hasValues then do
            let valsV ← pyGetItemS (JVal.jobj kvs) "values"
            let vals ← pyIter valsV
            let valuesStr := enum_values_str vals
            if ("sqlite" : String) == "mysql" then
              pure ("ENUM(" ++ valuesStr ++ ")", ([] : List String))
            else
              pure (tp, ["CHECK (" ++ cn ++ " IN (" ++ valuesStr ++ "))"])
          else pure (tp, ([] : List String))
        (pure (joinSep " " ([cn, typePart] ++ pkp ++ nn ++ uqp ++ dp ++ checkParts)) :
          Except String String)) = .ok line ∧ noCheck line = true := by
    intro tp pkp nn uqp dp htp hpkp hnn huqp hdp
    rw [except_ok_bind]
    try simp only []
    rw [show pyContainsS "values" (JVal.jobj kvs) =
      .ok (kvs.any (fun p => p.1 == "values")) from rfl, except_ok_bind]
    try simp only []
    rw [show pyEq (JVal.jstr ty) (JVal.jstr "ENUM") = (ty == "ENUM") from rfl, hnE,
      Bool.false_and]
    rw [if_neg (by decide)]
    rw [except_pure_bind]
    try simp only []
    refine ⟨_, rfl, ?_⟩
    refine noCheck_joinSep " " (by decide) (by decide) _ ?_
    intro x hx
    rw [List.mem_append] at hx
    rcases hx with hx | hx
    · rw [List.mem_append] at hx
      rcases hx with hx | hx
      · rw [List.mem_append] at hx
        rcases hx with hx | hx
        · rw [List.mem_append] at hx
          rcases hx with hx | hx
          · rw [List.mem_append] at hx
            rcases hx with hx | hx
            · rw [List.mem_cons] at hx
              rcases hx with rfl | hx
              · exact hcn
              · rw [List.mem_singleton.mp hx]; exact htp
            · exact hpkp x hx
          · exact hnn x hx
        · exact huqp x hx
      · exact hdp x hx
    · exact absurd hx (List.not_mem_nil x)
  have htail : ∀ (tp : String) (pkp : List String), noCheck tp = true →
      (∀ x ∈ pkp, noCheck x = true) →
      ∃ line, (do
        let nul ← pyGet (JVal.jobj kvs) "nullable" JVal.jnull
        let nnParts := if pyEq nul (.jbool false) then ["NOT NULL"] else []
        let uq ← pyGet (JVal.jobj kvs) "unique" JVal.jnull
        let uqParts := if pyTruthy uq then ["UNIQUE"] else []
        let hasDefault ← pyContainsS "default" (JVal.jobj kvs)
        let defParts ← if hasDefault then do
            let dv ← pyGetItemS (JVal.jobj kvs) "default"
            pure [render_default dv]
          else pure ([] : List String)
        let colTypeV2 ← (Except.ok (JVal.jstr ty) : Except String JVal)
        let hasValues ← pyContainsS "values" (JVal.jobj kvs)
        let (typePart, checkParts) ← if pyEq colTypeV2 (.jstr "ENUM") && hasValues then do
            let valsV ← pyGetItemS (JVal.jobj kvs) "values"
            let vals ← pyIter valsV
            let valuesStr := enum_values_str vals
            if ("sqlite" : String) == "mysql" then
              pure ("ENUM(" ++ valuesStr ++ ")", ([] : List String))
            else
              pure (tp, ["CHECK (" ++ cn ++ " IN (" ++ valuesStr ++ "))"])
          else pure (tp, ([] : List String))
        (pure (joinSep " "
          ([cn, typePart] ++ pkp ++ nnParts ++ uqParts ++ defParts ++ checkParts)) :
          Except String String)) = .ok line ∧ noCheck line = true := by
    intro tp pkp htp hpkp
    rw [show pyGet (JVal.jobj kvs) "nullable" JVal.jnull =
      .ok ((objLookup kvs "nullable").getD JVal.jnull) from rfl, except_ok_bind]
    try simp only []
    rw [show pyGet (JVal.jobj kvs) "unique" JVal.jnull =
      .ok ((objLookup kvs "unique").getD JVal.jnull) from rfl, except_ok_bind]
    try simp only []
    rw [show pyContainsS "default" (JVal.jobj kvs) =
      .ok (kvs.any (fun p => p.1 == "default")) from rfl, except_ok_bind]
    try simp only []
    cases hD : kvs.any (fun p => p.1 == "default") with
    | true =>
        rw [if_pos rfl]
        obtain ⟨dv, hdv⟩ := any_objLookup_some hD
        rw [pyGetItemS_of_lookup hdv, except_ok_bind]
        try simp only []
        rw [except_pure_bind]
        try simp only []
        exact hfinish tp pkp _ _ _ htp hpkp
          (noCheck_all_ite_singleton _ _ (by decide))
          (noCheck_all_ite_singleton _ _ (by decide))
          (noCheck_all_ite_singleton true _ (noCheck_render_default dv (hdef dv hdv)))
    | false =>
        rw [if_neg (by decide)]
        rw [except_pure_bind]
        try simp only []
        exact hfinish tp pkp _ _ [] htp hpkp
          (noCheck_all_ite_singleton _ _ (by decide))
          (noCheck_all_ite_singleton _ _ (by decide))
          (fun x hx => absurd hx (List.not_mem_nil x))
  rw [generate_column_sql]
  rw [pyGetItemS_of_lookup hty, except_ok_bind]
  try simp only []
  rw [show asStr (JVal.jstr ty) = .ok ty from rfl, except_ok_bind]
  try simp only []
  rw [show pyGet (JVal.jobj kvs) "primary_key" JVal.jnull =
    .ok ((objLookup kvs "primary_key").getD JVal.jnull) from rfl, except_ok_bind]
  try simp only []
  rw [show pyGet (JVal.jobj kvs) "auto_increment" JVal.jnull =
    .ok ((objLookup kvs "auto_increment").getD JVal.jnull) from rfl, except_ok_bind]
  try simp only []
  cases hpk : pyTruthy ((objLookup kvs "primary_key").getD JVal.jnull) with
  | false =>
      rw [if_neg (by decide)]
      try simp only []
      exact htail _ [] htp0 (fun x hx => absurd hx (List.not_mem_nil x))
  | true =>
      rw [if_pos rfl]
      rw [show (("sqlite" : String) == "postgresql") = false from rfl, Bool.false_and]
      rw [if_neg (by decide)]
      rw [show (("sqlite" : String) == "mysql") = false from rfl, Bool.false_and]
      rw [if_neg (by decide)]
      cases hai : pyTruthy ((objLookup kvs "auto_increment").getD JVal.jnull) with
      | true =>
          rw [if_pos (show (true : Bool) = true from rfl)]
          try simp only []
          exact htail _ ["PRIMARY KEY", "AUTOINCREMENT"] htp0 (by decide)
      | false =>
          rw [if_neg (show ¬((false : Bool) = true) by decide)]
          try simp only []
          exact htail _ ["PRIMARY KEY"] htp0 (by decide)

theorem noCheck_indent (line : String) (h : noCheck line = true) :
    noCheck ("    " ++ line) = true := by
  rw [noCheck_eq_true_iff, show ("    " ++ line).toList =
    "    ".toList ++ line.toList by simp [String.toList, String.data_append]]
  exact ciInfix_sepList_prepend (by decide) _ _ (by decide)
    ((noCheck_eq_true_iff line).mp h)

theorem c1ColumnOk_obj {cn : String} {ci : JVal} (h : c1ColumnOk cn ci = true) :
    ∃ kvs, ci = .jobj kvs := by
  cases ci with
  | jobj kvs => exact ⟨kvs, rfl⟩
  | jnull => simp [c1ColumnOk] at h
  | jbool b => simp [c1ColumnOk] at h
  | jint n => simp [c1ColumnOk] at h
  | jstr s => simp [c1ColumnOk] at h
  | jarr xs => simp [c1ColumnOk] at h

theorem c1FKOk_obj {fk : JVal} (h : c1FKOk fk = true) : ∃ kvs, fk = .jobj kvs := by
  cases fk with
  | jobj kvs => exact ⟨kvs, rfl⟩
  | jnull => exact Bool.noConfusion h
  | jbool b => exact Bool.noConfusion h
  | jint n => exact Bool.noConfusion h
  | jstr s => exact Bool.noConfusion h
  | jarr xs => exact Bool.noConfusion h

theorem table_columns_loop_c1 :
    ∀ (cols : List (String × JVal)) (colLines fkLines : List String),
    (∀ p ∈ cols, c1ColumnOk p.1 p.2 = true) →
    (∀ x ∈ colLines, noCheck x = true) → (∀ x ∈ fkLines, noCheck x = true) →
    ∃ cl fl, table_columns_loop cols "sqlite" colLines fkLines = .ok (cl, fl) ∧
      (∀ x ∈ cl, noCheck x = true) ∧ (∀ x ∈ fl, noCheck x = true) := by
  intro cols
  induction cols with
  | nil => intro colLines fkLines hall h1 h2; exact ⟨colLines, fkLines, rfl, h1, h2⟩
  | cons p rest ih =>
      obtain ⟨cn, ci⟩ := p
      intro colLines fkLines hall h1 h2
      have hp := hall (cn, ci) (List.mem_cons_self _ _)
      obtain ⟨kvs, hkvs⟩ := c1ColumnOk_obj hp
      subst hkvs
      obtain ⟨line, hline, hnl⟩ := generate_column_sql_c1 hp
      rw [table_columns_loop]
      rw [hline, except_ok_bind]
      try simp only []
      rw [show pyContainsS "foreign_key" (JVal.jobj kvs) =
        .ok (kvs.any (fun p => p.1 == "foreign_key")) from rfl, except_ok_bind]
      try simp only []
      have h1x : ∀ x ∈ colLines ++ ["    " ++ line], noCheck x = true := by
        intro x hx
        rw [List.mem_append] at hx
        rcases hx with hx | hx
        · exact h1 x hx
        · rw [List.mem_singleton.mp hx]; exact noCheck_indent line hnl
      cases hFK : kvs.any (fun p => p.1 == "foreign_key") with
      | true =>
          rw [if_pos rfl]
          obtain ⟨fkv, hfkv⟩ := any_objLookup_some hFK
          have hfko := (c1ColumnOk_fields hp).2.2.2 fkv hfkv
          obtain ⟨kvs2, hkvs2⟩ := c1FKOk_obj hfko
          subst hkvs2
          obtain ⟨fline, hfline, hnfl2⟩ :=
            fk_clause_c1 cn (hp |> c1ColumnOk_fields |>.1) hfko
          rw [pyGetItemS_of_lookup hfkv, except_ok_bind]
          try simp only []
          rw [hfline, except_ok_bind]
          try simp only []
          rw [except_pure_bind]
          try simp only []
          refine ih _ _ (fun q hq => hall q (List.mem_cons_of_mem _ hq)) h1x ?_
          intro x hx
          rw [List.mem_append] at hx
          rcases hx with hx | hx
          · exact h2 x hx
          · rw [List.mem_singleton.mp hx]; exact hnfl2
      | false =>
          rw [if_neg (by decide)]
          rw [except_pure_bind]
          try simp only []
          exact ih _ _ (fun q hq => hall q (List.mem_cons_of_mem _ hq)) h1x h2

theorem c1TableOk_fields {tn : String} {tkvs : List (String × JVal)}
    (h : c1TableOk tn (.jobj tkvs) = true) :
    noCheck tn = true ∧ sStartsWith tn "sqlite_" = false ∧
    (∀ v, objLookup tkvs "description" = some v →
      ∃ s, v = .jstr s ∧ noCheck s = true) ∧
    (∃ ckvs, objLookup tkvs "columns" = some (.jobj ckvs) ∧ nodupKeysB ckvs = true ∧
      ∀ p ∈ ckvs, c1ColumnOk p.1 p.2 = true) ∧
    (∀ v, objLookup tkvs "indexes" = some v →
      ∃ xs, v = .jarr xs ∧ ∀ i ∈ xs, c1IndexOk i = true) := by
  rw [c1TableOk, Bool.and_eq_true, Bool.and_eq_true] at h
  obtain ⟨⟨hn, hsw⟩, h2⟩ := h
  rw [Bool.and_eq_true, Bool.and_eq_true] at h2
  obtain ⟨⟨hD, hC⟩, hI⟩ := h2
  refine ⟨hn, by rw [Bool.not_eq_true'] at hsw; exact hsw, ?_, ?_, ?_⟩
  · intro v hl
    rw [hl] at hD
    cases v with
    | jstr s => exact ⟨s, rfl, hD⟩
    | jnull => exact absurd hD (by simp)
    | jbool b => exact absurd hD (by simp)
    | jint n => exact absurd hD (by simp)
    | jarr xs => exact absurd hD (by simp)
    | jobj o => exact absurd hD (by simp)
  · cases hl : objLookup tkvs "columns" with
    | none => rw [hl] at hC; exact absurd hC (by simp)
    | some v =>
        rw [hl] at hC
        cases v with
        | jobj ckvs =>
            rw [Bool.and_eq_true] at hC
            refine ⟨ckvs, rfl, hC.1, ?_⟩
            intro p hp
            exact List.all_eq_true.mp hC.2 p hp
        | jnull => exact absurd hC (by simp)
        | jbool b => exact absurd hC (by simp)
        | jint n => exact absurd hC (by simp)
        | jstr s => exact absurd hC (by simp)
        | jarr xs => exact absurd hC (by simp)
  · intro v hl
    rw [hl] at hI
    cases v with
    | jarr xs =>
        refine ⟨xs, rfl, ?_⟩
        intro i hi
        exact List.all_eq_true.mp hI i hi
    | jnull => exact absurd hI (by simp)
    | jbool b => exact absurd hI (by simp)
    | jint n => exact absurd hI (by simp)
    | jstr s => exact absurd hI (by simp)
    | jobj o => exact absurd hI (by simp)

theorem noCheck_header (s : String) (h : noCheck s = true) :
    noCheck ("-- " ++ s) = true := by
  rw [noCheck_eq_true_iff, show ("-- " ++ s).toList = "-- ".toList ++ s.toList by
    simp [String.toList, String.data_append]]
  exact ciInfix_sepList_prepend (by decide) _ _ (by decide)
    ((noCheck_eq_true_iff s).mp h)

theorem noCheck_createLine (tn : String) (h : noCheck tn = true) :
    noCheck ("CREATE TABLE IF NOT EXISTS " ++ tn ++ " (") = true := by
  rw [noCheck_eq_true_iff, show ("CREATE TABLE IF NOT EXISTS " ++ tn ++ " (").toList =
    "CREATE TABLE IF NOT EXISTS".toList ++ ' ' :: (tn.toList ++ ' ' :: "(".toList) by
      simp only [String.toList, String.data_append, List.append_assoc]
      rfl]
  exact noCheck_sandwich "CREATE TABLE IF NOT EXISTS" "(" tn.toList ' ' ' '
    (by decide) (by decide) (by decide) (by decide)
    ((noCheck_eq_true_iff tn).mp h)

theorem generate_table_sql_c1 (tn : String) {tkvs : List (String × JVal)}
    (h : c1TableOk tn (.jobj tkvs) = true) :
    ∃ sql, generate_table_sql tn (.jobj tkvs) "sqlite" = .ok sql ∧
      noCheck sql = true := by
  obtain ⟨hn, hsw, hD, ⟨ckvs, hck, hnd, hcols⟩, hI⟩ := c1TableOk_fields h
  have hdesc : ∃ ds, (objLookup tkvs "description").getD (.jstr tn) = .jstr ds ∧
      noCheck ds = true := by
    cases hl : objLookup tkvs "description" with
    | none => exact ⟨tn, rfl, hn⟩
    | some v =>
        obtain ⟨s, hv, hns⟩ := hD v hl
        exact ⟨s, by simp [hv], hns⟩
  obtain ⟨ds, hds, hnds⟩ := hdesc
  rw [generate_table_sql]
  rw [show pyGet (JVal.jobj tkvs) "description" (.jstr tn) =
    .ok ((objLookup tkvs "description").getD (.jstr tn)) from rfl, except_ok_bind]
  try simp only []
  rw [hds]
  rw [pyGetItemS_of_lookup hck, except_ok_bind]
  try simp only []
  rw [show asObj (JVal.jobj ckvs) = .ok ckvs from rfl, except_ok_bind]
  try simp only []
  obtain ⟨cl, fl, hloop, hncl, hnfl⟩ := table_columns_loop_c1 ckvs [] []
    hcols (fun x hx => absurd hx (List.not_mem_nil x))
    (fun x hx => absurd hx (List.not_mem_nil x))
  rw [hloop, except_ok_bind]
  try simp only []
  rw [show (("sqlite" : String) == "mysql") = false from rfl]
  rw [if_neg (by decide)]
  refine ⟨_, rfl, ?_⟩
  refine noCheck_joinSep "\n" (by decide) (by decide) _ ?_
  intro x hx
  rw [List.mem_cons] at hx
  rcases hx with rfl | hx
  · exact noCheck_header ds hnds
  rw [List.mem_cons] at hx
  rcases hx with rfl | hx
  · exact noCheck_createLine tn hn
  rw [List.mem_cons] at hx
  rcases hx with rfl | hx
  · refine noCheck_joinSep ",\n" (by decide) (by decide) _ ?_
    intro y hy
    rw [List.mem_append] at hy
    rcases hy with hy | hy
    · exact hncl y hy
    · exact hnfl y hy
  rw [List.mem_singleton.mp hx]
  decide

theorem materialize_column_c1 {cn : String} {kvs : List (String × JVal)}
    (h : c1ColumnOk cn (.jobj kvs) = true) :
    ∃ c : CatCol, materialize_column cn (.jobj kvs) = .ok c ∧
      c.name = cn ∧ ∃ ty, objLookup kvs "type" = some (.jstr ty) ∧
        c1TypeOk ty = true ∧ c.declType = sqlite_decl_type ty := by
  obtain ⟨hcn, ⟨ty, hty, htyok⟩, hdef, -⟩ := c1ColumnOk_fields h
  rw [materialize_column]
  rw [pyGetItemS_of_lookup hty, except_ok_bind]
  try simp only []
  rw [show asStr (JVal.jstr ty) = .ok ty from rfl, except_ok_bind]
  try simp only []
  rw [show pyGet (JVal.jobj kvs) "primary_key" JVal.jnull =
    .ok ((objLookup kvs "primary_key").getD JVal.jnull) from rfl, except_ok_bind]
  try simp only []
  rw [show pyGet (JVal.jobj kvs) "nullable" JVal.jnull =
    .ok ((objLookup kvs "nullable").getD JVal.jnull) from rfl, except_ok_bind]
  try simp only []
  rw [show pyContainsS "default" (JVal.jobj kvs) =
    .ok (kvs.any (fun p => p.1 == "default")) from rfl, except_ok_bind]
  try simp only []
  cases hD : kvs.any (fun p => p.1 == "default") with
  | true =>
      rw [if_pos rfl]
      obtain ⟨dv, hdv⟩ := any_objLookup_some hD
      rw [pyGetItemS_of_lookup hdv, except_ok_bind]
      try simp only []
      rw [except_pure_bind]
      try simp only []
      exact ⟨_, rfl, rfl, ty, hty, htyok, rfl⟩
  | false =>
      rw [if_neg (by decide)]
      rw [except_pure_bind]
      try simp only []
      exact ⟨_, rfl, rfl, ty, hty, htyok, rfl⟩

theorem materialize_cols_c1 :
    ∀ (cols : List (String × JVal)) (acc : List CatCol),
    (∀ p ∈ cols, c1ColumnOk p.1 p.2 = true) →
    ∃ catCols, materialize_table.materialize_cols cols acc = .ok (acc ++ catCols) ∧
      List.Forall₂ (fun (p : String × JVal) (c : CatCol) => c.name = p.1 ∧
        ∃ kvs ty, p.2 = JVal.jobj kvs ∧ objLookup kvs "type" = some (.jstr ty) ∧
          c1TypeOk ty = true ∧ c.declType = sqlite_decl_type ty) cols catCols := by
  intro cols
  induction cols with
  | nil =>
      intro acc hall
      exact ⟨[], by rw [List.append_nil]; rfl, List.Forall₂.nil⟩
  | cons p rest ih =>
      obtain ⟨cn, ci⟩ := p
      intro acc hall
      have hp := hall (cn, ci) (List.mem_cons_self _ _)
      obtain ⟨kvs, hkvs⟩ := c1ColumnOk_obj hp
      subst hkvs
      obtain ⟨c, hc, hcn2, ty, hty, htyok, hdt⟩ := materialize_column_c1 hp
      rw [materialize_table.materialize_cols]
      rw [hc, except_ok_bind]
      try simp only []
      obtain ⟨cs, hcs, hf⟩ := ih (acc ++ [c])
        (fun q hq => hall q (List.mem_cons_of_mem _ hq))
      refine ⟨c :: cs, ?_, ?_⟩
      · rw [hcs, List.append_assoc, List.singleton_append]
      · exact List.Forall₂.cons ⟨hcn2, kvs, ty, rfl, hty, htyok, hdt⟩ hf

theorem c1IndexOk_fields {v : JVal} (h : c1IndexOk v = true) :
    ∃ kvs, v = .jobj kvs ∧ (∃ nv, objLookup kvs "name" = some nv) ∧
      ∃ xs, objLookup kvs "columns" = some (.jarr xs) ∧
        ∀ x ∈ xs, ∃ s, x = JVal.jstr s := by
  cases v with
  | jobj kvs =>
      rw [c1IndexOk, Bool.and_eq_true] at h
      obtain ⟨hN, hC⟩ := h
      refine ⟨kvs, rfl, ?_, ?_⟩
      · cases hl : objLookup kvs "name" with
        | none => rw [hl] at hN; exact absurd hN (by simp)
        | some nv => exact ⟨nv, rfl⟩
      · cases hl : objLookup kvs "columns" with
        | none => rw [hl] at hC; exact absurd hC (by simp)
        | some cv =>
            rw [hl] at hC
            cases cv with
            | jarr xs =>
                refine ⟨xs, rfl, ?_⟩
                intro x hx
                have := List.all_eq_true.mp hC x hx
                cases x with
                | jstr s => exact ⟨s, rfl⟩
                | jnull => exact absurd this (by simp)
                | jbool b => exact absurd this (by simp)
                | jint n => exact absurd this (by simp)
                | jarr ys => exact absurd this (by simp)
                | jobj o => exact absurd this (by simp)
            | jnull => exact absurd hC (by simp)
            | jbool b => exact absurd hC (by simp)
            | jint n => exact absurd hC (by simp)
            | jstr s => exact absurd hC (by simp)
            | jobj o => exact absurd hC (by simp)
  | jnull => exact absurd h (by decide)
  | jbool b => exact Bool.noConfusion h
  | jint n => exact Bool.noConfusion h
  | jstr s => exact Bool.noConfusion h
  | jarr xs => exact Bool.noConfusion h

theorem mapM_asStr_loop : ∀ (xs : List JVal) (acc : List String),
    (∀ x ∈ xs, ∃ s, x = JVal.jstr s) →
    ∃ l, List.mapM.loop asStr xs acc = .ok l := by
  intro xs
  induction xs with
  | nil => intro acc h; exact ⟨acc.reverse, rfl⟩
  | cons x rest ih =>
      intro acc h
      obtain ⟨s, hs⟩ := h x (List.mem_cons_self _ _)
      subst hs
      rw [List.mapM.loop]
      rw [show asStr (JVal.jstr s) = .ok s from rfl, except_ok_bind]
      exact ih (s :: acc) (fun y hy => h y (List.mem_cons_of_mem _ hy))

theorem mapM_asStr_total (xs : List JVal) (h : ∀ x ∈ xs, ∃ s, x = JVal.jstr s) :
    ∃ l, xs.mapM asStr = .ok l :=
  mapM_asStr_loop xs [] h

theorem materialize_index_list_c1 : ∀ (xs : List JVal) (acc : List CatIndex),
    (∀ i ∈ xs, c1IndexOk i = true) →
    ∃ l, materialize_indexes.materialize_index_list xs acc = .ok l := by
  intro xs
  induction xs with
  | nil => intro acc h; exact ⟨acc, rfl⟩
  | cons idx rest ih =>
      intro acc h
      obtain ⟨kvs, hkvs, ⟨nv, hnv⟩, cxs, hcxs, hstrs⟩ :=
        c1IndexOk_fields (h idx (List.mem_cons_self _ _))
      subst hkvs
      rw [materialize_indexes.materialize_index_list]
      rw [pyGetItemS_of_lookup hnv, except_ok_bind]
      try simp only []
      rw [show pyGet (JVal.jobj kvs) "unique" JVal.jnull =
        .ok ((objLookup kvs "unique").getD JVal.jnull) from rfl, except_ok_bind]
      try simp only []
      rw [pyGetItemS_of_lookup hcxs, except_ok_bind]
      try simp only []
      rw [show pyIter (JVal.jarr cxs) = .ok cxs from rfl, except_ok_bind]
      try simp only []
      obtain ⟨l2, hl2⟩ := mapM_asStr_total cxs hstrs
      rw [hl2, except_ok_bind]
      try simp only []
      exact ih _ (fun y hy => h y (List.mem_cons_of_mem _ hy))

theorem materialize_indexes_c1 {tkvs : List (String × JVal)}
    (hI : ∀ v, objLookup tkvs "indexes" = some v →
      ∃ xs, v = .jarr xs ∧ ∀ i ∈ xs, c1IndexOk i = true) :
    ∃ idxs, materialize_indexes (.jobj tkvs) = .ok idxs := by
  rw [materialize_indexes]
  rw [show pyContainsS "indexes" (JVal.jobj tkvs) =
    .ok (tkvs.any (fun p => p.1 == "indexes")) from rfl, except_ok_bind]
  try simp only []
  cases hx : tkvs.any (fun p => p.1 == "indexes") with
  | true =>
      rw [if_pos rfl]
      obtain ⟨v, hv⟩ := any_objLookup_some hx
      obtain ⟨xs, hxs, hok⟩ := hI v hv
      subst hxs
      rw [pyGetItemS_of_lookup hv, except_ok_bind]
      try simp only []
      rw [show pyIter (JVal.jarr xs) = .ok xs from rfl, except_ok_bind]
      try simp only []
      exact materialize_index_list_c1 xs [] hok
  | false =>
      rw [if_neg (by decide)]
      exact ⟨[], rfl⟩

theorem materialize_fks_c1 : ∀ (cols : List (String × JVal)) (acc : List CatFK),
    (∀ p ∈ cols, c1ColumnOk p.1 p.2 = true) →
    ∃ fks, materialize_fks cols acc = .ok fks := by
  intro cols
  induction cols with
  | nil => intro acc h; exact ⟨acc, rfl⟩
  | cons p rest ih =>
      obtain ⟨cn, ci⟩ := p
      intro acc h
      have hp := h (cn, ci) (List.mem_cons_self _ _)
      obtain ⟨kvs, hkvs⟩ := c1ColumnOk_obj hp
      subst hkvs
      rw [materialize_fks]
      rw [show pyContainsS "foreign_key" (JVal.jobj kvs) =
        .ok (kvs.any (fun p => p.1 == "foreign_key")) from rfl, except_ok_bind]
      try simp only []
      cases hFK : kvs.any (fun p => p.1 == "foreign_key") with
      | true =>
          rw [if_pos rfl]
          obtain ⟨fkv, hfkv⟩ := any_objLookup_some hFK
          have hfko := (c1ColumnOk_fields hp).2.2.2 fkv hfkv
          obtain ⟨kvs2, hkvs2⟩ := c1FKOk_obj hfko
          subst hkvs2
          obtain ⟨⟨ft, hft, -⟩, ⟨fc, hfc, -⟩, hOD, hOU⟩ := c1FKOk_fields hfko
          rw [pyGetItemS_of_lookup hfkv, except_ok_bind]
          try simp only []
          rw [pyGetItemS_of_lookup hft, except_ok_bind]
          try simp only []
          rw [pyGetItemS_of_lookup hfc, except_ok_bind]
          try simp only []
          rw [show pyContainsS "on_delete" (JVal.jobj kvs2) =
            .ok (kvs2.any (fun p => p.1 == "on_delete")) from rfl, except_ok_bind]
          try simp only []
          cases hod : kvs2.any (fun p => p.1 == "on_delete") with
          | true =>
              rw [if_pos rfl]
              obtain ⟨odv, hodv⟩ := any_objLookup_some hod
              rw [pyGetItemS_of_lookup hodv, except_ok_bind]
              try simp only []
              rw [except_pure_bind]
              try simp only []
              rw [show pyContainsS "on_update" (JVal.jobj kvs2) =
                .ok (kvs2.any (fun p => p.1 == "on_update")) from rfl, except_ok_bind]
              try simp only []
              cases hou : kvs2.any (fun p => p.1 == "on_update") with
              | true =>
                  rw [if_pos rfl]
                  obtain ⟨ouv, houv⟩ := any_objLookup_some hou
                  rw [pyGetItemS_of_lookup houv, except_ok_bind]
                  try simp only []
                  rw [except_pure_bind]
                  try simp only []
                  exact ih _ (fun q hq => h q (List.mem_cons_of_mem _ hq))
              | false =>
                  rw [if_neg (by decide)]
                  rw [except_pure_bind]
                  try simp only []
                  exact ih _ (fun q hq => h q (List.mem_cons_of_mem _ hq))
          | false =>
              rw [if_neg (by decide)]
              rw [except_pure_bind]
              try simp only []
              rw [show pyContainsS "on_update" (JVal.jobj kvs2) =
                .ok (kvs2.any (fun p => p.1 == "on_update")) from rfl, except_ok_bind]
              try simp only []
              cases hou : kvs2.any (fun p => p.1 == "on_update") with
              | true =>
                  rw [if_pos rfl]
                  obtain ⟨ouv, houv⟩ := any_objLookup_some hou
                  rw [pyGetItemS_of_lookup houv, except_ok_bind]
                  try simp only []
                  rw [except_pure_bind]
                  try simp only []
                  exact ih _ (fun q hq => h q (List.mem_cons_of_mem _ hq))
              | false =>
                  rw [if_neg (by decide)]
                  rw [except_pure_bind]
                  try simp only []
                  exact ih _ (fun q hq => h q (List.mem_cons_of_mem _ hq))
      | false =>
          rw [if_neg (by decide)]
          exact ih _ (fun q hq => h q (List.mem_cons_of_mem _ hq))

theorem materialize_table_c1 (tn : String) {tkvs : List (String × JVal)}
    (h : c1TableOk tn (.jobj tkvs) = true) :
    ∃ (ckvs : List (String × JVal)) (catCols : List CatCol) (sql : String)
      (idxs : List CatIndex) (fks : List CatFK),
      objLookup tkvs "columns" = some (.jobj ckvs) ∧ nodupKeysB ckvs = true ∧
      materialize_table tn (.jobj tkvs) =
        .ok ⟨tn, catCols, executed_statement sql, idxs, fks⟩ ∧
      noCheck sql = true ∧
      List.Forall₂ (fun (p : String × JVal) (c : CatCol) => c.name = p.1 ∧
        ∃ kvs ty, p.2 = JVal.jobj kvs ∧ objLookup kvs "type" = some (.jstr ty) ∧
          c1TypeOk ty = true ∧ c.declType = sqlite_decl_type ty) ckvs catCols := by
  obtain ⟨hn, hsw, hD, ⟨ckvs, hck, hnd, hcols⟩, hI⟩ := c1TableOk_fields h
  obtain ⟨catCols, hmc, hf⟩ := materialize_cols_c1 ckvs [] hcols
  obtain ⟨sql, hsql, hnsql⟩ := generate_table_sql_c1 tn h
  obtain ⟨idxs, hidxs⟩ := materialize_indexes_c1 hI
  obtain ⟨fks, hfks⟩ := materialize_fks_c1 ckvs [] hcols
  refine ⟨ckvs, catCols, sql, idxs, fks, hck, hnd, ?_, hnsql, hf⟩
  rw [materialize_table]
  rw [pyGetItemS_of_lookup hck, except_ok_bind]
  try simp only []
  rw [show asObj (JVal.jobj ckvs) = .ok ckvs from rfl, except_ok_bind]
  try simp only []
  rw [show materialize_table.materialize_cols ckvs [] = .ok catCols by
    rw [hmc, List.nil_append], except_ok_bind]
  try simp only []
  rw [hsql, except_ok_bind]
  try simp only []
  rw [hidxs, except_ok_bind]
  try simp only []
  rw [hfks, except_ok_bind]
  try simp only []
  rfl

theorem c1TableOk_obj {tn : String} {ti : JVal} (h : c1TableOk tn ti = true) :
    ∃ tkvs, ti = .jobj tkvs := by
  cases ti with
  | jobj tkvs => exact ⟨tkvs, rfl⟩
  | jnull => simp [c1TableOk] at h
  | jbool b => simp [c1TableOk] at h
  | jint n => simp [c1TableOk] at h
  | jstr s => simp [c1TableOk] at h
  | jarr xs => simp [c1TableOk] at h

theorem materialize_tables_c1 : ∀ (entries : List (String × JVal)) (acc : List CatTable),
    (∀ p ∈ entries, c1TableOk p.1 p.2 = true) →
    ∃ cat, materialize_sqlite.materialize_tables entries acc = .ok (acc ++ cat) ∧
      List.Forall₂ (fun (p : String × JVal) (t : CatTable) => t.name = p.1 ∧
        sStartsWith t.name "sqlite_" = false ∧ noCheck t.createSql = true ∧
        ∃ tkvs ckvs, p.2 = JVal.jobj tkvs ∧
          objLookup tkvs "columns" = some (.jobj ckvs) ∧ nodupKeysB ckvs = true ∧
          List.Forall₂ (fun (q : String × JVal) (c : CatCol) => c.name = q.1 ∧
            ∃ kvs ty, q.2 = JVal.jobj kvs ∧ objLookup kvs "type" = some (.jstr ty) ∧
              c1TypeOk ty = true ∧ c.declType = sqlite_decl_type ty) ckvs t.cols)
        entries cat := by
  intro entries
  induction entries with
  | nil =>
      intro acc hall
      exact ⟨[], by rw [List.append_nil]; rfl, List.Forall₂.nil⟩
  | cons p rest ih =>
      obtain ⟨tn, ti⟩ := p
      intro acc hall
      have hp := hall (tn, ti) (List.mem_cons_self _ _)
      obtain ⟨tkvs, htkvs⟩ := c1TableOk_obj hp
      subst htkvs
      obtain ⟨ckvs, catCols, sql, idxs, fks, hck, hnd, hmt, hnsql, hf⟩ :=
        materialize_table_c1 tn hp
      rw [materialize_sqlite.materialize_tables]
      rw [hmt, except_ok_bind]
      try simp only []
      obtain ⟨cat, hcat, hfc⟩ := ih (acc ++ [⟨tn, catCols, executed_statement sql, idxs, fks⟩])
        (fun q hq => hall q (List.mem_cons_of_mem _ hq))
      refine ⟨⟨tn, catCols, executed_statement sql, idxs, fks⟩ :: cat, ?_, ?_⟩
      · rw [hcat, List.append_assoc, List.singleton_append]
      · refine List.Forall₂.cons ⟨rfl, (c1TableOk_fields hp).2.1, noCheck_executed hnsql,
          tkvs, ckvs, rfl, hck, hnd, hf⟩ hfc

theorem c1SchemaOk_fields {s : JVal} (h : c1SchemaOk s = true) :
    ∃ kvs tkvs, s = .jobj kvs ∧ objLookup kvs "tables" = some (.jobj tkvs) ∧
      nodupKeysB tkvs = true ∧ ∀ p ∈ tkvs, c1TableOk p.1 p.2 = true := by
  cases s with
  | jobj kvs =>
      rw [c1SchemaOk] at h
      cases hl : objLookup kvs "tables" with
      | none => rw [hl] at h; exact absurd h (by simp)
      | some v =>
          rw [hl] at h
          cases v with
          | jobj tkvs =>
              rw [Bool.and_eq_true] at h
              refine ⟨kvs, tkvs, rfl, hl, h.1, ?_⟩
              intro p hp
              exact List.all_eq_true.mp h.2 p hp
          | jnull => exact absurd h (by simp)
          | jbool b => exact absurd h (by simp)
          | jint n => exact absurd h (by simp)
          | jstr st => exact absurd h (by simp)
          | jarr xs => exact absurd h (by simp)
  | jnull => simp [c1SchemaOk] at h
  | jbool b => simp [c1SchemaOk] at h
  | jint n => simp [c1SchemaOk] at h
  | jstr st => simp [c1SchemaOk] at h
  | jarr xs => simp [c1SchemaOk] at h

theorem materialize_sqlite_c1 {kvs tkvs : List (String × JVal)}
    (hlk : objLookup kvs "tables" = some (.jobj tkvs))
    (hall : ∀ p ∈ tkvs, c1TableOk p.1 p.2 = true) :
    ∃ cat, materialize_sqlite (.jobj kvs) = .ok cat ∧
      List.Forall₂ (fun (p : String × JVal) (t : CatTable) => t.name = p.1 ∧
        sStartsWith t.name "sqlite_" = false ∧ noCheck t.createSql = true ∧
        ∃ tkvs2 ckvs, p.2 = JVal.jobj tkvs2 ∧
          objLookup tkvs2 "columns" = some (.jobj ckvs) ∧ nodupKeysB ckvs = true ∧
          List.Forall₂ (fun (q : String × JVal) (c : CatCol) => c.name = q.1 ∧
            ∃ kvs2 ty, q.2 = JVal.jobj kvs2 ∧ objLookup kvs2 "type" = some (.jstr ty) ∧
              c1TypeOk ty = true ∧ c.declType = sqlite_decl_type ty) ckvs t.cols)
        tkvs cat := by
  rw [materialize_sqlite]
  rw [show pyGet (JVal.jobj kvs) "tables" (.jobj []) =
    .ok ((objLookup kvs "tables").getD (.jobj [])) from rfl, except_ok_bind]
  try simp only []
  rw [hlk]
  rw [show (some (JVal.jobj tkvs)).getD (.jobj []) = JVal.jobj tkvs from rfl]
  rw [show asObj (JVal.jobj tkvs) = .ok tkvs from rfl, except_ok_bind]
  try simp only []
  obtain ⟨cat, hcat, hfc⟩ := materialize_tables_c1 tkvs [] hall
  rw [List.nil_append] at hcat
  exact ⟨cat, hcat, hfc⟩

theorem forall2_mem_left {α β : Type} {R : α → β → Prop} :
    ∀ {l1 : List α} {l2 : List β}, List.Forall₂ R l1 l2 →
    ∀ {a}, a ∈ l1 → ∃ b, b ∈ l2 ∧ R a b := by
  intro l1 l2 hf
  induction hf with
  | nil => intro a ha; exact absurd ha (List.not_mem_nil a)
  | cons hr _ ih =>
      intro a ha
      rw [List.mem_cons] at ha
      rcases ha with rfl | ha
      · exact ⟨_, List.mem_cons_self _ _, hr⟩
      · obtain ⟨b, hb, hrb⟩ := ih ha
        exact ⟨b, List.mem_cons_of_mem _ hb, hrb⟩

theorem forall2_mem_right {α β : Type} {R : α → β → Prop} :
    ∀ {l1 : List α} {l2 : List β}, List.Forall₂ R l1 l2 →
    ∀ {b}, b ∈ l2 → ∃ a, a ∈ l1 ∧ R a b := by
  intro l1 l2 hf
  induction hf with
  | nil => intro b hb; exact absurd hb (List.not_mem_nil b)
  | cons hr _ ih =>
      intro b hb
      rw [List.mem_cons] at hb
      rcases hb with rfl | hb
      · exact ⟨_, List.mem_cons_self _ _, hr⟩
      · obtain ⟨a, ha, hra⟩ := ih hb
        exact ⟨a, List.mem_cons_of_mem _ ha, hra⟩

theorem forall2_fst_map {α β : Type} {R : α → β → Prop} (f : α → String) (g : β → String)
    (hfg : ∀ a b, R a b → g b = f a) :
    ∀ {l1 : List α} {l2 : List β}, List.Forall₂ R l1 l2 →
    l2.map g = l1.map f := by
  intro l1 l2 hf
  induction hf with
  | nil => rfl
  | cons hr _ ih => rw [List.map_cons, List.map_cons, ih, hfg _ _ hr]

theorem insertSortedTable_perm (x : CatTable) :
    ∀ l : List CatTable, (insertSortedTable x l).Perm (x :: l) := by
  intro l
  induction l with
  | nil => exact List.Perm.refl _
  | cons y ys ih =>
      rw [insertSortedTable]
      by_cases hle : strLeB x.name y.name = true
      · rw [if_pos hle]
      · rw [if_neg hle]
        exact (List.Perm.cons y ih).trans (List.Perm.swap x y ys)

theorem sortTablesByName_perm : ∀ l : List CatTable, (sortTablesByName l).Perm l := by
  intro l
  induction l with
  | nil => exact List.Perm.refl _
  | cons x xs ih =>
      rw [sortTablesByName]
      exact (insertSortedTable_perm x (sortTablesByName xs)).trans (List.Perm.cons x ih)

theorem nodupKeysB_nodup : ∀ l : List (String × JVal),
    nodupKeysB l = true → (l.map Prod.fst).Nodup := by
  intro l
  induction l with
  | nil => intro h; exact List.nodup_nil
  | cons p rest ih =>
      obtain ⟨k, v⟩ := p
      intro h
      rw [nodupKeysB, Bool.and_eq_true] at h
      rw [List.map_cons]
      refine List.Nodup.cons ?_ (ih h.2)
      intro hmem
      rw [List.mem_map] at hmem
      obtain ⟨q, hq, hqk⟩ := hmem
      have h1 := h.1
      rw [Bool.not_eq_true', List.any_eq_false] at h1
      have h2 := h1 q hq
      rw [hqk] at h2
      exact h2 (beq_self_eq_true k)

theorem lookup_of_mem_nodup {l : List (String × JVal)} {k : String} {v : JVal}
    (hnd : (l.map Prod.fst).Nodup) (hm : (k, v) ∈ l) : objLookup l k = some v := by
  induction l with
  | nil => exact absurd hm (List.not_mem_nil _)
  | cons p rest ih =>
      obtain ⟨k0, v0⟩ := p
      rw [List.map_cons, List.nodup_cons] at hnd
      rw [List.mem_cons] at hm
      rcases hm with heq | hm
      · rw [Prod.mk.injEq] at heq
        obtain ⟨rfl, rfl⟩ := heq
        rw [objLookup, List.find?_cons_of_pos _ (by simp)]
        rfl
      · have hkmem : k ∈ rest.map Prod.fst := List.mem_map.mpr ⟨(k, v), hm, rfl⟩
        have hk : ¬ (k0 = k) := fun heq => hnd.1 (by rw [heq]; exact hkmem)
        rw [objLookup, List.find?_cons_of_neg _ (by simp [hk])]
        exact ih hnd.2 hm

theorem objStore_fresh (k : String) (v : JVal) :
    ∀ l : List (String × JVal), (∀ p ∈ l, ¬ p.1 = k) →
    objStore l k v = l ++ [(k, v)] := by
  intro l
  induction l with
  | nil => intro h; rfl
  | cons p rest ih =>
      obtain ⟨k0, v0⟩ := p
      intro h
      rw [objStore]
      rw [if_neg ?_]
      · rw [List.cons_append, ih (fun q hq => h q (List.mem_cons_of_mem _ hq))]
      · have := h (k0, v0) (List.mem_cons_self _ _)
        simp only [] at this
        simp [this]

theorem fold_objStore_eq_map (f : CatCol → JVal) :
    ∀ (cols : List CatCol) (acc : List (String × JVal)),
    ((acc.map Prod.fst ++ cols.map CatCol.name).Nodup) →
    cols.foldl (fun a c => objStore a c.name (f c)) acc =
      acc ++ cols.map (fun c => (c.name, f c)) := by
  intro cols
  induction cols with
  | nil => intro acc h; rw [List.foldl_nil, List.map_nil, List.append_nil]
  | cons c cs ih =>
      intro acc h
      rw [List.foldl_cons]
      have hfresh : ∀ p ∈ acc, ¬ p.1 = c.name := by
        intro p hp heq
        rw [List.map_cons] at h
        have hdisj := List.disjoint_of_nodup_append h
        exact hdisj (List.mem_map.mpr ⟨p, hp, heq⟩) (List.mem_cons_self _ _)
      rw [objStore_fresh c.name (f c) acc hfresh]
      have h2 : (((acc ++ [(c.name, f c)]).map Prod.fst) ++ cs.map CatCol.name).Nodup := by
        rw [List.map_append, List.append_assoc]
        rw [List.map_cons] at h
        simpa using h
      rw [ih (acc ++ [(c.name, f c)]) h2]
      rw [List.map_cons, List.append_assoc, List.singleton_append]

theorem extract_column_def_type (sql : String) (c : CatCol) (hsql : noCheck sql = true)
    (ty : String) (hdt : c.declType = sqlite_decl_type ty) (hty : c1TypeOk ty = true) :
    objLookup (extract_column_def sql c) "type" = some (.jstr ty) := by
  obtain ⟨tail, hparse⟩ := parse_sqlite_type_c1 ty hty
  rw [extract_column_def, hdt, hparse, extract_enum_none sql c.name hsql]
  cases hdf : c.dflt with
  | none => rfl
  | some d => rfl

theorem extract_table_schema_shape (t : CatTable) :
    ∃ rest, extract_sqlite_table_schema t =
      .jobj (("description", JVal.jstr (t.name ++ " table")) ::
        ("columns", JVal.jobj (t.cols.foldl (fun acc col =>
          objStore acc col.name (.jobj (extract_column_def t.createSql col))) [])) ::
        rest) := by
  rw [extract_sqlite_table_schema]
  by_cases hie : (t.indexes.filter (fun i => !sStartsWith i.name "sqlite_")).isEmpty = true
  · rw [if_pos hie]
    exact ⟨[], rfl⟩
  · rw [if_neg hie]
    exact ⟨_, rfl⟩

theorem mem_of_objLookup {l : List (String × JVal)} {k : String} {v : JVal}
    (h : objLookup l k = some v) : (k, v) ∈ l := by
  rw [objLookup] at h
  cases hf : l.find? (fun p => p.1 == k) with
  | none => rw [hf] at h; exact absurd h (by simp)
  | some p =>
      rw [hf] at h
      obtain ⟨pk, pv⟩ := p
      have hm := List.mem_of_find?_eq_some hf
      have hpk := List.find?_some hf
      simp only [Option.map_some'] at h
      have h2 : pv = v := by
        have := h
        simp at this
        exact this
      have h3 : pk = k := by
        simp only [] at hpk
        exact eq_of_beq hpk
      rw [← h2, ← h3]
      exact hm

theorem extract_table_columns_lookup (t : CatTable)
    (hnd : (t.cols.map CatCol.name).Nodup) :
    jAt (extract_sqlite_table_schema t) "columns" =
      some (.jobj (t.cols.map (fun c =>
        (c.name, JVal.jobj (extract_column_def t.createSql c))))) := by
  obtain ⟨rest, hshape⟩ := extract_table_schema_shape t
  rw [hshape]
  rw [show t.cols.foldl (fun acc col =>
      objStore acc col.name (.jobj (extract_column_def t.createSql col))) [] =
    t.cols.map (fun c => (c.name, JVal.jobj (extract_column_def t.createSql c))) by
      have := fold_objStore_eq_map (fun c => JVal.jobj (extract_column_def t.createSql c))
        t.cols [] (by simpa using hnd)
      rw [this, List.nil_append]]
  rfl

/-- C1: as amended — full document equality fails (the extraction adds a
database block, descriptions, explicit nullable/primary_key flags and a
relationships list), but for every document in the restricted universe
(distinct, non-reserved table names; distinct column names; only the
types INTEGER, TEXT, VARCHAR(n), BOOLEAN, DATE, DATETIME; "check"-free
names, descriptions, defaults and foreign-key fields) the SQLite
materialize-then-extract round trip succeeds and preserves every
column's declared type: each input table and column reappears in the
extracted document with the same type string. -/
theorem C1_type_roundtrip (s : JVal) (hs : c1SchemaOk s = true) (dbPath now : String) :
    ∃ e, roundtrip_sqlite s dbPath now = .ok e ∧
      ∀ tv tn ti cols cn ci ty,
        jAt s "tables" = some tv → jAt tv tn = some ti →
        jAt ti "columns" = some cols → jAt cols cn = some ci →
        jAt ci "type" = some (.jstr ty) →
        ∃ tv2 ti2 cols2 ci2,
          jAt e "tables" = some tv2 ∧ jAt tv2 tn = some ti2 ∧
          jAt ti2 "columns" = some cols2 ∧ jAt cols2 cn = some ci2 ∧
          jAt ci2 "type" = some (.jstr ty) := by
  obtain ⟨kvs, tkvs, hks, hlk, hnd, hall⟩ := c1SchemaOk_fields hs
  subst hks
  obtain ⟨cat, hcat, hRT⟩ := materialize_sqlite_c1 hlk hall
  refine ⟨extract_sqlite_schema cat dbPath now, ?_, ?_⟩
  · rw [roundtrip_sqlite, hcat, except_ok_bind]
    rfl
  · intro tv tn ti cols cn ci ty h1 h2 h3 h4 h5
    rw [show jAt (JVal.jobj kvs) "tables" = objLookup kvs "tables" from rfl, hlk] at h1
    have htv : JVal.jobj tkvs = tv := by injection h1
    subst htv
    rw [show jAt (JVal.jobj tkvs) tn = objLookup tkvs tn from rfl] at h2
    have hmem := mem_of_objLookup h2
    obtain ⟨t, htcat, hRTt⟩ := forall2_mem_left hRT hmem
    obtain ⟨htn, htsw, htsql, tkvs2, ckvs, hti, hcols_lk, hcnd, hfcols⟩ := hRTt
    subst hti
    rw [show jAt (JVal.jobj tkvs2) "columns" = objLookup tkvs2 "columns" from rfl,
      hcols_lk] at h3
    have hcols2 : JVal.jobj ckvs = cols := by injection h3
    subst hcols2
    rw [show jAt (JVal.jobj ckvs) cn = objLookup ckvs cn from rfl] at h4
    have hmemc := mem_of_objLookup h4
    obtain ⟨c, hccat, hRc⟩ := forall2_mem_left hfcols hmemc
    obtain ⟨hcname, kvs3, ty2, hci, hty2lk, hty2ok, hdt⟩ := hRc
    subst hci
    rw [show jAt (JVal.jobj kvs3) "type" = objLookup kvs3 "type" from rfl, hty2lk] at h5
    have hje : JVal.jstr ty2 = JVal.jstr ty := by injection h5
    have hty0 : ty2 = ty := by injection hje
    subst hty0
    have hnamesT : cat.map CatTable.name = tkvs.map Prod.fst :=
      forall2_fst_map Prod.fst CatTable.name (fun a b hab => hab.1) hRT
    have hndT : (cat.map CatTable.name).Nodup := by
      rw [hnamesT]; exact nodupKeysB_nodup tkvs hnd
    have hfil : cat.filter (fun t2 => !sStartsWith t2.name "sqlite_") = cat := by
      apply List.filter_eq_self.mpr
      intro t2 ht2
      obtain ⟨p2, hp2, hR2⟩ := forall2_mem_right hRT ht2
      rw [hR2.2.1]
      rfl
    have hperm := sortTablesByName_perm cat
    have hsortmem : t ∈ sortTablesByName cat := (hperm.mem_iff).mpr htcat
    have hndS : ((sortTablesByName cat).map CatTable.name).Nodup :=
      ((hperm.map CatTable.name).nodup_iff).mpr hndT
    have hndc : (t.cols.map CatCol.name).Nodup := by
      rw [forall2_fst_map Prod.fst CatCol.name (fun a b hab => hab.1) hfcols]
      exact nodupKeysB_nodup ckvs hcnd
    refine ⟨.jobj ((sortTablesByName cat).map (fun t2 =>
        (t2.name, extract_sqlite_table_schema t2))), extract_sqlite_table_schema t,
      .jobj (t.cols.map (fun c2 =>
        (c2.name, JVal.jobj (extract_column_def t.createSql c2)))),
      .jobj (extract_column_def t.createSql c), ?_, ?_, ?_, ?_, ?_⟩
    · rw [extract_sqlite_schema, hfil]
      rfl
    · have hkeys : (((sortTablesByName cat).map (fun t2 =>
          (t2.name, extract_sqlite_table_schema t2))).map Prod.fst) =
          (sortTablesByName cat).map CatTable.name := by
        rw [List.map_map]; rfl
      have hmm : (t.name, extract_sqlite_table_schema t) ∈
          (sortTablesByName cat).map (fun t2 =>
            (t2.name, extract_sqlite_table_schema t2)) :=
        List.mem_map.mpr ⟨t, hsortmem, rfl⟩
      rw [htn] at hmm
      exact lookup_of_mem_nodup (by rw [hkeys]; exact hndS) hmm
    · exact extract_table_columns_lookup t hndc
    · have hmm2 : (c.name, JVal.jobj (extract_column_def t.createSql c)) ∈
          t.cols.map (fun c2 =>
            (c2.name, JVal.jobj (extract_column_def t.createSql c2))) :=
        List.mem_map.mpr ⟨c, hccat, rfl⟩
      rw [hcname] at hmm2
      refine lookup_of_mem_nodup ?_ hmm2
      rw [show ((t.cols.map (fun c2 =>
        (c2.name, JVal.jobj (extract_column_def t.createSql c2)))).map Prod.fst) =
        t.cols.map CatCol.name from by rw [List.map_map]; rfl]
      exact hndc
    · exact extract_column_def_type t.createSql c htsql _ hdt hty2ok

theorem C1_type_roundtrip_witness :
    c1SchemaOk doc_roundtrip_wit = true ∧
    (∃ e, roundtrip_sqlite doc_roundtrip_wit "db.sqlite3" "t" = .ok e ∧
      ∀ tv tn ti cols cn ci ty,
        jAt doc_roundtrip_wit "tables" = some tv → jAt tv tn = some ti →
        jAt ti "columns" = some cols → jAt cols cn = some ci →
        jAt ci "type" = some (.jstr ty) →
        ∃ tv2 ti2 cols2 ci2,
          jAt e "tables" = some tv2 ∧ jAt tv2 tn = some ti2 ∧
          jAt ti2 "columns" = some cols2 ∧ jAt cols2 cn = some ci2 ∧
          jAt ci2 "type" = some (.jstr ty)) :=
  ⟨by decide, C1_type_roundtrip doc_roundtrip_wit (by decide) "db.sqlite3" "t"⟩
